import Mathlib

/-!
Verification of the SchemaSense core against its specification.

This file shallowly embeds the Python sources of the repository:
  * `backend/app/models/schema_model.py`  (canonical schema model and mutations)
  * `backend/app/schema/ddl_executor.py`  (DDL generation from edit actions)
  * `backend/app/nl_to_sql/validator.py`  (SQL validation and normalization)
  * `backend/app/db_provisioner.py`       (managed database provisioning)

Python dictionaries are modelled as insertion-ordered association lists with
the exact update/delete semantics of CPython dicts; exceptions are modelled
by explicit result types that carry the state visible when the exception
escapes; the sqlglot expression trees consumed by the validator are modelled
by a small inductive AST mirroring the node kinds the code inspects.
-/

/-! ## Python dictionaries as insertion-ordered association lists -/

/-- A Python `dict` with `String` keys: an insertion-ordered association list
whose keys are unique by construction of the operations below. -/
abbrev PyDict (α : Type) := List (String × α)

/-- Dictionary lookup: the value at the first (unique) matching key. -/
def dictGet? {α : Type} : PyDict α → String → Option α
  | [], _ => none
  | (k', v) :: rest, k => if k' = k then some v else dictGet? rest k

/-- Python `d[k] = v`: replace in place when the key exists, append otherwise. -/
def dictSet {α : Type} : PyDict α → String → α → PyDict α
  | [], k, v => [(k, v)]
  | (k', v') :: rest, k, v =>
      if k' = k then (k, v) :: rest else (k', v') :: dictSet rest k v

/-- Python `del d[k]`: remove the entry with the given key (if present). -/
def dictDel {α : Type} : PyDict α → String → PyDict α
  | [], _ => []
  | (k', v') :: rest, k => if k' = k then rest else (k', v') :: dictDel rest k

/-- Python `k in d`. -/
def dictContains {α : Type} (d : PyDict α) (k : String) : Bool :=
  (dictGet? d k).isSome

theorem dictGet?_dictSet_self {α : Type} (d : PyDict α) (k : String) (v : α) :
    dictGet? (dictSet d k v) k = some v := by
  induction d with
  | nil => simp [dictSet, dictGet?]
  | cons hd tl ih =>
      obtain ⟨k', v'⟩ := hd
      by_cases h : k' = k <;> simp [dictSet, dictGet?, h, ih]

theorem dictGet?_dictSet_ne {α : Type} (d : PyDict α) (k k' : String) (v : α)
    (h : k ≠ k') : dictGet? (dictSet d k v) k' = dictGet? d k' := by
  induction d with
  | nil => simp [dictSet, dictGet?, h]
  | cons hd tl ih =>
      obtain ⟨k0, v0⟩ := hd
      by_cases h0 : k0 = k
      · subst h0
        simp [dictSet, dictGet?, h]
      · simp only [dictSet, if_neg h0]
        by_cases h1 : k0 = k'
        · simp [dictGet?, h1]
        · simp [dictGet?, h1, ih]

/-! ## Python string primitives

Core `String` functions such as `String.toLower` are implemented by byte-position
loops that do not reduce definitionally, so the Python string operations used by
the sources are modelled here by structurally recursive functions over the
underlying character lists (identifiers in this code base are ASCII, where
Python's `str.lower`/`str.upper`/`str.strip` agree with the per-character
ASCII case maps and whitespace test). -/

/-- Python `s.lower()` (ASCII). -/
def pyLower (s : String) : String := ⟨s.data.map Char.toLower⟩

/-- Python `s.upper()` (ASCII). -/
def pyUpper (s : String) : String := ⟨s.data.map Char.toUpper⟩

/-- Python `s.strip()`. -/
def pyStrip (s : String) : String :=
  ⟨((s.data.dropWhile Char.isWhitespace).reverse.dropWhile Char.isWhitespace).reverse⟩

/-- Python `s.endswith(suffix)`. -/
def pyEndsWith (s suffix : String) : Bool :=
  suffix.data.isSuffixOf s.data

/-- Python `s[:-n]`. -/
def pyDropRight (s : String) (n : Nat) : String :=
  ⟨s.data.take (s.data.length - n)⟩

/-- Python `"sep".join(parts)`. -/
def pyJoin (sep : String) : List String → String
  | [] => ""
  | [s] => s
  | s :: rest => s ++ sep ++ pyJoin sep rest

/-! ## Schema model (`backend/app/models/schema_model.py`) -/

/-- The fixed catalog of accepted PostgreSQL base type names
(`VALID_POSTGRES_TYPES` in the source). -/
def VALID_POSTGRES_TYPES : List String :=
  ["smallint", "integer", "int", "bigint", "decimal", "numeric", "real", "double precision",
   "smallserial", "serial", "bigserial", "int2", "int4", "int8", "float4", "float8",
   "money",
   "character varying", "varchar", "character", "char", "text",
   "bytea",
   "timestamp", "timestamp without time zone", "timestamp with time zone",
   "date", "time", "time without time zone", "time with time zone", "interval",
   "boolean", "bool",
   "enum",
   "point", "line", "lseg", "box", "path", "polygon", "circle",
   "cidr", "inet", "macaddr", "macaddr8",
   "bit", "bit varying",
   "tsvector", "tsquery",
   "uuid",
   "xml",
   "json", "jsonb",
   "array",
   "int4range", "int8range", "numrange", "tsrange", "tstzrange", "daterange",
   "oid", "regproc", "regprocedure", "regoper", "regoperator", "regclass",
   "regtype", "regrole", "regnamespace", "regconfig", "regdictionary"]

/-- A column of a table (`Column` pydantic model). -/
structure Column where
  name : String
  type : String
  is_pk : Bool := false
  is_fk : Bool := false
  nullable : Bool := true
deriving Repr, DecidableEq

/-- A table (`Table` pydantic model). -/
structure Table where
  name : String
  schema : String := "public"
  columns : List Column := []
  row_count : Option Nat := none
deriving Repr, DecidableEq

/-- A foreign-key relationship (`Relationship` pydantic model). -/
structure Relationship where
  from_table : String
  from_column : String
  to_table : String
  to_column : String
deriving Repr, DecidableEq

/-- The root aggregate (`CanonicalSchemaModel`): tables keyed by the
fully-qualified `"schema.name"` string, plus a list of relationships. -/
structure CanonicalSchemaModel where
  tables : PyDict Table := []
  relationships : List Relationship := []
deriving Repr, DecidableEq

/-- Result of a mutation call: either the successfully mutated model, or a
`SchemaValidationError` message together with the state of the model at the
moment the exception escapes (Python mutates in place, so an exception does
not roll anything back). -/
inductive MutResult where
  | ok (m : CanonicalSchemaModel)
  | err (msg : String) (m : CanonicalSchemaModel)
deriving Repr, DecidableEq

namespace CanonicalSchemaModel

/-- `_validate_column_type`: returns the error message of the
`SchemaValidationError` raised for an invalid type, or `none` if valid. -/
def _validate_column_type (col_type : String) : Option String :=
  let normalized_type := pyStrip (pyLower col_type)
  if pyEndsWith normalized_type "[]" then
    let base_type := pyStrip (pyDropRight normalized_type 2)
    if VALID_POSTGRES_TYPES.contains base_type then none
    else some (s!"Invalid PostgreSQL type: \x27{col_type}\x27. Base type \x27{base_type}\x27 is not recognized.")
  else if normalized_type.data.contains '(' then
    let base_type := pyStrip ⟨normalized_type.data.takeWhile (· ≠ '(')⟩
    if VALID_POSTGRES_TYPES.contains base_type then none
    else some (s!"Invalid PostgreSQL type: \x27{col_type}\x27. Base type \x27{base_type}\x27 is not recognized.")
  else if VALID_POSTGRES_TYPES.contains normalized_type then none
  else some (s!"Invalid PostgreSQL type: \x27{col_type}\x27. Must be a valid PostgreSQL data type.")

/-- `_get_column_by_name`: the first column with the given name. -/
def _get_column_by_name (table : Table) (column_name : String) : Option Column :=
  table.columns.find? (fun col => col.name == column_name)

/-- `_is_column_referenced_by_fk`: relationships whose `to` endpoint is the
given table/column pair. -/
def _is_column_referenced_by_fk (self : CanonicalSchemaModel)
    (table_name column_name : String) : List Relationship :=
  self.relationships.filter
    (fun rel => rel.to_table == table_name && rel.to_column == column_name)

/-- `_get_outgoing_fks` specialized to a concrete column name (the only way
the source calls it with a column). -/
def _get_outgoing_fks (self : CanonicalSchemaModel)
    (table_name column_name : String) : List Relationship :=
  self.relationships.filter
    (fun rel => rel.from_table == table_name && rel.from_column == column_name)

/-- The first type-validation error among a list of columns (the `for col in
columns: self._validate_column_type(col.type)` loop). -/
def firstColumnTypeError : List Column → Option String
  | [] => none
  | col :: rest =>
      match _validate_column_type col.type with
      | some e => some e
      | none => firstColumnTypeError rest

/-- Replace the first column with the given name (Python mutates the `Column`
object found by `_get_column_by_name` in place). -/
def updateFirstColumn (cols : List Column) (name : String) (f : Column → Column) :
    List Column :=
  match cols with
  | [] => []
  | c :: rest => if c.name == name then f c :: rest else c :: updateFirstColumn rest name f

/-- `add_table`. -/
def add_table (self : CanonicalSchemaModel) (name : String)
    (schema : String := "public") (columns : List Column := []) : MutResult :=
  let fully_qualified_name := schema ++ "." ++ name
  if dictContains self.tables fully_qualified_name then
    .err (s!"Table \x27{fully_qualified_name}\x27 already exists in schema \x27{schema}\x27.") self
  else
    match firstColumnTypeError columns with
    | some e => .err e self
    | none =>
        let new_table : Table :=
          { name := name, schema := schema, columns := columns, row_count := none }
        .ok { self with tables := dictSet self.tables fully_qualified_name new_table }

/-- `rename_table`. -/
def rename_table (self : CanonicalSchemaModel) (old_name new_name : String)
    (schema : String := "public") : MutResult :=
  let old_fully_qualified := schema ++ "." ++ old_name
  let new_fully_qualified := schema ++ "." ++ new_name
  match dictGet? self.tables old_fully_qualified with
  | none => .err (s!"Table \x27{old_fully_qualified}\x27 does not exist.") self
  | some table =>
      if dictContains self.tables new_fully_qualified then
        .err (s!"Table \x27{new_fully_qualified}\x27 already exists. Cannot rename.") self
      else
        let table := { table with name := new_name }
        let tables := dictDel (dictSet self.tables new_fully_qualified table) old_fully_qualified
        let relationships := self.relationships.map (fun rel =>
          let rel := if rel.from_table == old_fully_qualified then
              { rel with from_table := new_fully_qualified } else rel
          if rel.to_table == old_fully_qualified then
              { rel with to_table := new_fully_qualified } else rel)
        .ok { tables := tables, relationships := relationships }

/-- `drop_table`. -/
def drop_table (self : CanonicalSchemaModel) (name : String)
    (schema : String := "public") (force : Bool := false) : MutResult :=
  let fully_qualified_name := schema ++ "." ++ name
  if ¬ dictContains self.tables fully_qualified_name then
    .err (s!"Table \x27{fully_qualified_name}\x27 does not exist.") self
  else
    let referenced_by := self.relationships.filter (fun rel => rel.to_table == fully_qualified_name)
    if referenced_by ≠ [] && !force then
      let fk_details := referenced_by.map (fun r => r.from_table ++ "." ++ r.from_column)
      let fk_joined := pyJoin ", " fk_details
      .err (s!"Cannot drop table \x27{fully_qualified_name}\x27. It is referenced by foreign keys: {fk_joined}. Use force=True to drop anyway.") self
    else
      .ok { tables := dictDel self.tables fully_qualified_name,
            relationships := self.relationships.filter (fun rel =>
              rel.from_table != fully_qualified_name && rel.to_table != fully_qualified_name) }

/-- `add_column`. -/
def add_column (self : CanonicalSchemaModel) (table_name : String) (column : Column)
    (schema : String := "public") : MutResult :=
  let fully_qualified_name := schema ++ "." ++ table_name
  match dictGet? self.tables fully_qualified_name with
  | none => .err (s!"Table \x27{fully_qualified_name}\x27 does not exist.") self
  | some table =>
      let column_name := column.name
      if (_get_column_by_name table column_name).isSome then
        .err (s!"Column \x27{column_name}\x27 already exists in table \x27{fully_qualified_name}\x27.") self
      else
        match _validate_column_type column.type with
        | some e => .err e self
        | none =>
            let table : Table := { table with columns := table.columns ++ [column] }
            .ok { self with tables := dictSet self.tables fully_qualified_name table }

/-- `rename_column`. -/
def rename_column (self : CanonicalSchemaModel) (table_name old_col new_col : String)
    (schema : String := "public") : MutResult :=
  let fully_qualified_name := schema ++ "." ++ table_name
  match dictGet? self.tables fully_qualified_name with
  | none => .err (s!"Table \x27{fully_qualified_name}\x27 does not exist.") self
  | some table =>
      if (_get_column_by_name table old_col).isNone then
        .err (s!"Column \x27{old_col}\x27 does not exist in table \x27{fully_qualified_name}\x27.") self
      else if (_get_column_by_name table new_col).isSome then
        .err (s!"Column \x27{new_col}\x27 already exists in table \x27{fully_qualified_name}\x27.") self
      else
        let cols := updateFirstColumn table.columns old_col (fun c => { c with name := new_col })
        let table : Table := { table with columns := cols }
        let relationships := self.relationships.map (fun rel =>
          let rel := if rel.from_table == fully_qualified_name && rel.from_column == old_col then
              { rel with from_column := new_col } else rel
          if rel.to_table == fully_qualified_name && rel.to_column == old_col then
              { rel with to_column := new_col } else rel)
        .ok { tables := dictSet self.tables fully_qualified_name table,
              relationships := relationships }

/-- `drop_column`. -/
def drop_column (self : CanonicalSchemaModel) (table_name column_name : String)
    (schema : String := "public") (force : Bool := false) : MutResult :=
  let fully_qualified_name := schema ++ "." ++ table_name
  match dictGet? self.tables fully_qualified_name with
  | none => .err (s!"Table \x27{fully_qualified_name}\x27 does not exist.") self
  | some table =>
      if (_get_column_by_name table column_name).isNone then
        .err (s!"Column \x27{column_name}\x27 does not exist in table \x27{fully_qualified_name}\x27.") self
      else
        let referenced_by := self._is_column_referenced_by_fk fully_qualified_name column_name
        if referenced_by ≠ [] && !force then
          let fk_details := referenced_by.map (fun r => r.from_table ++ "." ++ r.from_column)
          let fk_joined := pyJoin ", " fk_details
          .err (s!"Cannot drop column \x27{fully_qualified_name}.{column_name}\x27. It is referenced by foreign keys: {fk_joined}. Use force=True to drop anyway.") self
        else
          let outgoing_fks := self._get_outgoing_fks fully_qualified_name column_name
          if outgoing_fks ≠ [] && !force then
            let fk_details := outgoing_fks.map (fun r => r.to_table ++ "." ++ r.to_column)
            let fk_joined := pyJoin ", " fk_details
            .err (s!"Cannot drop column \x27{fully_qualified_name}.{column_name}\x27. It has foreign key constraints to: {fk_joined}. Use force=True to drop anyway.") self
          else
            .ok { tables := dictSet self.tables fully_qualified_name
                    { table with columns := table.columns.filter (fun col => col.name != column_name) },
                  relationships := self.relationships.filter (fun rel =>
                    ¬ ((rel.from_table == fully_qualified_name && rel.from_column == column_name) ||
                       (rel.to_table == fully_qualified_name && rel.to_column == column_name))) }

/-- `add_relationship`. -/
def add_relationship (self : CanonicalSchemaModel)
    (from_table from_column to_table to_column : String)
    (from_schema : String := "public") (to_schema : String := "public") : MutResult :=
  let from_fqn := from_schema ++ "." ++ from_table
  let to_fqn := to_schema ++ "." ++ to_table
  match dictGet? self.tables from_fqn with
  | none => .err (s!"Source table \x27{from_fqn}\x27 does not exist.") self
  | some from_table_obj =>
      match dictGet? self.tables to_fqn with
      | none => .err (s!"Target table \x27{to_fqn}\x27 does not exist.") self
      | some to_table_obj =>
          match _get_column_by_name from_table_obj from_column with
          | none => .err (s!"Source column \x27{from_column}\x27 does not exist in table \x27{from_fqn}\x27.") self
          | some _from_col =>
              match _get_column_by_name to_table_obj to_column with
              | none => .err (s!"Target column \x27{to_column}\x27 does not exist in table \x27{to_fqn}\x27.") self
              | some to_col =>
                  if !to_col.is_pk then
                    .err (s!"Target column \x27{to_fqn}.{to_column}\x27 must be a primary key or unique column. Foreign keys must reference a PK or unique constraint.") self
                  else if self.relationships.any (fun rel =>
                      rel.from_table == from_fqn && rel.from_column == from_column &&
                      rel.to_table == to_fqn && rel.to_column == to_column) then
                    .err (s!"Relationship from \x27{from_fqn}.{from_column}\x27 to \x27{to_fqn}.{to_column}\x27 already exists.") self
                  else
                    let cols := updateFirstColumn from_table_obj.columns from_column
                      (fun c => { c with is_fk := true })
                    let tables := dictSet self.tables from_fqn ({ from_table_obj with columns := cols })
                    let new_relationship : Relationship :=
                      { from_table := from_fqn, from_column := from_column,
                        to_table := to_fqn, to_column := to_column }
                    .ok { tables := tables,
                          relationships := self.relationships ++ [new_relationship] }

/-- `remove_relationship`. -/
def remove_relationship (self : CanonicalSchemaModel)
    (from_table from_column to_table to_column : String)
    (from_schema : String := "public") (to_schema : String := "public") : MutResult :=
  let from_fqn := from_schema ++ "." ++ from_table
  let to_fqn := to_schema ++ "." ++ to_table
  match self.relationships.findIdx? (fun rel =>
      rel.from_table == from_fqn && rel.from_column == from_column &&
      rel.to_table == to_fqn && rel.to_column == to_column) with
  | none =>
      .err (s!"Relationship from \x27{from_fqn}.{from_column}\x27 to \x27{to_fqn}.{to_column}\x27 does not exist.") self
  | some i =>
      let relationships := self.relationships.eraseIdx i
      let m : CanonicalSchemaModel := { self with relationships := relationships }
      match dictGet? m.tables from_fqn with
      | none => .ok m
      | some from_table_obj =>
          match _get_column_by_name from_table_obj from_column with
          | none => .ok m
          | some _ =>
              let still_fk := relationships.any (fun rel =>
                rel.from_table == from_fqn && rel.from_column == from_column)
              if still_fk then .ok m
              else
                let cols := updateFirstColumn from_table_obj.columns from_column
                  (fun c => { c with is_fk := false })
                .ok { m with tables := dictSet m.tables from_fqn ({ from_table_obj with columns := cols }) }

end CanonicalSchemaModel

/-! ## The mutation API as a single operation type (for claims about
"every mutation operation") -/

/-- One call to the Schema Model mutation API, with its full argument tuple. -/
inductive MutOp where
  | addTableOp (name schema : String) (columns : List Column)
  | renameTableOp (old_name new_name schema : String)
  | dropTableOp (name schema : String) (force : Bool)
  | addColumnOp (table_name : String) (column : Column) (schema : String)
  | renameColumnOp (table_name old_col new_col schema : String)
  | dropColumnOp (table_name column_name schema : String) (force : Bool)
  | addRelationshipOp (from_table from_column to_table to_column from_schema to_schema : String)
  | removeRelationshipOp (from_table from_column to_table to_column from_schema to_schema : String)
deriving Repr, DecidableEq

/-- Dispatch a `MutOp` to the corresponding mutation method. -/
def CanonicalSchemaModel.applyOp (m : CanonicalSchemaModel) : MutOp → MutResult
  | .addTableOp name schema columns => m.add_table name schema columns
  | .renameTableOp old_name new_name schema => m.rename_table old_name new_name schema
  | .dropTableOp name schema force => m.drop_table name schema force
  | .addColumnOp table_name column schema => m.add_column table_name column schema
  | .renameColumnOp table_name old_col new_col schema =>
      m.rename_column table_name old_col new_col schema
  | .dropColumnOp table_name column_name schema force =>
      m.drop_column table_name column_name schema force
  | .addRelationshipOp ft fc tt tc fs ts => m.add_relationship ft fc tt tc fs ts
  | .removeRelationshipOp ft fc tt tc fs ts => m.remove_relationship ft fc tt tc fs ts

/-! ## Concrete example models -/

/-- The `public.customers` table of the running example. -/
def customersTable : Table :=
  { name := "customers", schema := "public",
    columns := [{ name := "id", type := "integer", is_pk := true, nullable := false },
                { name := "name", type := "text" }] }

/-- The `public.orders` table of the running example, whose `customer_id`
column carries a foreign key to `customers.id`. -/
def ordersTable : Table :=
  { name := "orders", schema := "public",
    columns := [{ name := "id", type := "integer", is_pk := true, nullable := false },
                { name := "customer_id", type := "integer", is_fk := true, nullable := false }] }

/-- Model with `public.customers(id PK, name)` and
`public.orders(id PK, customer_id FK → customers.id)`. -/
def customersOrdersModel : CanonicalSchemaModel :=
  { tables := [("public.customers", customersTable), ("public.orders", ordersTable)],
    relationships := [{ from_table := "public.orders", from_column := "customer_id",
                        to_table := "public.customers", to_column := "id" }] }

/-- The `public.orders` table with the `customer_id` foreign-key flag cleared. -/
def ordersTableBase : Table :=
  { name := "orders", schema := "public",
    columns := [{ name := "id", type := "integer", is_pk := true, nullable := false },
                { name := "customer_id", type := "integer", nullable := false }] }

/-- Like `customersOrdersModel` but without the relationship and with the
`customer_id` flag cleared: a model where the relationship can still be added. -/
def customersOrdersBase : CanonicalSchemaModel :=
  { tables := [("public.customers", customersTable), ("public.orders", ordersTableBase)],
    relationships := [] }

/-- The `public.customers` table after its `id` column was dropped. -/
def customersTableNoId : Table :=
  { name := "customers", schema := "public", columns := [{ name := "name", type := "text" }] }

/-- The result of force-dropping `public.customers.id` from `customersOrdersModel`:
the column and the relationship are gone, but `orders.customer_id` still has
`is_fk = true`. -/
def customersOrdersDroppedId : CanonicalSchemaModel :=
  { tables := [("public.customers", customersTableNoId), ("public.orders", ordersTable)],
    relationships := [] }

/-! ## Shared lemmas about column updates -/

/-- Looking up a column after `updateFirstColumn` with a name-preserving update
returns the update applied to the original lookup result. -/
theorem get_column_updateFirstColumn (cols : List Column) (name : String) (f : Column → Column)
    (hf : ∀ c, (f c).name = c.name) :
    (CanonicalSchemaModel.updateFirstColumn cols name f).find? (fun col => col.name == name) =
      (cols.find? (fun col => col.name == name)).map f := by
  induction cols with
  | nil => simp [CanonicalSchemaModel.updateFirstColumn]
  | cons c rest ih =>
      by_cases h : c.name == name
      · simp [CanonicalSchemaModel.updateFirstColumn, h, List.find?, hf]
      · simp [CanonicalSchemaModel.updateFirstColumn, h, List.find?, ih]

/-! ## Claim C4 -/

/-- C4: every mutation operation of `CanonicalSchemaModel` (add_table,
rename_table, drop_table, add_column, rename_column, drop_column,
add_relationship, remove_relationship) is atomic: for every model and every
argument tuple, if the call raises `SchemaValidationError`, the model's tables
and relationships are exactly as they were before the call (no partial effect). -/
theorem c4_mutations_atomic (m m' : CanonicalSchemaModel) (op : MutOp) (msg : String)
    (h : m.applyOp op = .err msg m') : m' = m := by
  cases op <;>
    simp only [CanonicalSchemaModel.applyOp, CanonicalSchemaModel.add_table,
      CanonicalSchemaModel.rename_table, CanonicalSchemaModel.drop_table,
      CanonicalSchemaModel.add_column, CanonicalSchemaModel.rename_column,
      CanonicalSchemaModel.drop_column, CanonicalSchemaModel.add_relationship,
      CanonicalSchemaModel.remove_relationship] at h <;>
    (repeat' split at h) <;>
    first
      | (injection h with h1 h2; exact h2.symm)
      | cases h

/-- Witness for C4: a duplicate `add_table` on a concrete model raises and the
theorem yields that the carried state equals the original model. -/
theorem c4_mutations_atomic_witness :
    customersOrdersModel = customersOrdersModel ∧
    customersOrdersModel.applyOp (MutOp.addTableOp "customers" "public" []) =
      MutResult.err "Table \x27public.customers\x27 already exists in schema \x27public\x27." customersOrdersModel :=
  ⟨c4_mutations_atomic customersOrdersModel customersOrdersModel
      (MutOp.addTableOp "customers" "public" [])
      "Table \x27public.customers\x27 already exists in schema \x27public\x27." (by decide),
   by decide⟩

/-! ## Claim C2 -/

/-- C2 counterexample: force-dropping `public.customers.id` removes the
relationship from `public.orders.customer_id`, but `orders.customer_id.is_fk`
remains `true` — the code never resets the flag on the referencing column, so
the claimed invariant is not preserved by `drop_column` with force. -/
theorem c2_fk_flag_counterexample :
    customersOrdersModel.drop_column "customers" "id" "public" true =
      .ok customersOrdersDroppedId ∧
    customersOrdersDroppedId.relationships = [] ∧
    ((dictGet? customersOrdersDroppedId.tables "public.orders").map (fun t =>
        (CanonicalSchemaModel._get_column_by_name t "customer_id").map Column.is_fk)) =
      some (some true) := by decide

/-- C2 (amended): `remove_relationship` maintains the flag invariant — when it
succeeds and no remaining relationship uses the column as its `from` endpoint,
that column's `is_fk` is `false`; but the force variants of `drop_table` and
`drop_column` remove relationships without resetting the referencing column's
flag, which stays `true` (see the counterexample). -/
theorem c2_remove_relationship_resets_fk
    (m m' : CanonicalSchemaModel) (ft fc tt tc fs ts : String)
    (h : m.remove_relationship ft fc tt tc fs ts = .ok m')
    (hnorel : ∀ rel ∈ m'.relationships,
        ¬ (rel.from_table = fs ++ "." ++ ft ∧ rel.from_column = fc))
    (tbl : Table) (htbl : dictGet? m'.tables (fs ++ "." ++ ft) = some tbl)
    (col : Column) (hcol : CanonicalSchemaModel._get_column_by_name tbl fc = some col) :
    col.is_fk = false := by
  simp only [CanonicalSchemaModel.remove_relationship] at h
  split at h
  · cases h
  · rename_i i hidx
    split at h
    · rename_i hnone
      injection h with h2
      subst h2
      simp only at htbl
      rw [hnone] at htbl
      cases htbl
    · rename_i from_table_obj hsome
      split at h
      · rename_i hnocol
        injection h with h2
        subst h2
        simp only at htbl
        rw [hsome] at htbl
        injection htbl with h3
        subst h3
        rw [hnocol] at hcol
        cases hcol
      · rename_i c0 hsomecol
        split at h
        · rename_i hstill
          injection h with h2
          subst h2
          simp only at hnorel
          obtain ⟨rel, hmem, hp⟩ := List.any_eq_true.mp hstill
          have hcontra := hnorel rel hmem
          simp only [Bool.and_eq_true, beq_iff_eq] at hp
          exact absurd ⟨hp.1, hp.2⟩ hcontra
        · injection h with h2
          subst h2
          simp only at htbl
          rw [dictGet?_dictSet_self] at htbl
          injection htbl with h3
          subst h3
          simp only [CanonicalSchemaModel._get_column_by_name] at hcol
          rw [get_column_updateFirstColumn from_table_obj.columns fc
            (fun c => { c with is_fk := false }) (fun c => rfl)] at hcol
          cases hfind : (from_table_obj.columns.find? (fun col => col.name == fc)) with
          | none => rw [hfind] at hcol; cases hcol
          | some c1 =>
              rw [hfind] at hcol
              injection hcol with h4
              subst h4
              rfl

/-- Witness for the amended C2: removing the sole relationship of the example
model resets `orders.customer_id.is_fk` to `false`. -/
theorem c2_remove_relationship_resets_fk_witness :
    Column.is_fk ⟨"customer_id", "integer", false, false, false⟩ = false :=
  c2_remove_relationship_resets_fk customersOrdersModel customersOrdersBase
    "orders" "customer_id" "customers" "id" "public" "public"
    (by decide) (by decide) ordersTableBase (by decide)
    ⟨"customer_id", "integer", false, false, false⟩ (by decide)

/-! ## Claim C8 -/

/-- C8 counterexample: `public.customers.id` is a primary key, yet
`add_relationship` fails (with `SchemaValidationError`, leaving the model
unchanged) because an identical relationship already exists — refuting
"adding one whose target column is a primary key always succeeds". -/
theorem c8_add_relationship_counterexample :
    ((dictGet? customersOrdersModel.tables "public.customers").map (fun t =>
        (CanonicalSchemaModel._get_column_by_name t "id").map Column.is_pk)) = some (some true) ∧
    customersOrdersModel.add_relationship "orders" "customer_id" "customers" "id" =
      MutResult.err "Relationship from \x27public.orders.customer_id\x27 to \x27public.customers.id\x27 already exists."
        customersOrdersModel := by decide

/-- C8 (amended): `add_relationship` with an existing, non-primary-key target
column always fails with `SchemaValidationError` and leaves the model
unchanged; with a primary-key target column it succeeds — provided the source
table and column exist and no identical relationship is present — setting the
source column's `is_fk` to `true` and appending the relationship. -/
theorem c8_add_relationship_amended (m : CanonicalSchemaModel) (ft fc tt tc fs ts : String) :
    (∀ ttab tcol, dictGet? m.tables (ts ++ "." ++ tt) = some ttab →
        CanonicalSchemaModel._get_column_by_name ttab tc = some tcol →
        tcol.is_pk = false →
        ∃ msg, m.add_relationship ft fc tt tc fs ts = .err msg m) ∧
    (∀ ftab ttab fcol tcol,
        dictGet? m.tables (fs ++ "." ++ ft) = some ftab →
        dictGet? m.tables (ts ++ "." ++ tt) = some ttab →
        CanonicalSchemaModel._get_column_by_name ftab fc = some fcol →
        CanonicalSchemaModel._get_column_by_name ttab tc = some tcol →
        tcol.is_pk = true →
        (∀ rel ∈ m.relationships, ¬(rel.from_table = fs ++ "." ++ ft ∧ rel.from_column = fc ∧
            rel.to_table = ts ++ "." ++ tt ∧ rel.to_column = tc)) →
        ∃ m', m.add_relationship ft fc tt tc fs ts = .ok m' ∧
          m'.relationships = m.relationships ++
            [{ from_table := fs ++ "." ++ ft, from_column := fc,
               to_table := ts ++ "." ++ tt, to_column := tc }] ∧
          ((dictGet? m'.tables (fs ++ "." ++ ft)).map (fun t =>
              (CanonicalSchemaModel._get_column_by_name t fc).map Column.is_fk)) =
            some (some true)) := by
  constructor
  · intro ttab tcol httab htcol hpk
    cases hft : dictGet? m.tables (fs ++ "." ++ ft) with
    | none =>
        exact ⟨_, by simp only [CanonicalSchemaModel.add_relationship, hft]; exact rfl⟩
    | some ftab =>
        cases hfc : CanonicalSchemaModel._get_column_by_name ftab fc with
        | none =>
            exact ⟨_, by simp only [CanonicalSchemaModel.add_relationship, hft, httab, hfc]; exact rfl⟩
        | some fcol =>
            exact ⟨_, by simp only [CanonicalSchemaModel.add_relationship, hft, httab, hfc,
              htcol, hpk, Bool.not_false, if_true]; exact rfl⟩
  · intro ftab ttab fcol tcol hft htt hfc htc hpk hdup
    have hany : (m.relationships.any (fun rel =>
        rel.from_table == fs ++ "." ++ ft && rel.from_column == fc &&
        rel.to_table == ts ++ "." ++ tt && rel.to_column == tc)) = false := by
      rw [List.any_eq_false]
      intro rel hmem
      have hd := hdup rel hmem
      simp only [Bool.and_eq_true, beq_iff_eq, not_and]
      intro h1 h3
      rcases h1 with ⟨⟨ha, hb⟩, hc⟩
      exact absurd ⟨ha, hb, hc, h3⟩ hd
    refine ⟨⟨dictSet m.tables (fs ++ "." ++ ft) ⟨ftab.name, ftab.schema, CanonicalSchemaModel.updateFirstColumn ftab.columns fc (fun c => { c with is_fk := true }), ftab.row_count⟩, m.relationships ++ [⟨fs ++ "." ++ ft, fc, ts ++ "." ++ tt, tc⟩]⟩, ?_, rfl, ?_⟩
    · simp only [CanonicalSchemaModel.add_relationship, hft, htt, hfc, htc, hpk,
        Bool.not_true, Bool.false_eq_true, if_false, hany]
    · rw [dictGet?_dictSet_self]
      simp only [Option.map_some, Option.map_some', CanonicalSchemaModel._get_column_by_name]
      rw [get_column_updateFirstColumn ftab.columns fc (fun c => { c with is_fk := true }) (fun c => rfl)]
      simp only [CanonicalSchemaModel._get_column_by_name] at hfc
      rw [hfc]
      rfl

/-- Witness for the amended C8: on the example model without the relationship,
`add_relationship` succeeds, appends the relationship, and sets
`orders.customer_id.is_fk` to `true`. -/
theorem c8_add_relationship_amended_witness :
    ∃ m', customersOrdersBase.add_relationship "orders" "customer_id" "customers" "id" "public" "public" = .ok m' ∧
      m'.relationships = customersOrdersBase.relationships ++
        [{ from_table := "public" ++ "." ++ "orders", from_column := "customer_id",
           to_table := "public" ++ "." ++ "customers", to_column := "id" }] ∧
      ((dictGet? m'.tables ("public" ++ "." ++ "orders")).map (fun t =>
          (CanonicalSchemaModel._get_column_by_name t "customer_id").map Column.is_fk)) =
        some (some true) :=
  (c8_add_relationship_amended customersOrdersBase "orders" "customer_id" "customers" "id" "public" "public").2
    ordersTableBase customersTable
    ⟨"customer_id", "integer", false, false, false⟩ ⟨"id", "integer", true, false, false⟩
    (by decide) (by decide) (by decide) (by decide) (by decide) (by decide)

/-! ## DDL generation (`backend/app/schema/ddl_executor.py`) -/

/-- A column description inside an action's parameters (a Python dict whose
entries may be absent). -/
structure ColumnParams where
  name : Option String := none
  type : Option String := none
  nullable : Option Bool := none
  is_pk : Option Bool := none
deriving Repr, DecidableEq

/-- The parameter dict of a structural edit action; absent keys are `none`. -/
structure ActionParams where
  name : Option String := none
  schema : Option String := none
  columns : List ColumnParams := []
  old_name : Option String := none
  new_name : Option String := none
  force : Option Bool := none
  table_name : Option String := none
  column : Option ColumnParams := none
  old_col : Option String := none
  new_col : Option String := none
  column_name : Option String := none
  from_table : Option String := none
  from_schema : Option String := none
  from_column : Option String := none
  to_table : Option String := none
  to_schema : Option String := none
  to_column : Option String := none
deriving Repr, DecidableEq

/-- Python truthiness of an optional string (`not name` is true for both
`None` and `""`). -/
def pyFalsyStr (o : Option String) : Bool := (o.getD "") == ""

/-- Interpolating a possibly-absent value into an f-string (`str(None)` is
`"None"` in Python). -/
def pyStr (o : Option String) : String := o.getD "None"

/-- `_generate_create_table`; errors are the `ValueError` messages. -/
def _generate_create_table (params : ActionParams) : Except String String :=
  let name := params.name
  let schema := params.schema.getD "public"
  let columns := params.columns
  if pyFalsyStr name then .error "Table name is required for add_table action"
  else
    let name := pyStr name
    if columns = [] then
      .ok ("CREATE TABLE \"" ++ schema ++ "\"." ++ name ++ "\" ()")
    else
      let col_defs := columns.map (fun col =>
        let col_name := pyStr col.name
        let col_type := col.type.getD "text"
        let nullable := col.nullable.getD true
        let parts := "\"" ++ col_name ++ "\" " ++ col_type
        if !nullable then parts ++ " NOT NULL" else parts)
      let pk_columns := (columns.filter (fun col => col.is_pk.getD false)).map (fun col => pyStr col.name)
      let col_defs :=
        if pk_columns ≠ [] then
          let pk_cols_quoted := pyJoin ", " (pk_columns.map (fun c => "\"" ++ c ++ "\""))
          col_defs ++ ["CONSTRAINT \"" ++ name ++ "_pkey\" PRIMARY KEY (" ++ pk_cols_quoted ++ ")"]
        else col_defs
      let columns_sql := pyJoin ",\n    " col_defs
      .ok ("CREATE TABLE \"" ++ schema ++ "\".\"" ++ name ++ "\" (\n    " ++ columns_sql ++ "\n)")

/-- `_generate_rename_table`. -/
def _generate_rename_table (params : ActionParams) : Except String String :=
  let old_name := params.old_name
  let new_name := params.new_name
  let schema := params.schema.getD "public"
  if pyFalsyStr old_name || pyFalsyStr new_name then
    .error "Both old_name and new_name are required for rename_table action"
  else
    .ok ("ALTER TABLE \"" ++ schema ++ "\".\"" ++ pyStr old_name ++ "\" RENAME TO \"" ++ pyStr new_name ++ "\"")

/-- `_generate_drop_table`. -/
def _generate_drop_table (params : ActionParams) : Except String String :=
  let name := params.name
  let schema := params.schema.getD "public"
  let force := params.force.getD false
  if pyFalsyStr name then .error "Table name is required for drop_table action"
  else
    let cascade := if force then " CASCADE" else ""
    .ok ("DROP TABLE \"" ++ schema ++ "\".\"" ++ pyStr name ++ "\"" ++ cascade)

/-- `_generate_add_column`. -/
def _generate_add_column (params : ActionParams) : Except String String :=
  let table_name := params.table_name
  let schema := params.schema.getD "public"
  match params.column with
  | none => .error "table_name and column are required for add_column action"
  | some column =>
      if pyFalsyStr table_name then .error "table_name and column are required for add_column action"
      else
        let col_name := pyStr column.name
        let col_type := column.type.getD "text"
        let nullable := column.nullable.getD true
        let parts := "\"" ++ col_name ++ "\" " ++ col_type
        let column_def := if !nullable then parts ++ " NOT NULL" else parts
        .ok ("ALTER TABLE \"" ++ schema ++ "\".\"" ++ pyStr table_name ++ "\" ADD COLUMN " ++ column_def)

/-- `_generate_rename_column`. -/
def _generate_rename_column (params : ActionParams) : Except String String :=
  let table_name := params.table_name
  let schema := params.schema.getD "public"
  let old_col := params.old_col
  let new_col := params.new_col
  if pyFalsyStr table_name || pyFalsyStr old_col || pyFalsyStr new_col then
    .error "table_name, old_col, and new_col are required for rename_column action"
  else
    .ok ("ALTER TABLE \"" ++ schema ++ "\".\"" ++ pyStr table_name ++ "\" RENAME COLUMN \"" ++
      pyStr old_col ++ "\" TO \"" ++ pyStr new_col ++ "\"")

/-- `_generate_drop_column`. -/
def _generate_drop_column (params : ActionParams) : Except String String :=
  let table_name := params.table_name
  let schema := params.schema.getD "public"
  let column_name := params.column_name
  let force := params.force.getD false
  if pyFalsyStr table_name || pyFalsyStr column_name then
    .error "table_name and column_name are required for drop_column action"
  else
    let cascade := if force then " CASCADE" else ""
    .ok ("ALTER TABLE \"" ++ schema ++ "\".\"" ++ pyStr table_name ++ "\" DROP COLUMN \"" ++
      pyStr column_name ++ "\"" ++ cascade)

/-- `_generate_add_foreign_key`. -/
def _generate_add_foreign_key (params : ActionParams) : Except String String :=
  let from_table := params.from_table
  let from_schema := params.from_schema.getD "public"
  let from_column := params.from_column
  let to_table := params.to_table
  let to_schema := params.to_schema.getD "public"
  let to_column := params.to_column
  if pyFalsyStr from_table || pyFalsyStr from_column || pyFalsyStr to_table || pyFalsyStr to_column then
    .error "from_table, from_column, to_table, and to_column are required for add_relationship action"
  else
    let constraint_name := pyStr from_table ++ "_" ++ pyStr from_column ++ "_fkey"
    .ok ("ALTER TABLE \"" ++ from_schema ++ "\".\"" ++ pyStr from_table ++ "\" ADD CONSTRAINT \"" ++
      constraint_name ++ "\" FOREIGN KEY (\"" ++ pyStr from_column ++ "\") REFERENCES \"" ++
      to_schema ++ "\".\"" ++ pyStr to_table ++ "\" (\"" ++ pyStr to_column ++ "\")")

/-- `_generate_drop_foreign_key`. -/
def _generate_drop_foreign_key (params : ActionParams) : Except String String :=
  let from_table := params.from_table
  let from_schema := params.from_schema.getD "public"
  let from_column := params.from_column
  if pyFalsyStr from_table || pyFalsyStr from_column then
    .error "from_table and from_column are required for remove_relationship action"
  else
    let constraint_name := pyStr from_table ++ "_" ++ pyStr from_column ++ "_fkey"
    .ok ("ALTER TABLE \"" ++ from_schema ++ "\".\"" ++ pyStr from_table ++ "\" DROP CONSTRAINT \"" ++
      constraint_name ++ "\"")

/-- `generate_ddl_from_action`: dispatch on the action kind tag. -/
def generate_ddl_from_action (action_type : String) (params : ActionParams)
    (_schema_model : CanonicalSchemaModel) : Except String String :=
  if action_type == "add_table" then _generate_create_table params
  else if action_type == "rename_table" then _generate_rename_table params
  else if action_type == "drop_table" then _generate_drop_table params
  else if action_type == "add_column" then _generate_add_column params
  else if action_type == "rename_column" then _generate_rename_column params
  else if action_type == "drop_column" then _generate_drop_column params
  else if action_type == "add_relationship" then _generate_add_foreign_key params
  else if action_type == "remove_relationship" then _generate_drop_foreign_key params
  else .error ("Unknown action type: " ++ action_type)

/-- Number of occurrences of a character in a string. -/
def countChar (c : Char) (s : String) : Nat := (s.data.filter (· == c)).length

/-! ## Claim C7 -/

/-- C7: evaluating `generate_ddl_from_action` at the failing input — the
`add_table` action with an empty column list — produces
`CREATE TABLE "public".t" ()`: the table name is not quoted (the opening quote
is missing, the closing quote is stray), so the output has an odd number of
double quotes and violates the claim that every identifier is quoted. -/
theorem c7_create_table_empty_columns_quote_bug :
    generate_ddl_from_action "add_table" { name := some "t" } {} =
      .ok "CREATE TABLE \"public\".t\" ()" ∧
    countChar '"' "CREATE TABLE \"public\".t\" ()" % 2 = 1 :=
  ⟨rfl, by decide⟩

/-! ## Provisioning (`backend/app/db_provisioner.py`) -/

/-- Success flags for the effectful steps of `_provision_managed_database`:
which database-side operations succeed in a given run. -/
structure ProvisionEnv where
  connect_ok : Bool := true
  create_role_ok : Bool := true
  set_timeouts_ok : Bool := true
  create_db_ok : Bool := true
  insert_metadata_ok : Bool := true
  load_sample : Bool := false
  enable_sample_data : Bool := true
  load_sample_ok : Bool := true
deriving Repr, DecidableEq

/-- The externally visible cluster state when `_provision_managed_database`
returns or raises: whether the role and database exist and the status column
of the metadata row (if inserted). -/
structure ClusterState where
  role_exists : Bool := false
  db_exists : Bool := false
  metadata_status : Option String := none
deriving Repr, DecidableEq

/-- Outcome of a provisioning attempt together with the final cluster state. -/
inductive ProvisionOutcome where
  | success (s : ClusterState)
  | failure (msg : String) (s : ClusterState)
deriving Repr, DecidableEq

/-- The cleanup block of the outer `except` handler: drop the database if
`db_created`, then drop the role if `role_created` (the metadata row is never
removed). -/
def provisionCleanup (db_created role_created : Bool) (s : ClusterState) : ClusterState :=
  let s := if db_created then { s with db_exists := false } else s
  if role_created then { s with role_exists := false } else s

/-- `_provision_managed_database` as a function of which steps succeed:
the straight-line control flow of the source, including the inner sample-data
handler (update metadata status to error, then re-raise) and the outer
exception handler (best-effort drop of the created database and role, then
re-raise wrapped). -/
def _provision_managed_database (env : ProvisionEnv) : ProvisionOutcome :=
  if !env.connect_ok then
    .failure "Failed to provision managed database: connection failed" {}
  else if !env.create_role_ok then
    .failure "Failed to provision managed database: CREATE ROLE failed"
      (provisionCleanup false false {})
  else
    let s1 : ClusterState := { role_exists := true }
    if !env.set_timeouts_ok then
      .failure "Failed to provision managed database: ALTER ROLE failed"
        (provisionCleanup false true s1)
    else if !env.create_db_ok then
      .failure "Failed to provision managed database: CREATE DATABASE failed"
        (provisionCleanup false true s1)
    else
      let s2 : ClusterState := { s1 with db_exists := true }
      if !env.insert_metadata_ok then
        .failure "Failed to provision managed database: INSERT metadata failed"
          (provisionCleanup true true s2)
      else
        let s3 : ClusterState := { s2 with metadata_status := some "active" }
        if env.load_sample && env.enable_sample_data && !env.load_sample_ok then
          let s4 : ClusterState := { s3 with metadata_status := some "error" }
          .failure "Failed to provision managed database: Database created but sample data loading failed"
            (provisionCleanup true true s4)
        else
          .success s3

/-! ## Claim C3 -/

/-- C3: evaluating the provisioning control flow at the failing input (role,
database and metadata creation succeed; sample-data loading fails) shows the
metadata row is flipped to error and the call raises — but the inner re-raise
lands in the outer exception handler, whose cleanup drops the database and the
role, so they do NOT continue to exist, contradicting the claim. -/
theorem c3_sample_failure_tears_down :
    _provision_managed_database { load_sample := true, enable_sample_data := true, load_sample_ok := false } =
      .failure "Failed to provision managed database: Database created but sample data loading failed"
        { role_exists := false, db_exists := false, metadata_status := some "error" } := by decide

/-! ## SQL validator (`backend/app/nl_to_sql/validator.py`)

The validator consumes sqlglot expression trees. The sqlglot library is
external to the repository, so its parsed statements are modelled by a small
AST carrying exactly the node kinds, fields and rendered SQL text the
validator inspects; `validate_and_normalize_sql` takes the already-parsed
statement list (per the spec, step 1 parses the input into one or more
statements, and an empty statement list is a validation failure). -/

/-- Whether one string occurs inside another (Python `needle in hay`),
structurally over character lists. -/
def startsWithChars : List Char → List Char → Bool
  | [], _ => true
  | _ :: _, [] => false
  | a :: as, b :: bs => a == b && startsWithChars as bs

/-- Substring test used for Python `"X" in s`. -/
def containsSub (hay needle : String) : Bool :=
  go needle.data hay.data
where
  go (needle : List Char) : List Char → Bool
    | [] => startsWithChars needle []
    | c :: rest => startsWithChars needle (c :: rest) || go needle rest

/-- Python `s.split()`: split on whitespace runs, no empty parts. -/
def pySplitWsChars : List Char → List Char → List String
  | acc, [] => if acc = [] then [] else [⟨acc.reverse⟩]
  | acc, c :: rest =>
      if c.isWhitespace then
        if acc = [] then pySplitWsChars [] rest
        else ⟨acc.reverse⟩ :: pySplitWsChars [] rest
      else pySplitWsChars (c :: acc) rest

/-- Python `s.split()`. -/
def pySplitWs (s : String) : List String := pySplitWsChars [] s.data

/-- Python `s.strip('"')`. -/
def pyStripQuotes (s : String) : String :=
  ⟨((s.data.dropWhile (· == '"')).reverse.dropWhile (· == '"')).reverse⟩

/-- A table reference (`exp.Table`): name, schema qualifier (`db`, empty when
absent) and alias (empty when absent). -/
structure TableRef where
  name : String
  db : String := ""
  aliasName : String := ""
deriving Repr, DecidableEq

/-- Scalar expressions in the fragments the validator inspects. -/
inductive SqlExpr where
  | columnE (tbl : String) (name : String)
  | litE (s : String)
  | numE (n : Int)
  | starE
deriving Repr, DecidableEq

/-- One item of a SELECT list: an expression with an optional alias. -/
structure SelectItem where
  expr : SqlExpr
  aliasName : String := ""
deriving Repr, DecidableEq

/-- An action of an ALTER TABLE statement (the sqlglot action nodes the
validator distinguishes). -/
inductive AlterAction where
  | colDefA (name ty : String)
  | setDefaultA (colName : String) (v : SqlExpr)
  | renameColumnA (old new : String)
  | renameTableA (new : String)
  | dropColumnA (colName : String)
deriving Repr, DecidableEq

/-- A parsed SQL statement: the sqlglot statement kinds the validator
distinguishes (`SELECT`-family statements are represented by `selectS`). -/
inductive SqlStmt where
  | selectS (items : List SelectItem) (froms : List TableRef) (whereCols : List SqlExpr)
  | insertS (target : TableRef) (cols : List SqlExpr) (values : List SqlExpr)
  | createTableS (target : TableRef) (colDefs : List (String × String))
  | createSchemaS (name : String)
  | alterS (target : TableRef) (actions : List AlterAction)
  | dropS (target : TableRef)
  | deleteS (target : TableRef)
  | updateS (target : TableRef)
  | truncateS (target : TableRef)
  | commandS (tag : String)
deriving Repr, DecidableEq

/-- The sqlglot node kinds observable while walking a statement tree. -/
inductive NodeKind where
  | selectK | insertK | createK | alterK | dropK | deleteK | updateK | truncateK
  | tableK | columnK | literalK | numberK | starK | columnDefK | alterColumnK
  | renameColumnK | renameTableK | schemaK | commandK
deriving Repr, DecidableEq

/-- Node kinds contributed by a scalar expression. -/
def SqlExpr.kinds : SqlExpr → List NodeKind
  | .columnE _ _ => [.columnK]
  | .litE _ => [.literalK]
  | .numE _ => [.numberK]
  | .starE => [.starK]

/-- Node kinds contributed by an ALTER action (e.g. `DROP COLUMN` is an
`exp.Drop` node inside the alter tree). -/
def AlterAction.kinds : AlterAction → List NodeKind
  | .colDefA _ _ => [.columnDefK]
  | .setDefaultA _ v => .alterColumnK :: .columnK :: v.kinds
  | .renameColumnA _ _ => [.renameColumnK, .columnK, .columnK]
  | .renameTableA _ => [.renameTableK]
  | .dropColumnA _ => [.dropK, .columnK]

/-- `statement.walk()` as the list of node kinds in the statement's tree. -/
def SqlStmt.walkKinds : SqlStmt → List NodeKind
  | .selectS items froms wcols =>
      .selectK :: (items.flatMap (fun it => it.expr.kinds)) ++
        froms.map (fun _ => .tableK) ++ wcols.flatMap SqlExpr.kinds
  | .insertS _ cols values =>
      .insertK :: .tableK :: (cols.flatMap SqlExpr.kinds ++ values.flatMap SqlExpr.kinds)
  | .createTableS _ colDefs =>
      .createK :: .schemaK :: .tableK :: colDefs.map (fun _ => .columnDefK)
  | .createSchemaS _ => [.createK]
  | .alterS _ actions => .alterK :: .tableK :: actions.flatMap AlterAction.kinds
  | .dropS _ => [.dropK, .tableK]
  | .deleteS _ => [.deleteK, .tableK]
  | .updateS _ => [.updateK, .tableK]
  | .truncateS _ => [.truncateK, .tableK]
  | .commandS _ => [.commandK]

/-- Whether a node kind is one of `exp.Drop`, `exp.Delete`, `exp.Update`,
`exp.TruncateTable`. -/
def destructiveKind : NodeKind → Bool
  | .dropK => true
  | .deleteK => true
  | .updateK => true
  | .truncateK => true
  | _ => false

/-- The Python class name of a destructive node kind (for the error message). -/
def kindName : NodeKind → String
  | .dropK => "Drop"
  | .deleteK => "Delete"
  | .updateK => "Update"
  | .truncateK => "TruncateTable"
  | _ => ""

/-- `_reject_destructive_operations`: walk the full tree and raise at the
first destructive node. -/
def _reject_destructive_operations (statement : SqlStmt) : Except String Unit :=
  match statement.walkKinds.find? destructiveKind with
  | some k =>
      let n := kindName k
      .error (s!"Disallowed operation: {n}. Destructive statements are not permitted.")
  | none => .ok ()

/-- The sqlglot postgres rendering of a scalar expression. -/
def SqlExpr.sqlText : SqlExpr → String
  | .columnE tbl name => if tbl == "" then name else tbl ++ "." ++ name
  | .litE s => "\x27" ++ s ++ "\x27"
  | .numE n => toString n
  | .starE => "*"

/-- The sqlglot postgres rendering of an ALTER action (`action.sql(...)`). -/
def AlterAction.sqlText : AlterAction → String
  | .colDefA name ty => name ++ " " ++ ty
  | .setDefaultA c v => "ALTER COLUMN " ++ c ++ " SET DEFAULT " ++ v.sqlText
  | .renameColumnA a b => "RENAME COLUMN " ++ a ++ " TO " ++ b
  | .renameTableA n => "RENAME TO " ++ n
  | .dropColumnA c => "DROP COLUMN " ++ c

/-- `_is_safe_create`: only CREATE TABLE (schema-wrapped target) or CREATE
SCHEMA. -/
def _is_safe_create : SqlStmt → Bool
  | .createTableS _ _ => true
  | .createSchemaS _ => true
  | _ => false

/-- `_is_safe_alter_table_non_destructive`: a ColumnDef action is allowed;
any other action is classified by an upper-cased substring test on its
rendered SQL ("ADD" and "COLUMN", or "RENAME" and "TO"). -/
def _is_safe_alter_table_non_destructive : SqlStmt → Bool
  | .alterS _ actions =>
      if actions = [] then false
      else actions.all (fun action =>
        match action with
        | .colDefA _ _ => true
        | _ =>
            let action_sql_upper := pyUpper action.sqlText
            (containsSub action_sql_upper "ADD" && containsSub action_sql_upper "COLUMN") ||
            (containsSub action_sql_upper "RENAME" && containsSub action_sql_upper "TO"))
  | _ => false

/-- The Python class name of a statement (for error messages). -/
def SqlStmt.typeName : SqlStmt → String
  | .selectS _ _ _ => "Select"
  | .insertS _ _ _ => "Insert"
  | .createTableS _ _ => "Create"
  | .createSchemaS _ => "Create"
  | .alterS _ _ => "Alter"
  | .dropS _ => "Drop"
  | .deleteS _ => "Delete"
  | .updateS _ => "Update"
  | .truncateS _ => "TruncateTable"
  | .commandS _ => "Command"

/-- `_enforce_allowed_statement`. -/
def _enforce_allowed_statement (statement : SqlStmt) : Except String Unit :=
  match statement with
  | .selectS _ _ _ => .ok ()
  | .insertS _ _ _ => .ok ()
  | .createTableS _ _ =>
      if _is_safe_create statement then .ok ()
      else .error "Only CREATE TABLE or CREATE SCHEMA statements are allowed."
  | .createSchemaS _ =>
      if _is_safe_create statement then .ok ()
      else .error "Only CREATE TABLE or CREATE SCHEMA statements are allowed."
  | .alterS _ _ =>
      if _is_safe_alter_table_non_destructive statement then .ok ()
      else .error "Only ALTER TABLE ... ADD COLUMN or RENAME is allowed."
  | other =>
      let n := other.typeName
      .error (s!"Operation not allowed: {n}. Only SELECT/INSERT/CREATE TABLE or SCHEMA/ALTER TABLE ADD COLUMN are permitted.")

/-- `_extract_table_from_create`: the (schema, name, columns) of a permitted
CREATE TABLE (CREATE SCHEMA has no table name and yields `none`). -/
def _extract_table_from_create : SqlStmt → Option (String × String × List Column)
  | .createTableS target colDefs =>
      let schema_name := if target.db == "" then "public" else target.db
      let table_name := target.name
      if table_name == "" then none
      else some (schema_name, table_name,
        colDefs.map (fun cd =>
          { name := cd.1, type := cd.2, nullable := true, is_pk := false, is_fk := false }))
  | _ => none

/-- Rename the first column with the given name (the `for col ... break` loop
of `_apply_alter_to_temp_tables`). -/
def renameFirstColumn (cols : List Column) (old_col new_col : String) : List Column :=
  match cols with
  | [] => []
  | c :: rest =>
      if c.name == old_col then { c with name := new_col } :: rest
      else c :: renameFirstColumn rest old_col new_col

/-- One iteration of the action loop of `_apply_alter_to_temp_tables`; the
state is the current key of the altered table (reassigned by RENAME TABLE)
together with the working copy of the catalog (the Python `table_obj`
reference is tracked by its key). -/
def applyAlterAction (schema_name : String) (st : String × PyDict Table)
    (action : AlterAction) : String × PyDict Table :=
  let fqn := st.1
  let temp_tables := st.2
  match dictGet? temp_tables fqn with
  | none => st
  | some table_obj =>
      match action with
      | .colDefA col_name col_type =>
          (fqn, dictSet temp_tables fqn { table_obj with
            columns := table_obj.columns ++
              [{ name := col_name, type := col_type, nullable := true, is_pk := false, is_fk := false }] })
      | _ =>
          let action_sql := action.sqlText
          let upper_sql := pyUpper action_sql
          if containsSub upper_sql "RENAME" && containsSub upper_sql "COLUMN" then
            let parts := pySplitWs action_sql
            if parts.contains "COLUMN" && parts.contains "TO" then
              match parts.indexOf? "COLUMN", parts.indexOf? "TO" with
              | some idx_col, some idx_to =>
                  match parts.get? (idx_col + 1), parts.get? (idx_to + 1) with
                  | some oldq, some newq =>
                      let old_col := pyStripQuotes oldq
                      let new_col := pyStripQuotes newq
                      (fqn, dictSet temp_tables fqn { table_obj with
                        columns := renameFirstColumn table_obj.columns old_col new_col })
                  | _, _ => (fqn, temp_tables)
              | _, _ => (fqn, temp_tables)
            else (fqn, temp_tables)
          else if containsSub upper_sql "RENAME" && containsSub upper_sql "TO" &&
              !containsSub upper_sql "COLUMN" then
            let parts := pySplitWs action_sql
            if parts.contains "TO" then
              match parts.indexOf? "TO" with
              | some idx_to =>
                  match parts.get? (idx_to + 1) with
                  | some newq =>
                      let new_table := pyStripQuotes newq
                      let new_fqn := schema_name ++ "." ++ new_table
                      let temp_tables := dictSet temp_tables new_fqn { table_obj with name := new_table }
                      let temp_tables :=
                        if dictContains temp_tables fqn then dictDel temp_tables fqn else temp_tables
                      (new_fqn, temp_tables)
                  | none => (fqn, temp_tables)
              | none => (fqn, temp_tables)
            else (fqn, temp_tables)
          else (fqn, temp_tables)

/-- `_apply_alter_to_temp_tables`. -/
def _apply_alter_to_temp_tables (statement : SqlStmt) (temp_tables : PyDict Table) :
    PyDict Table :=
  match statement with
  | .alterS target actions =>
      let schema_name := if target.db == "" then "public" else target.db
      let table_name := target.name
      let fqn := schema_name ++ "." ++ table_name
      match dictGet? temp_tables fqn with
      | none => temp_tables
      | some _ => (actions.foldl (applyAlterAction schema_name) (fqn, temp_tables)).2
  | _ => temp_tables

/-- One entry of the catalog-construction loop of `_validate_schema_references`:
add the lowered fully-qualified name and bare name to `valid_tables` and map
both (bare name first, then fully-qualified name) to the table's lowered
column-name set in `table_to_columns`. -/
def catalogStep (acc : List String × PyDict (List String)) (e : String × Table) :
    List String × PyDict (List String) :=
  let valid_tables := acc.1 ++ [pyLower e.1, pyLower e.2.name]
  let table_columns := e.2.columns.map (fun col => pyLower col.name)
  let ttc := dictSet acc.2 (pyLower e.2.name) table_columns
  let ttc := dictSet ttc (pyLower e.1) table_columns
  (valid_tables, ttc)

/-- The select-list aliases collected into `derived_columns` (lowered). -/
def derivedColumnsOf : SqlStmt → List String
  | .selectS items _ _ =>
      (items.filter (fun it => it.aliasName != "")).map (fun it => pyLower it.aliasName)
  | _ => []

/-- `parsed.find_all(exp.Table)`. -/
def SqlStmt.tableNodes : SqlStmt → List TableRef
  | .selectS _ froms _ => froms
  | .insertS target _ _ => [target]
  | .createTableS target _ => [target]
  | .alterS target _ => [target]
  | .dropS t => [t]
  | .deleteS t => [t]
  | .updateS t => [t]
  | .truncateS t => [t]
  | _ => []

/-- The (qualifier, name) of an `exp.Column` node. -/
def SqlExpr.columnOf : SqlExpr → Option (String × String)
  | .columnE t n => some (t, n)
  | _ => none

/-- `parsed.find_all(exp.Column)` as (qualifier, name) pairs. -/
def SqlStmt.columnNodes : SqlStmt → List (String × String)
  | .selectS items _ wcols =>
      (items.map SelectItem.expr ++ wcols).filterMap SqlExpr.columnOf
  | .insertS _ cols values => (cols ++ values).filterMap SqlExpr.columnOf
  | _ => []

/-- Accumulator of the table-reference loop of `_validate_schema_references`. -/
structure RefScanState where
  referenced_tables : List String
  table_to_columns : PyDict (List String)
  warnings : List String
deriving Repr

/-- One iteration of the table-reference loop: record the referenced table
(lowered, qualified by its lowered schema when present), propagate alias
column sets, and warn when the reference is not in `valid_tables`. -/
def tableScanStep (valid_tables : List String) (st : RefScanState)
    (table_node : TableRef) : RefScanState :=
  let table_name := pyLower table_node.name
  let actual_table :=
    if table_node.db != "" then pyLower table_node.db ++ "." ++ table_name else table_name
  let referenced_tables := st.referenced_tables ++ [actual_table]
  let ttc :=
    if table_node.aliasName != "" then
      match dictGet? st.table_to_columns actual_table with
      | some cols => dictSet st.table_to_columns (pyLower table_node.aliasName) cols
      | none => st.table_to_columns
    else st.table_to_columns
  let warnings :=
    if !valid_tables.contains table_name then
      if table_node.db != "" then
        (let full_name := table_node.db ++ "." ++ table_name
         if !valid_tables.contains (pyLower full_name) then
           st.warnings ++ [s!"Table \x27{full_name}\x27 not found in schema"]
         else st.warnings)
      else st.warnings ++ [s!"Table \x27{table_name}\x27 not found in schema"]
    else st.warnings
  { referenced_tables := referenced_tables, table_to_columns := ttc, warnings := warnings }

/-- One iteration of the column-reference loop: skip `*`, skip derived
columns, check qualified references against their table's column set and
unqualified ones against every referenced table. -/
def columnScanStep (derived_columns referenced_tables : List String)
    (table_to_columns : PyDict (List String)) (warnings : List String)
    (cn : String × String) : List String :=
  let column_name := pyLower cn.2
  if column_name == "*" then warnings
  else if cn.1 == "" && derived_columns.contains column_name then warnings
  else if cn.1 != "" then
    let table_name := pyLower cn.1
    match dictGet? table_to_columns table_name with
    | some cols =>
        if !cols.contains column_name then
          warnings ++ [s!"Column \x27{column_name}\x27 not found in table \x27{table_name}\x27"]
        else warnings
    | none => warnings
  else
    let found := referenced_tables.any (fun tname =>
      match dictGet? table_to_columns tname with
      | some cols => cols.contains column_name
      | none => false)
    if !found && referenced_tables ≠ [] then
      warnings ++ [s!"Column \x27{column_name}\x27 not found in any referenced tables"]
    else warnings

/-- `_validate_schema_references`. -/
def _validate_schema_references (parsed : SqlStmt) (schema_model : CanonicalSchemaModel) :
    List String :=
  let catalog := schema_model.tables.foldl catalogStep ([], [])
  let valid_tables := catalog.1
  let table_to_columns := catalog.2
  let derived_columns := derivedColumnsOf parsed
  let scan := (parsed.tableNodes).foldl (tableScanStep valid_tables)
    { referenced_tables := [], table_to_columns := table_to_columns, warnings := [] }
  (parsed.columnNodes).foldl
    (columnScanStep derived_columns scan.referenced_tables scan.table_to_columns) scan.warnings

/-- The postgres rendering of a table reference. -/
def TableRef.sqlText (t : TableRef) : String :=
  (if t.db == "" then t.name else t.db ++ "." ++ t.name) ++
    (if t.aliasName == "" then "" else " AS " ++ t.aliasName)

/-- The canonical printer (`statement.sql(dialect="postgres")`) over the
statement AST. -/
def SqlStmt.sqlText : SqlStmt → String
  | .selectS items froms wcols =>
      "SELECT " ++
        pyJoin ", " (items.map (fun it =>
          it.expr.sqlText ++ (if it.aliasName == "" then "" else " AS " ++ it.aliasName))) ++
        (if froms = [] then "" else " FROM " ++ pyJoin ", " (froms.map TableRef.sqlText)) ++
        (if wcols = [] then "" else " WHERE " ++ pyJoin " AND " (wcols.map SqlExpr.sqlText))
  | .insertS target cols values =>
      "INSERT INTO " ++ target.sqlText ++
        (if cols = [] then "" else " (" ++ pyJoin ", " (cols.map SqlExpr.sqlText) ++ ")") ++
        " VALUES (" ++ pyJoin ", " (values.map SqlExpr.sqlText) ++ ")"
  | .createTableS target colDefs =>
      "CREATE TABLE " ++ target.sqlText ++ " (" ++
        pyJoin ", " (colDefs.map (fun cd => cd.1 ++ " " ++ cd.2)) ++ ")"
  | .createSchemaS name => "CREATE SCHEMA " ++ name
  | .alterS target actions =>
      "ALTER TABLE " ++ target.sqlText ++ " " ++ pyJoin ", " (actions.map AlterAction.sqlText)
  | .dropS t => "DROP TABLE " ++ t.sqlText
  | .deleteS t => "DELETE FROM " ++ t.sqlText
  | .updateS t => "UPDATE " ++ t.sqlText
  | .truncateS t => "TRUNCATE TABLE " ++ t.sqlText
  | .commandS tag => tag

/-- The batch-scoped working-copy update for one statement (source lines 30-43
of `validate_and_normalize_sql`): a permitted CREATE TABLE synthesizes its
table into the working copy; a permitted ALTER TABLE is applied to it. -/
def validateStep (statement : SqlStmt) (temp_tables : PyDict Table) : PyDict Table :=
  if (match statement with | .createTableS _ _ => true | .createSchemaS _ => true | _ => false) &&
      _is_safe_create statement then
    match _extract_table_from_create statement with
    | some info =>
        dictSet temp_tables (info.1 ++ "." ++ info.2.1)
          { name := info.2.1, schema := info.1, columns := info.2.2, row_count := none }
    | none => temp_tables
  else if (match statement with | .alterS _ _ => true | _ => false) &&
      _is_safe_alter_table_non_destructive statement then
    _apply_alter_to_temp_tables statement temp_tables
  else temp_tables

/-- The statement loop of `validate_and_normalize_sql`. -/
def validateLoop : List SqlStmt → List String → List String → PyDict Table →
    Except String (List String × List String)
  | [], normalized_statements, warnings, _ => .ok (normalized_statements, warnings)
  | statement :: rest, normalized_statements, warnings, temp_tables =>
      match _reject_destructive_operations statement with
      | .error e => .error e
      | .ok _ =>
          match _enforce_allowed_statement statement with
          | .error e => .error e
          | .ok _ =>
              let temp_tables := validateStep statement temp_tables
              let warnings :=
                match statement with
                | .selectS _ _ _ =>
                    warnings ++ _validate_schema_references statement ⟨temp_tables, []⟩
                | .insertS _ _ _ =>
                    warnings ++ _validate_schema_references statement ⟨temp_tables, []⟩
                | _ => warnings
              validateLoop rest (normalized_statements ++ [statement.sqlText]) warnings temp_tables

/-- `validate_and_normalize_sql` on the parsed statement list. The result
carries the normalized statements, the warnings, and the schema model as
visible after the call: the source reads `schema_model.tables` only through
`copy.deepcopy`, so the model object is returned unchanged. -/
def validate_and_normalize_sql (statements : List SqlStmt)
    (schema_model : CanonicalSchemaModel) :
    Except String (List String × List String × CanonicalSchemaModel) :=
  if statements = [] then .error "No SQL statement provided."
  else
    let temp_tables := schema_model.tables
    match validateLoop statements [] [] temp_tables with
    | .error e => .error e
    | .ok r => .ok (r.1, r.2, schema_model)

/-! ## Substring and case lemmas -/

theorem startsWithChars_append (n h b : List Char)
    (hs : startsWithChars n h = true) : startsWithChars n (h ++ b) = true := by
  induction n generalizing h with
  | nil => simp [startsWithChars]
  | cons a as ih =>
      cases h with
      | nil => simp [startsWithChars] at hs
      | cons c cs =>
          simp only [startsWithChars, Bool.and_eq_true] at hs ⊢
          exact ⟨hs.1, ih cs hs.2⟩

theorem containsSub_go_nil (hay : List Char) :
    containsSub.go [] hay = true := by
  cases hay <;> simp [containsSub.go, startsWithChars]

theorem containsSub_go_append_right (needle a b : List Char)
    (h : containsSub.go needle b = true) : containsSub.go needle (a ++ b) = true := by
  induction a with
  | nil => simpa using h
  | cons c rest ih =>
      simp only [List.cons_append, containsSub.go, Bool.or_eq_true]
      exact Or.inr ih

theorem containsSub_go_append_left (needle a b : List Char)
    (h : containsSub.go needle a = true) : containsSub.go needle (a ++ b) = true := by
  induction a with
  | nil =>
      cases needle with
      | nil => exact containsSub_go_nil b
      | cons x xs => simp [containsSub.go, startsWithChars] at h
  | cons c rest ih =>
      simp only [containsSub.go, Bool.or_eq_true] at h
      cases h with
      | inl hs =>
          simp only [List.cons_append, containsSub.go, Bool.or_eq_true]
          exact Or.inl (startsWithChars_append _ _ _ hs)
      | inr hg =>
          simp only [List.cons_append, containsSub.go, Bool.or_eq_true]
          exact Or.inr (ih hg)

theorem containsSub_append_right (a b n : String)
    (h : containsSub b n = true) : containsSub (a ++ b) n = true := by
  simp only [containsSub, String.data_append] at h ⊢
  exact containsSub_go_append_right _ _ _ h

theorem containsSub_append_left (a b n : String)
    (h : containsSub a n = true) : containsSub (a ++ b) n = true := by
  simp only [containsSub, String.data_append] at h ⊢
  exact containsSub_go_append_left _ _ _ h

theorem pyUpper_append (a b : String) : pyUpper (a ++ b) = pyUpper a ++ pyUpper b := by
  simp only [pyUpper]
  have h1 : (a ++ b).data = a.data ++ b.data := String.data_append a b
  have h2 : ((⟨a.data.map Char.toUpper⟩ : String) ++ (⟨b.data.map Char.toUpper⟩ : String)) =
      (⟨a.data.map Char.toUpper ++ b.data.map Char.toUpper⟩ : String) := rfl
  rw [h1, h2, List.map_append]

/-! ## Claim C5 -/

/-- The claim's classification of permitted ALTER actions: add-column
(a ColumnDef) or a rename (rename column / rename table). -/
def specAddColumnOrRename : AlterAction → Bool
  | .colDefA _ _ => true
  | .renameColumnA _ _ => true
  | .renameTableA _ => true
  | _ => false

/-- An ALTER whose only action is `ALTER COLUMN c SET DEFAULT 'RENAME TO x'`:
not an add-column and not a rename. -/
def evilActions : List AlterAction := [.setDefaultA "c" (.litE "RENAME TO x")]

/-- The statement `ALTER TABLE t ALTER COLUMN c SET DEFAULT 'RENAME TO x'`. -/
def evilAlter : SqlStmt := .alterS { name := "t" } evilActions

/-- C5 counterexample: `ALTER TABLE t ALTER COLUMN c SET DEFAULT 'RENAME TO x'`
contains an ALTER action that is neither add-column nor a rename, yet
`validate_and_normalize_sql` accepts it (no SQLValidationError): the
ALTER-action classification is a substring match on the action's rendered SQL,
and the string literal supplies "RENAME" and "TO". -/
theorem c5_substring_alter_counterexample :
    validate_and_normalize_sql [evilAlter] {} =
      .ok (["ALTER TABLE t ALTER COLUMN c SET DEFAULT \x27RENAME TO x\x27"], [], {}) ∧
    evilActions.all specAddColumnOrRename = false := ⟨rfl, rfl⟩

/-- C5 (amended): the DROP/DELETE/UPDATE/TRUNCATE rejection is structural —
`_reject_destructive_operations` accepts a statement exactly when its walked
tree contains no Drop/Delete/Update/TruncateTable node, so a SELECT whose only
occurrence of such a keyword is inside a string literal is accepted and
normalized; the ALTER-action classification, however, is an upper-cased
substring match on the action's rendered SQL: any non-ColumnDef action whose
text contains "RENAME" and "TO" (for instance inside a string literal) is
accepted, not only add-column/rename actions. -/
theorem c5_destructive_scan_amended :
    (∀ statement : SqlStmt, _reject_destructive_operations statement = .ok () ↔
        ∀ k ∈ statement.walkKinds, destructiveKind k = false) ∧
    (∀ m : CanonicalSchemaModel, validate_and_normalize_sql
        [SqlStmt.selectS [⟨SqlExpr.litE "DROP TABLE x", ""⟩] [] []] m =
        .ok (["SELECT \x27DROP TABLE x\x27"], [], m)) ∧
    (∀ (target : TableRef) (colName s : String),
        containsSub (pyUpper s) "RENAME" = true → containsSub (pyUpper s) "TO" = true →
        _enforce_allowed_statement (.alterS target [.setDefaultA colName (.litE s)]) = .ok ()) := by
  refine ⟨?_, ?_, ?_⟩
  · intro statement
    constructor
    · intro h k hk
      cases hfind : statement.walkKinds.find? destructiveKind with
      | none =>
          have := List.find?_eq_none.mp hfind k hk
          exact Bool.not_eq_true _ |>.mp this
      | some k0 =>
          simp only [_reject_destructive_operations, hfind] at h
          cases h
    · intro h
      have hfind : statement.walkKinds.find? destructiveKind = none :=
        List.find?_eq_none.mpr (fun x hx => by rw [h x hx]; exact Bool.false_ne_true)
      simp only [_reject_destructive_operations, hfind]
  · intro m
    rfl
  · intro target colName s h1 h2
    have hup : pyUpper (AlterAction.setDefaultA colName (SqlExpr.litE s)).sqlText =
        pyUpper "ALTER COLUMN " ++ pyUpper colName ++ pyUpper " SET DEFAULT " ++
          pyUpper "\x27" ++ pyUpper s ++ pyUpper "\x27" := by
      simp only [AlterAction.sqlText, SqlExpr.sqlText, pyUpper_append, String.append_assoc]
    have hren : containsSub (pyUpper (AlterAction.setDefaultA colName (SqlExpr.litE s)).sqlText) "RENAME" = true := by
      rw [hup]
      apply containsSub_append_left
      apply containsSub_append_right
      exact h1
    have hto : containsSub (pyUpper (AlterAction.setDefaultA colName (SqlExpr.litE s)).sqlText) "TO" = true := by
      rw [hup]
      apply containsSub_append_left
      apply containsSub_append_right
      exact h2
    have hsafe : _is_safe_alter_table_non_destructive
        (.alterS target [.setDefaultA colName (.litE s)]) = true := by
      simp only [_is_safe_alter_table_non_destructive, List.all_cons, List.all_nil,
        Bool.and_true, hren, hto, Bool.and_self, Bool.or_true, if_neg]
      simp
    simp only [_enforce_allowed_statement, hsafe, if_true]

/-- Witness for the amended C5: the three components instantiated at concrete
inputs — a plain SELECT is accepted, a DROP statement is rejected, and the
SET DEFAULT action with a "RENAME TO" literal passes the allowlist. -/
theorem c5_destructive_scan_amended_witness :
    _reject_destructive_operations (SqlStmt.selectS [⟨SqlExpr.numE 1, ""⟩] [] []) = .ok () ∧
    validate_and_normalize_sql [SqlStmt.selectS [⟨SqlExpr.litE "DROP TABLE x", ""⟩] [] []] {} =
      .ok (["SELECT \x27DROP TABLE x\x27"], [], {}) ∧
    _enforce_allowed_statement
      (.alterS { name := "t" } [.setDefaultA "c" (.litE "RENAME TO x")]) = .ok () :=
  ⟨(c5_destructive_scan_amended.1 (SqlStmt.selectS [⟨SqlExpr.numE 1, ""⟩] [] [])).mpr (by decide),
   c5_destructive_scan_amended.2.1 {},
   c5_destructive_scan_amended.2.2 { name := "t" } "c" "RENAME TO x" (by decide) (by decide)⟩

/-! ## Claim C10 -/

/-- C10: when the input parses to zero statements (for example the empty
string or whitespace-only input tokenize to no statements), the validator
raises SQLValidationError rather than returning an empty result. -/
theorem c10_empty_statement_list_raises (m : CanonicalSchemaModel)
    (statements : List SqlStmt) (h : statements = []) :
    validate_and_normalize_sql statements m = .error "No SQL statement provided." := by
  subst h; rfl

/-- Witness for C10: the empty statement list on the empty model. -/
theorem c10_empty_statement_list_raises_witness :
    validate_and_normalize_sql [] {} = .error "No SQL statement provided." :=
  c10_empty_statement_list_raises {} [] rfl

/-! ## Catalog lemmas and claims C6, C9 -/

/-- The inserted key/value pair is a member of the updated dictionary. -/
theorem mem_dictSet_self {α : Type} (d : PyDict α) (k : String) (v : α) :
    (k, v) ∈ dictSet d k v := by
  induction d with
  | nil => simp [dictSet]
  | cons e rest ih =>
      obtain ⟨k0, v0⟩ := e
      by_cases h : k0 = k
      · simp [dictSet, h]
      · simp only [dictSet, if_neg h]
        exact List.mem_cons_of_mem _ ih

/-- A key present before `dictSet` is still present afterwards. -/
theorem dictGet?_dictSet_isSome {α : Type} (d : PyDict α) (k s : String) (v : α)
    (h : (dictGet? d s).isSome = true) : (dictGet? (dictSet d k v) s).isSome = true := by
  rcases eq_or_ne k s with hk | hk
  · subst hk; rw [dictGet?_dictSet_self]; rfl
  · rw [dictGet?_dictSet_ne _ _ _ _ hk]; exact h

/-- The `valid_tables` set built by the catalog loop: the lowered
fully-qualified name and lowered bare name of every table. -/
theorem catalog_valid_tables (d : PyDict Table) (acc : List String × PyDict (List String)) :
    (d.foldl catalogStep acc).1 =
      acc.1 ++ d.flatMap (fun e => [pyLower e.1, pyLower e.2.name]) := by
  induction d generalizing acc with
  | nil => simp
  | cons e rest ih =>
      simp only [List.foldl_cons, List.flatMap_cons, ih, catalogStep]
      simp [List.append_assoc]

/-- Transport principle for `table_to_columns`: if every table whose lowered
bare name or lowered fully-qualified name equals the key satisfies `P` on its
lowered column names, then whatever the lookup returns satisfies `P`. -/
theorem catalog_cols_transport (d : PyDict Table) (s : String) (P : List String → Prop)
    (acc : List String × PyDict (List String))
    (hacc : ∀ cols, dictGet? acc.2 s = some cols → P cols)
    (hd : ∀ e ∈ d, (pyLower e.2.name = s ∨ pyLower e.1 = s) →
        P (e.2.columns.map (fun col => pyLower col.name))) :
    ∀ cols, dictGet? (d.foldl catalogStep acc).2 s = some cols → P cols := by
  induction d generalizing acc with
  | nil => simpa using hacc
  | cons e rest ih =>
      simp only [List.foldl_cons]
      apply ih
      · intro cols hcols
        simp only [catalogStep] at hcols
        rcases eq_or_ne (pyLower e.1) s with hf | hf
        · rw [hf, dictGet?_dictSet_self] at hcols
          cases hcols
          exact hd e (List.mem_cons_self _ _) (Or.inr hf)
        · rw [dictGet?_dictSet_ne _ _ _ _ hf] at hcols
          rcases eq_or_ne (pyLower e.2.name) s with hn | hn
          · rw [hn, dictGet?_dictSet_self] at hcols
            cases hcols
            exact hd e (List.mem_cons_self _ _) (Or.inl hn)
          · rw [dictGet?_dictSet_ne _ _ _ _ hn] at hcols
            exact hacc cols hcols
      · intro e' he' hm
        exact hd e' (List.mem_cons_of_mem _ he') hm

/-- The `table_to_columns` lookup succeeds for a key matched by some table. -/
theorem catalog_cols_isSome (d : PyDict Table) (s : String)
    (acc : List String × PyDict (List String))
    (h : (dictGet? acc.2 s).isSome = true ∨ ∃ e ∈ d, pyLower e.2.name = s ∨ pyLower e.1 = s) :
    (dictGet? (d.foldl catalogStep acc).2 s).isSome = true := by
  induction d generalizing acc with
  | nil =>
      rcases h with h | ⟨e, he, _⟩
      · simpa using h
      · cases he
  | cons e rest ih =>
      simp only [List.foldl_cons]
      apply ih
      rcases h with h | ⟨e', he', hm⟩
      · left
        simp only [catalogStep]
        exact dictGet?_dictSet_isSome _ _ _ _ (dictGet?_dictSet_isSome _ _ _ _ h)
      · rcases List.mem_cons.mp he' with rfl | he'
        · left
          simp only [catalogStep]
          rcases hm with hn | hf
          · exact dictGet?_dictSet_isSome _ _ _ _ (by rw [hn, dictGet?_dictSet_self]; rfl)
          · rw [hf, dictGet?_dictSet_self]; rfl
        · right
          exact ⟨e', he', hm⟩

/-- A bare, alias-free table reference whose lowered name is in
`valid_tables` adds itself to `referenced_tables` and produces no warning. -/
theorem tableScanStep_bare_found (vt : List String) (st : RefScanState) (nm : String)
    (hvt : vt.contains (pyLower nm) = true) :
    tableScanStep vt st { name := nm, db := "", aliasName := "" } =
      { referenced_tables := st.referenced_tables ++ [pyLower nm],
        table_to_columns := st.table_to_columns, warnings := st.warnings } := by
  have hmem : pyLower nm ∈ vt := List.elem_iff.mp hvt
  simp [tableScanStep, hvt, hmem]

/-- A column-scan step either leaves the warnings unchanged or appends one
warning starting with the character C. -/
theorem columnScanStep_cases (dc rt : List String) (ttc : PyDict (List String))
    (w : List String) (cn : String × String) :
    columnScanStep dc rt ttc w cn = w ∨
    ∃ x, columnScanStep dc rt ttc w cn = w ++ [x] ∧ x.data.head? = some 'C' := by
  simp only [columnScanStep]
  repeat' split
  all_goals
    first
      | exact Or.inl rfl
      | (refine Or.inr ⟨_, rfl, ?_⟩
         simp only [String.data_append, List.head?_append]
         rfl)

/-- A string starting with T (such as a table-not-found warning) is never
added by a column-scan step. -/
theorem not_mem_columnScanStep (dc rt : List String) (ttc : PyDict (List String))
    (w : List String) (cn : String × String) (tgt : String)
    (htgt : tgt.data.head? = some 'T') (hw : tgt ∉ w) :
    tgt ∉ columnScanStep dc rt ttc w cn := by
  rcases columnScanStep_cases dc rt ttc w cn with hc | ⟨x, hc, hx⟩
  · rw [hc]; exact hw
  · rw [hc]
    intro hmem
    rcases List.mem_append.mp hmem with h | h
    · exact hw h
    · rw [List.mem_singleton] at h
      rw [h] at htgt
      rw [htgt] at hx
      cases hx

/-- The statement `CREATE TABLE t (id int)` of the claim. -/
def c6CreateStmt : SqlStmt := .createTableS { name := "t" } [("id", "INT")]

/-- The statement `INSERT INTO t (id) VALUES (1)` of the claim. -/
def c6InsertStmt : SqlStmt := .insertS { name := "t" } [SqlExpr.columnE "" "id"] [SqlExpr.numE 1]

/-- The table synthesized into the batch-scoped working copy by the CREATE. -/
def c6Table : Table :=
  { name := "t", schema := "public",
    columns := [{ name := "id", type := "INT", nullable := true, is_pk := false, is_fk := false }] }

/-- C6: for every schema model, the two-statement batch `CREATE TABLE t (id
int)` then `INSERT INTO t (id) VALUES (1)` validates with no "table not found"
warning on the second statement even when `t` is absent from the model: the
permitted CREATE TABLE is applied to the batch-scoped working copy of the
table catalog; and the schema model passed in is returned unchanged (the
source reads it only through a deep copy). -/
theorem c6_batch_create_then_insert (m : CanonicalSchemaModel) :
    ∃ warnings,
      validate_and_normalize_sql [c6CreateStmt, c6InsertStmt] m =
        .ok (["CREATE TABLE t (id INT)", "INSERT INTO t (id) VALUES (1)"], warnings, m) ∧
      "Table \x27t\x27 not found in schema" ∉ warnings := by
  refine ⟨_validate_schema_references c6InsertStmt ⟨dictSet m.tables "public.t" c6Table, []⟩, ?_, ?_⟩
  · rfl
  · have hmem : ("public.t", c6Table) ∈ dictSet m.tables "public.t" c6Table :=
      mem_dictSet_self _ _ _
    have hvt : (((dictSet m.tables "public.t" c6Table).foldl catalogStep ([], [])).1).contains
        (pyLower "t") = true := by
      apply List.elem_iff.mpr
      rw [catalog_valid_tables]
      simp only [List.nil_append]
      exact List.mem_flatMap.mpr ⟨("public.t", c6Table), hmem, by simp [c6Table]⟩
    unfold _validate_schema_references
    simp only [c6InsertStmt, SqlStmt.tableNodes, SqlStmt.columnNodes, derivedColumnsOf,
      List.foldl_cons, List.foldl_nil, List.map_cons, List.map_nil, List.filterMap_cons,
      List.filterMap_nil, SqlExpr.columnOf, List.append_nil, List.nil_append]
    rw [tableScanStep_bare_found _ _ _ hvt]
    simp only [List.singleton_append, List.filterMap_cons, List.filterMap_nil,
      SqlExpr.columnOf, List.nil_append, List.foldl_cons, List.foldl_nil]
    exact not_mem_columnScanStep _ _ _ _ _ "Table \x27t\x27 not found in schema" rfl
      (List.not_mem_nil _)

/-- C9: schema reference checking is case-insensitive. If some table of the
model has the referenced bare table name up to lowercasing (a bare name
matches a table in any schema), and every table matching the reference (by
lowered bare name or lowered fully-qualified name, the keys under which the
catalog stores it) has the referenced column up to lowercasing, then
`_validate_schema_references` produces no warning at all for
`SELECT cref FROM tref`. -/
theorem c9_case_insensitive_references (m : CanonicalSchemaModel) (tref cref : String)
    (hex : ∃ e ∈ m.tables, pyLower e.2.name = pyLower tref)
    (hcols : ∀ e ∈ m.tables, (pyLower e.2.name = pyLower tref ∨ pyLower e.1 = pyLower tref) →
        ∃ col ∈ e.2.columns, pyLower col.name = pyLower cref) :
    _validate_schema_references
      (.selectS [⟨SqlExpr.columnE "" cref, ""⟩] [{ name := tref }] []) m = [] := by
  obtain ⟨e0, he0, hname0⟩ := hex
  have hvt : ((m.tables.foldl catalogStep ([], [])).1).contains (pyLower tref) = true := by
    apply List.elem_iff.mpr
    rw [catalog_valid_tables]
    simp only [List.nil_append]
    exact List.mem_flatMap.mpr ⟨e0, he0, by simp [hname0]⟩
  have hsome : (dictGet? ((m.tables.foldl catalogStep ([], [])).2) (pyLower tref)).isSome = true :=
    catalog_cols_isSome _ _ _ (Or.inr ⟨e0, he0, Or.inl hname0⟩)
  have htrans := catalog_cols_transport m.tables (pyLower tref)
    (fun cols => cols.contains (pyLower cref) = true) ([], [])
    (by intro cols h; cases h)
    (by
      intro e he hm
      obtain ⟨col, hcolmem, hcolname⟩ := hcols e he hm
      apply List.elem_iff.mpr
      exact List.mem_map.mpr ⟨col, hcolmem, hcolname⟩)
  obtain ⟨cols0, hcols0⟩ := Option.isSome_iff_exists.mp hsome
  have hfound : (match dictGet? ((m.tables.foldl catalogStep ([], [])).2) (pyLower tref) with
      | some cols => cols.contains (pyLower cref)
      | none => false) = true := by
    rw [hcols0]
    exact htrans cols0 hcols0
  unfold _validate_schema_references
  simp only [SqlStmt.tableNodes, SqlStmt.columnNodes, derivedColumnsOf,
    List.map_cons, List.map_nil, List.filterMap_cons, List.filterMap_nil, SqlExpr.columnOf,
    List.append_nil, List.nil_append, List.filter_cons, List.filter_nil, bne_self_eq_false,
    Bool.false_eq_true, if_false, List.foldl_cons, List.foldl_nil]
  rw [tableScanStep_bare_found _ _ _ hvt]
  by_cases hstar : (pyLower cref == "*") = true
  · simp [columnScanStep, hstar]
  · simp only [columnScanStep, hstar, if_false, Bool.false_eq_true, List.nil_append,
      List.any_cons, List.any_nil, beq_self_eq_true, Bool.true_and, List.contains_nil,
      Bool.and_false, Bool.or_false, bne_self_eq_false]
    rw [hcols0]
    have h2 := htrans cols0 hcols0
    simp only at h2
    simp [List.elem_iff.mp h2]

/-- The `public.Users` table (mixed case) for the C9 witness. -/
def c9UsersTable : Table :=
  { name := "Users", schema := "public", columns := [{ name := "ID", type := "integer" }] }

/-- A model containing only `public.Users(ID)`. -/
def c9Model : CanonicalSchemaModel :=
  { tables := [("public.Users", c9UsersTable)], relationships := [] }

/-- Witness for C9: `SELECT id FROM users` against a catalog storing
`public.Users(ID)` yields no warnings. -/
theorem c9_case_insensitive_references_witness :
    _validate_schema_references
      (.selectS [⟨SqlExpr.columnE "" "id", ""⟩] [{ name := "users" }] []) c9Model = [] :=
  c9_case_insensitive_references c9Model "users" "id" (by decide) (by decide)

/-! ## DDL serialization (`to_ddl` and helpers, from the source) -/

/-- Code-point lexicographic comparison of character lists, Python's string
ordering. -/
def lexLe : List Char → List Char → Bool
  | [], _ => true
  | _ :: _, [] => false
  | a :: as, b :: bs => if a < b then true else if b < a then false else lexLe as bs

/-- Python string `<=` (code-point lexicographic). -/
def strLe (a b : String) : Bool := lexLe a.data b.data

/-- Python `s.split(sep)[-1]` for a single-character separator. -/
def splitOnChar (c : Char) : List Char → List (List Char)
  | [] => [[]]
  | x :: xs =>
      let r := splitOnChar c xs
      if x == c then [] :: r
      else
        match r with
        | [] => [[x]]
        | h :: t => (x :: h) :: t

/-- The line emitted for one column by `_generate_create_table_statement`
(the loop body: four spaces, name, type, optional NOT NULL). -/
def colLineOf (col : Column) : String :=
  "    " ++ col.name ++ " " ++ col.type ++ (if !col.nullable then " NOT NULL" else "")

/-- The PRIMARY KEY constraint line of `_generate_create_table_statement`. -/
def pkLineOf (tableName : String) (pk_columns : List String) : String :=
  "    CONSTRAINT " ++ tableName ++ "_pkey PRIMARY KEY (" ++ pyJoin ", " pk_columns ++ ")"

/-- `_generate_create_table_statement`. -/
def _generate_create_table_statement (table : Table) : String :=
  let fully_qualified := table.schema ++ "." ++ table.name
  let pk_columns := (table.columns.filter (fun col => col.is_pk)).map Column.name
  let column_lines := table.columns.map colLineOf ++
    (if pk_columns ≠ [] then [pkLineOf table.name pk_columns] else [])
  "CREATE TABLE " ++ fully_qualified ++ " (" ++ "\x0a" ++ pyJoin ",\x0a" column_lines ++
    "\x0a" ++ ");"

/-- The generated foreign-key constraint name: the last dot-separated component
of the source table's fully-qualified name, the column, and `_fkey`. -/
def fkNameOf (rel : Relationship) : String :=
  let from_table_name : String := ((splitOnChar '.' rel.from_table.data).map
    (fun l => (⟨l⟩ : String))).getLast?.getD ""
  from_table_name ++ "_" ++ rel.from_column ++ "_fkey"

/-- `_generate_single_fk_statement`. -/
def _generate_single_fk_statement (rel : Relationship) : String :=
  let constraint_name := fkNameOf rel
  "ALTER TABLE " ++ rel.from_table ++ "\n" ++
    "    ADD CONSTRAINT " ++ constraint_name ++ "\n" ++
    "    FOREIGN KEY (" ++ rel.from_column ++ ")\n" ++
    "    REFERENCES " ++ rel.to_table ++ " (" ++ rel.to_column ++ ");"

/-- One step of building `relationships_by_table`: ensure the key exists, then
append the relationship to its group. -/
def relGroupStep (d : PyDict (List Relationship)) (rel : Relationship) :
    PyDict (List Relationship) :=
  match dictGet? d rel.from_table with
  | none => d ++ [(rel.from_table, [rel])]
  | some lst => dictSet d rel.from_table (lst ++ [rel])

/-- The `relationships_by_table` dict of `_generate_foreign_key_statements`. -/
def relGroupDict (rels : List Relationship) : PyDict (List Relationship) :=
  rels.foldl relGroupStep []

/-- The relationships of a model in the order `_generate_foreign_key_statements`
emits them: grouped by source table, groups in sorted key order. -/
def fkOrderedRels (m : CanonicalSchemaModel) : List Relationship :=
  let d := relGroupDict m.relationships
  let keys := List.insertionSort (fun a b => strLe a b = true) (d.map Prod.fst)
  keys.flatMap (fun k => (dictGet? d k).getD [])

/-- `_generate_foreign_key_statements`: one ALTER per relationship, grouped by
`from_table`, groups iterated in `sorted(keys)` order (Python `sorted` is a
stable sort, modelled by insertion sort). -/
def _generate_foreign_key_statements (m : CanonicalSchemaModel) : List String :=
  (fkOrderedRels m).map _generate_single_fk_statement

/-- `to_ddl`: CREATE TABLE statements for every table in lexicographic
fully-qualified-key order, then the foreign-key ALTER statements, joined by a
blank line. -/
def CanonicalSchemaModel.to_ddl (self : CanonicalSchemaModel) : String :=
  let sorted_tables := List.insertionSort (fun a b => strLe a.1 b.1 = true) self.tables
  let ddl_statements := sorted_tables.map (fun e => _generate_create_table_statement e.2)
  let fk_statements := _generate_foreign_key_statements self
  pyJoin "\n\n" (ddl_statements ++ fk_statements)

/-! ## DDL parsing (`from_ddl`)

`from_ddl` delegates parsing to sqlglot (external) and then processes the
statements with `_process_create_table` and `_process_alter_table`; the
column-extraction helpers `_extract_column_type`, `_extract_nullable`,
`_is_primary_key_inline` and the whole `_process_alter_table` are referenced
by `from_ddl` but absent from the sources. The parser below is therefore
modelled from the spec: it accepts the DDL subset grammar of the spec
(CREATE TABLE with column definitions, optional NOT NULL and a named
CONSTRAINT ... PRIMARY KEY clause; ALTER TABLE ... ADD CONSTRAINT ...
FOREIGN KEY ... REFERENCES ...), extracting the column name, the type text
and nullability from absence of NOT NULL. Unlike sqlglot it rejects
statements outside this grammar instead of ignoring them. -/

/-- A parsed column definition. -/
structure ParsedColumn where
  name : String
  type : String
  notNull : Bool
deriving Repr, DecidableEq

/-- A statement of the DDL subset: a CREATE TABLE (with its primary-key
column list) or an ALTER TABLE ... ADD ... FOREIGN KEY. -/
inductive DDLStmt where
  | createT (schemaName tableName : String) (cols : List ParsedColumn) (pks : List String)
  | addFk (from_table from_column to_table to_column : String)
deriving Repr, DecidableEq

/-- Characters allowed in a plain SQL identifier. -/
def safeIdentChar (c : Char) : Bool := c.isAlphanum || c == '_'

/-- A plain (unquoted, dot-free) identifier. -/
def safeIdent (s : String) : Bool := s != "" && s.data.all safeIdentChar

/-- A fully-qualified name: identifier characters and dots. -/
def safeFq (s : String) : Bool :=
  s != "" && s.data.all (fun c => safeIdentChar c || c == '.')

/-- A type text the grammar can carry: nonempty, single-line, no statement
separator, and not ending in the NOT NULL marker. -/
def safeType (s : String) : Bool :=
  s != "" && s.data.all (fun c => c != '\x0a' && c != ';') &&
    !(pyEndsWith s " NOT NULL")

/-- Drop an expected leading character sequence. -/
def dropPre : List Char → List Char → Option (List Char)
  | [], s => some s
  | _ :: _, [] => none
  | a :: ps, b :: ss => if a == b then dropPre ps ss else none

/-- Drop an expected trailing character sequence. -/
def dropSuf (suffix s : List Char) : Option (List Char) :=
  (dropPre suffix.reverse s.reverse).map List.reverse

/-- Split at the first space. -/
def splitFirstSpace : List Char → Option (List Char × List Char)
  | [] => none
  | c :: rest =>
      if c == ' ' then some ([], rest)
      else
        match splitFirstSpace rest with
        | some p => some (c :: p.1, p.2)
        | none => none

/-- Strip leading and trailing whitespace of a character list. -/
def trimWs (l : List Char) : List Char :=
  ((l.dropWhile Char.isWhitespace).reverse.dropWhile Char.isWhitespace).reverse

/-- Modelled from the spec: parse one column-definition line (after the trailing comma was removed):
four spaces, the column name, a space, the type text, optionally followed by
NOT NULL. -/
def parseColLine (l : List Char) : Except String ParsedColumn :=
  match dropPre "    ".data l with
  | none => .error "expected a column line"
  | some rest =>
      match splitFirstSpace rest with
      | none => .error "expected a column name and type"
      | some p =>
          let name : String := ⟨p.1⟩
          if safeIdent name && name != "CONSTRAINT" then
            match dropSuf " NOT NULL".data p.2 with
            | some ty =>
                if safeType (⟨ty⟩ : String) then .ok ⟨name, ⟨ty⟩, true⟩
                else .error "invalid column type"
            | none =>
                if safeType (⟨p.2⟩ : String) then .ok ⟨name, ⟨p.2⟩, false⟩
                else .error "invalid column type"
          else .error "invalid column name"

/-- Modelled from the spec: parse a `CONSTRAINT <n> PRIMARY KEY (c1, c2, ...)` line (after the four
leading spaces and the CONSTRAINT keyword were removed). -/
def parsePkLine (rest : List Char) : Except String (List String) :=
  match splitFirstSpace rest with
  | none => .error "expected a constraint name"
  | some p =>
      match dropPre "PRIMARY KEY (".data p.2 with
      | none => .error "expected PRIMARY KEY"
      | some inner =>
          match dropSuf ")".data inner with
          | none => .error "expected a closing parenthesis"
          | some colsC =>
              let names := (splitOnChar ',' colsC).map
                (fun l => (⟨l.dropWhile (· == ' ')⟩ : String))
              if names.all (fun n => safeIdent n) then .ok names
              else .error "invalid primary key column"

/-- Modelled from the spec: strip the trailing comma of every body line except the last. -/
def commaTerminate : List (List Char) → Except String (List (List Char))
  | [] => .ok []
  | [last] => .ok [last]
  | l :: rest =>
      match dropSuf ",".data l with
      | none => .error "expected a comma between column lines"
      | some x =>
          match commaTerminate rest with
          | .error e => .error e
          | .ok xs => .ok (x :: xs)

/-- Modelled from the spec: parse the body lines of a CREATE TABLE into columns and primary keys. -/
def parseBodyItems : List (List Char) → Except String (List ParsedColumn × List String)
  | [] => .ok ([], [])
  | item :: rest =>
      match parseBodyItems rest with
      | .error e => .error e
      | .ok acc =>
          match dropPre "    CONSTRAINT ".data item with
          | some pkRest =>
              match parsePkLine pkRest with
              | .error e => .error e
              | .ok pks => .ok (acc.1, pks ++ acc.2)
          | none =>
              match parseColLine item with
              | .error e => .error e
              | .ok col => .ok (col :: acc.1, acc.2)

/-- Modelled from the spec: parse one `CREATE TABLE schema.name (...)` chunk (without the `;`). -/
def parseCreateChunk (rest : List Char) : Except String DDLStmt :=
  match splitFirstSpace rest with
  | none => .error "expected a table name"
  | some p =>
      match splitOnChar '.' p.1 with
      | [schemaC, nameC] =>
          let schemaName : String := ⟨schemaC⟩
          let tableName : String := ⟨nameC⟩
          if safeIdent schemaName && safeIdent tableName then
            match dropPre "(\x0a".data p.2 with
            | none => .error "expected an opening parenthesis"
            | some rest3 =>
                match dropSuf "\x0a)".data rest3 with
                | none => .error "expected a closing parenthesis"
                | some bodyC =>
                    if bodyC = [] then .ok (.createT schemaName tableName [] [])
                    else
                      match commaTerminate (splitOnChar '\x0a' bodyC) with
                      | .error e => .error e
                      | .ok items =>
                          match parseBodyItems items with
                          | .error e => .error e
                          | .ok cp =>
                              if (cp.1.map ParsedColumn.name).Nodup then
                                .ok (.createT schemaName tableName cp.1 cp.2)
                              else .error "duplicate column name"
          else .error "invalid table name"
      | _ => .error "expected schema.table"

/-- Modelled from the spec: parse one `ALTER TABLE ... ADD CONSTRAINT ... FOREIGN KEY ... REFERENCES`
chunk (without the `;`). -/
def parseAlterChunk (rest : List Char) : Except String DDLStmt :=
  match splitOnChar '\x0a' rest with
  | [l0, l1, l2, l3] =>
      let ft : String := ⟨l0⟩
      if safeFq ft then
        match dropPre "    ADD CONSTRAINT ".data l1 with
        | none => .error "expected ADD CONSTRAINT"
        | some _cn =>
            match dropPre "    FOREIGN KEY (".data l2 with
            | none => .error "expected FOREIGN KEY"
            | some l2r =>
                match dropSuf ")".data l2r with
                | none => .error "expected a closing parenthesis"
                | some fcC =>
                    let fc : String := ⟨fcC⟩
                    if safeIdent fc then
                      match dropPre "    REFERENCES ".data l3 with
                      | none => .error "expected REFERENCES"
                      | some l3r =>
                          match splitFirstSpace l3r with
                          | none => .error "expected a referenced table"
                          | some q =>
                              let tt : String := ⟨q.1⟩
                              match dropPre "(".data q.2 with
                              | none => .error "expected an opening parenthesis"
                              | some inner =>
                                  match dropSuf ")".data inner with
                                  | none => .error "expected a closing parenthesis"
                                  | some tcC =>
                                      let tc : String := ⟨tcC⟩
                                      if safeFq tt && safeIdent tc then
                                        .ok (.addFk ft fc tt tc)
                                      else .error "invalid referenced column"
                    else .error "invalid foreign key column"
      else .error "invalid table name"
  | _ => .error "malformed ALTER TABLE statement"

/-- Modelled from the spec: parse one statement chunk. -/
def parseChunk (chunk : List Char) : Except String DDLStmt :=
  match dropPre "CREATE TABLE ".data chunk with
  | some rest => parseCreateChunk rest
  | none =>
      match dropPre "ALTER TABLE ".data chunk with
      | some rest => parseAlterChunk rest
      | none => .error "unsupported statement"

/-- Modelled from the spec: parse the `;`-separated chunks: all but the last are statements, the text
after the final `;` must be whitespace. -/
def parseChunks : List (List Char) → Except String (List DDLStmt)
  | [] => .ok []
  | [last] =>
      if trimWs last = [] then .ok []
      else .error "expected a terminating semicolon"
  | c :: rest =>
      match parseChunk (trimWs c) with
      | .error e => .error e
      | .ok stmt =>
          match parseChunks rest with
          | .error e => .error e
          | .ok stmts => .ok (stmt :: stmts)

/-- Modelled from the spec: the statement-splitting parse step performed by
`sqlglot.parse` for the DDL subset grammar of the spec. -/
def parse_ddl (s : String) : Except String (List DDLStmt) :=
  parseChunks (splitOnChar ';' s.data)

/-- The CREATE TABLE pass of `from_ddl` (`_process_create_table`): build the
columns, primary-key flags from the constraint clause, `is_fk` initially
false, and key the table by its fully-qualified name. -/
def _process_create_stmt (schemaName tableName : String) (cols : List ParsedColumn)
    (pks : List String) (tables_dict : PyDict Table) : PyDict Table :=
  let columns := cols.map (fun c =>
    { name := c.name, type := c.type, is_pk := pks.contains c.name, is_fk := false,
      nullable := !c.notNull : Column })
  dictSet tables_dict (schemaName ++ "." ++ tableName)
    { name := tableName, schema := schemaName, columns := columns, row_count := none }

/-- Modelled from the spec: `_process_alter_table` is called by `from_ddl` but
missing from the sources; per the spec an `ADD CONSTRAINT ... FOREIGN KEY`
alteration appends a Relationship with fully-qualified names on both sides,
and per the Relationship invariant the `from` column is flagged `is_fk`. -/
def _process_alter_stmt (ft fc tt tc : String)
    (st : PyDict Table × List Relationship) : PyDict Table × List Relationship :=
  let tables :=
    match dictGet? st.1 ft with
    | some table =>
        dictSet st.1 ft { table with
          columns := CanonicalSchemaModel.updateFirstColumn table.columns fc
            (fun c => { c with is_fk := true }) }
    | none => st.1
  (tables, st.2 ++ [{ from_table := ft, from_column := fc, to_table := tt, to_column := tc }])

/-- The CREATE pass fold step of `from_ddl`: process CREATE TABLE statements,
skip everything else. -/
def createPassStep (td : PyDict Table) (s : DDLStmt) : PyDict Table :=
  match s with
  | .createT sn tn cols pks => _process_create_stmt sn tn cols pks td
  | _ => td

/-- The ALTER pass fold step of `from_ddl`: process ALTER TABLE statements,
skip everything else. -/
def alterPassStep (st : PyDict Table × List Relationship) (s : DDLStmt) :
    PyDict Table × List Relationship :=
  match s with
  | .addFk ft fc tt tc => _process_alter_stmt ft fc tt tc st
  | _ => st

/-- The two statement passes of `from_ddl`: all CREATE TABLE first, then all
ALTER TABLE, so forward-referencing foreign keys resolve. -/
def buildModel (stmts : List DDLStmt) : CanonicalSchemaModel :=
  let tables := stmts.foldl createPassStep []
  let st := stmts.foldl alterPassStep (tables, [])
  { tables := st.1, relationships := st.2 }

/-- `from_ddl`: parse, then the two statement passes; a parse failure is a
`SchemaValidationError`. -/
def CanonicalSchemaModel.from_ddl (ddl_text : String) : Except String CanonicalSchemaModel :=
  match parse_ddl ddl_text with
  | .error e => .error ("Failed to parse DDL: " ++ e)
  | .ok stmts => .ok (buildModel stmts)

/-! ## Round-trip development for the DDL contract -/

set_option maxRecDepth 10000

theorem lexLe_refl (l : List Char) : lexLe l l = true := by
  induction l with
  | nil => rfl
  | cons a t ih => simp [lexLe, ih]

theorem lexLe_total (a b : List Char) : lexLe a b = true ∨ lexLe b a = true := by
  induction a generalizing b with
  | nil => left; rfl
  | cons x xs ih =>
      cases b with
      | nil => right; rfl
      | cons y ys =>
          rcases lt_trichotomy x y with h | h | h
          · left; simp [lexLe, h]
          · subst h
            rcases ih ys with h' | h'
            · left; simp [lexLe, lt_irrefl, h']
            · right; simp [lexLe, lt_irrefl, h']
          · right; simp [lexLe, h]

theorem lexLe_trans {a b c : List Char} (hab : lexLe a b = true)
    (hbc : lexLe b c = true) : lexLe a c = true := by
  induction a generalizing b c with
  | nil => rfl
  | cons x xs ih =>
      cases b with
      | nil => simp [lexLe] at hab
      | cons y ys =>
          cases c with
          | nil => simp [lexLe] at hbc
          | cons z zs =>
              rcases lt_trichotomy x y with hxy | hxy | hxy
              · rcases lt_trichotomy y z with hyz | hyz | hyz
                · simp [lexLe, lt_trans hxy hyz]
                · subst hyz; simp [lexLe, hxy]
                · simp [lexLe, asymm hyz, hyz] at hbc
              · subst hxy
                rcases lt_trichotomy x z with hxz | hxz | hxz
                · simp [lexLe, hxz]
                · subst hxz
                  simp only [lexLe, if_neg (lt_irrefl x)] at hab hbc ⊢
                  exact ih hab hbc
                · simp [lexLe, asymm hxz, hxz] at hbc
              · simp [lexLe, asymm hxy, hxy] at hab

theorem lexLe_antisymm {a b : List Char} (hab : lexLe a b = true)
    (hba : lexLe b a = true) : a = b := by
  induction a generalizing b with
  | nil =>
      cases b with
      | nil => rfl
      | cons y ys => simp [lexLe] at hba
  | cons x xs ih =>
      cases b with
      | nil => simp [lexLe] at hab
      | cons y ys =>
          rcases lt_trichotomy x y with hxy | hxy | hxy
          · simp [lexLe, asymm hxy, hxy] at hba
          · subst hxy
            simp only [lexLe, if_neg (lt_irrefl x)] at hab hba
            rw [ih hab hba]
          · simp [lexLe, asymm hxy, hxy] at hab

theorem strLe_refl (a : String) : strLe a a = true := lexLe_refl a.data

theorem strLe_total (a b : String) : strLe a b = true ∨ strLe b a = true :=
  lexLe_total a.data b.data

theorem strLe_trans {a b c : String} (hab : strLe a b = true) (hbc : strLe b c = true) :
    strLe a c = true := lexLe_trans hab hbc

theorem strLe_antisymm {a b : String} (hab : strLe a b = true) (hba : strLe b a = true) :
    a = b := by
  cases a with
  | mk da =>
      cases b with
      | mk db => exact congrArg String.mk (lexLe_antisymm hab hba)

theorem sorted_insertionSort_strLe (l : List String) :
    List.Sorted (fun a b => strLe a b = true)
      (List.insertionSort (fun a b => strLe a b = true) l) := by
  haveI : IsTotal String (fun a b => strLe a b = true) := ⟨fun a b => strLe_total a b⟩
  haveI : IsTrans String (fun a b => strLe a b = true) := ⟨fun a b c => strLe_trans⟩
  exact List.sorted_insertionSort _ l

theorem sorted_insertionSort_entry (l : List (String × Table)) :
    List.Sorted (fun a b => strLe a.1 b.1 = true)
      (List.insertionSort (fun a b => strLe a.1 b.1 = true) l) := by
  haveI : IsTotal (String × Table) (fun a b => strLe a.1 b.1 = true) :=
    ⟨fun a b => strLe_total a.1 b.1⟩
  haveI : IsTrans (String × Table) (fun a b => strLe a.1 b.1 = true) :=
    ⟨fun a b c => strLe_trans⟩
  exact List.sorted_insertionSort _ l

theorem dropPre_append (p r : List Char) : dropPre p (p ++ r) = some r := by
  induction p with
  | nil => rfl
  | cons a t ih => simp [dropPre, ih]

theorem dropPre_sound {p s r : List Char} (h : dropPre p s = some r) : s = p ++ r := by
  induction p generalizing s with
  | nil => simp [dropPre] at h; simp [h]
  | cons a t ih =>
      cases s with
      | nil => simp [dropPre] at h
      | cons b s' =>
          simp only [dropPre] at h
          by_cases hab : a == b
          · rw [if_pos hab] at h
            have hab' : a = b := beq_iff_eq.mp hab
            subst hab'
            simp [ih h]
          · rw [if_neg hab] at h; cases h

theorem dropSuf_append (suffix r : List Char) : dropSuf suffix (r ++ suffix) = some r := by
  unfold dropSuf
  rw [List.reverse_append, dropPre_append]
  simp

theorem dropSuf_sound {suffix s r : List Char} (h : dropSuf suffix s = some r) :
    s = r ++ suffix := by
  unfold dropSuf at h
  cases hp : dropPre suffix.reverse s.reverse with
  | none => rw [hp] at h; cases h
  | some x =>
      rw [hp] at h
      simp only [Option.map_some'] at h
      have hs := dropPre_sound hp
      have hrev : s = x.reverse ++ suffix := by
        have : s.reverse.reverse = (suffix.reverse ++ x).reverse := by rw [hs]
        simpa [List.reverse_append] using this
      have hxr : x.reverse = r := Option.some.inj h
      rw [hrev, hxr]

theorem dropSuf_none_of_not_suffix {suffix s : List Char}
    (h : suffix.isSuffixOf s = false) : dropSuf suffix s = none := by
  cases hd : dropSuf suffix s with
  | none => rfl
  | some r =>
      have hs := dropSuf_sound hd
      subst hs
      have ht : suffix.isSuffixOf (r ++ suffix) = true :=
        List.isSuffixOf_iff_suffix.mpr (List.suffix_append r suffix)
      simp [h] at ht

theorem splitFirstSpace_append {n : List Char} (r : List Char) (h : ' ' ∉ n) :
    splitFirstSpace (n ++ ' ' :: r) = some (n, r) := by
  induction n with
  | nil => rfl
  | cons a t ih =>
      have ha : (a == ' ') = false := by
        have : a ≠ ' ' := fun he => h (he ▸ List.mem_cons_self a t)
        simpa using this
      have ht : ' ' ∉ t := fun hm => h (List.mem_cons_of_mem a hm)
      have hrec := ih ht
      rw [List.cons_append]
      simp [splitFirstSpace, ha, hrec]

theorem splitOnChar_ne_nil (c : Char) (l : List Char) : splitOnChar c l ≠ [] := by
  cases l with
  | nil => simp [splitOnChar]
  | cons x xs =>
      simp only [splitOnChar]
      by_cases hx : (x == c) = true
      · simp [hx]
      · rw [if_neg hx]
        cases h : splitOnChar c xs with
        | nil => simp
        | cons a b => simp

theorem splitOnChar_not_mem {c : Char} {l : List Char} (h : c ∉ l) :
    splitOnChar c l = [l] := by
  induction l with
  | nil => rfl
  | cons x xs ih =>
      have hx : (x == c) = false := by
        have : x ≠ c := fun he => h (he ▸ List.mem_cons_self x xs)
        simpa using this
      have hrec := ih (fun hm => h (List.mem_cons_of_mem x hm))
      simp [splitOnChar, hx, hrec]

theorem splitOnChar_append_cons {c : Char} {a : List Char} (b : List Char) (h : c ∉ a) :
    splitOnChar c (a ++ c :: b) = a :: splitOnChar c b := by
  induction a with
  | nil => simp [splitOnChar]
  | cons x xs ih =>
      have hx : (x == c) = false := by
        have : x ≠ c := fun he => h (he ▸ List.mem_cons_self x xs)
        simpa using this
      have hrec := ih (fun hm => h (List.mem_cons_of_mem x hm))
      rw [List.cons_append]
      rcases hsp : splitOnChar c (xs ++ c :: b) with _ | ⟨y, ys⟩
      · exact absurd hsp (splitOnChar_ne_nil c _)
      · rw [hsp] at hrec
        injection hrec with h1 h2
        simp [splitOnChar, hx, hsp, h1, h2]

theorem splitOnChar_cons_ne {c x : Char} (l : List Char) (h : (x == c) = false) :
    splitOnChar c (x :: l) =
      (x :: (splitOnChar c l).headI) :: (splitOnChar c l).tail := by
  rcases hsp : splitOnChar c l with _ | ⟨y, ys⟩
  · exact absurd hsp (splitOnChar_ne_nil c l)
  · simp [splitOnChar, h, hsp]

theorem safeIdent_all {s : String} (h : safeIdent s = true) :
    ∀ x ∈ s.data, safeIdentChar x = true := by
  unfold safeIdent at h
  rw [Bool.and_eq_true] at h
  exact fun x hx => List.all_eq_true.mp h.2 x hx

theorem safeIdent_not_mem {s : String} {ch : Char} (h : safeIdent s = true)
    (hch : safeIdentChar ch = false) : ch ∉ s.data := fun hm => by
  have := safeIdent_all h ch hm
  rw [hch] at this
  cases this

theorem safeFq_all {s : String} (h : safeFq s = true) :
    ∀ x ∈ s.data, (safeIdentChar x || x == '.') = true := by
  unfold safeFq at h
  rw [Bool.and_eq_true] at h
  exact fun x hx => List.all_eq_true.mp h.2 x hx

theorem safeFq_not_mem {s : String} {ch : Char} (h : safeFq s = true)
    (hch : (safeIdentChar ch || ch == '.') = false) : ch ∉ s.data := fun hm => by
  have := safeFq_all h ch hm
  rw [hch] at this
  cases this

theorem safeType_not_mem {s : String} (h : safeType s = true) :
    '\x0a' ∉ s.data ∧ ';' ∉ s.data := by
  unfold safeType at h
  rw [Bool.and_eq_true, Bool.and_eq_true] at h
  constructor
  · intro hm
    have := List.all_eq_true.mp h.1.2 _ hm
    simp at this
  · intro hm
    have := List.all_eq_true.mp h.1.2 _ hm
    simp at this

theorem trimWs_sandwich {x y : Char} (m : List Char) (hx : x.isWhitespace = false)
    (hy : y.isWhitespace = false) : trimWs (x :: (m ++ [y])) = x :: (m ++ [y]) := by
  unfold trimWs
  rw [List.dropWhile_cons_of_neg (by simp [hx])]
  have hrev : (x :: (m ++ [y])).reverse = y :: (m.reverse ++ [x]) := by
    simp
  rw [hrev, List.dropWhile_cons_of_neg (by simp [hy]), ← hrev, List.reverse_reverse]

theorem trimWs_ws_append {w : List Char} (c : List Char)
    (hw : ∀ z ∈ w, z.isWhitespace = true) : trimWs (w ++ c) = trimWs c := by
  induction w with
  | nil => rfl
  | cons z zs ih =>
      unfold trimWs
      rw [List.cons_append,
        List.dropWhile_cons_of_pos (by simp [hw z (List.mem_cons_self z zs)])]
      have := ih (fun z' hz' => hw z' (List.mem_cons_of_mem z hz'))
      unfold trimWs at this
      exact this

theorem pyJoin_mem {sep : String} {ls : List String} {x : Char}
    (h : x ∈ (pyJoin sep ls).data) : x ∈ sep.data ∨ ∃ l ∈ ls, x ∈ l.data := by
  induction ls with
  | nil => simp [pyJoin] at h
  | cons s rest ih =>
      cases rest with
      | nil =>
          right
          exact ⟨s, List.mem_cons_self s [], by simpa [pyJoin] using h⟩
      | cons y t =>
          rw [show pyJoin sep (s :: y :: t) = s ++ sep ++ pyJoin sep (y :: t) from rfl] at h
          simp only [String.data_append, List.mem_append] at h
          rcases h with (hs | hsep) | hrest
          · exact Or.inr ⟨s, List.mem_cons_self s _, hs⟩
          · exact Or.inl hsep
          · rcases ih hrest with hsep | ⟨l, hl, hxl⟩
            · exact Or.inl hsep
            · exact Or.inr ⟨l, List.mem_cons_of_mem s hl, hxl⟩

/-- The statement a well-formed table round-trips to. -/
def stmtOfTable (t : Table) : DDLStmt :=
  .createT t.schema t.name
    (t.columns.map (fun c => ⟨c.name, c.type, !c.nullable⟩))
    ((t.columns.filter (fun c => c.is_pk)).map Column.name)

/-- The statement a relationship round-trips to. -/
def stmtOfRel (r : Relationship) : DDLStmt :=
  .addFk r.from_table r.from_column r.to_table r.to_column

/-- Well-formedness of a column for serialization. -/
def WFColumn (c : Column) : Prop :=
  safeIdent c.name = true ∧ c.name ≠ "CONSTRAINT" ∧ safeType c.type = true

/-- Well-formedness of a catalog entry. -/
def WFTable (k : String) (t : Table) : Prop :=
  k = t.schema ++ "." ++ t.name ∧ safeIdent t.schema = true ∧ safeIdent t.name = true ∧
    (t.columns.map Column.name).Nodup ∧ ∀ c ∈ t.columns, WFColumn c

/-- Well-formedness of a relationship. -/
def WFRel (r : Relationship) : Prop :=
  safeFq r.from_table = true ∧ safeIdent r.from_column = true ∧
    safeFq r.to_table = true ∧ safeIdent r.to_column = true

/-- Well-formedness of a model for serialization round-tripping. -/
def WFModel (m : CanonicalSchemaModel) : Prop :=
  (m.tables.map Prod.fst).Nodup ∧ (∀ e ∈ m.tables, WFTable e.1 e.2) ∧
    ∀ r ∈ m.relationships, WFRel r

theorem safeType_not_endsWith {s : String} (h : safeType s = true) :
    (" NOT NULL".data.isSuffixOf s.data) = false := by
  unfold safeType at h
  rw [Bool.and_eq_true] at h
  have := h.2
  unfold pyEndsWith at this
  simpa using this

theorem parseColLine_colLine {c : Column} (h : WFColumn c) :
    parseColLine (colLineOf c).data = .ok ⟨c.name, c.type, !c.nullable⟩ := by
  obtain ⟨h1, h2, h3⟩ := h
  have hns : ' ' ∉ c.name.data := safeIdent_not_mem h1 (by decide)
  have hmkn : (⟨c.name.data⟩ : String) = c.name := rfl
  have hmkt : (⟨c.type.data⟩ : String) = c.type := rfl
  have hguard : (safeIdent c.name && c.name != "CONSTRAINT") = true := by
    simp [h1, h2]
  cases hn : c.nullable with
  | true =>
      have hdata : (colLineOf c).data
          = "    ".data ++ (c.name.data ++ ' ' :: c.type.data) := by
        simp [colLineOf, hn, String.data_append]
      have hnsuf : dropSuf " NOT NULL".data c.type.data = none :=
        dropSuf_none_of_not_suffix (safeType_not_endsWith h3)
      simp only [parseColLine, hdata, dropPre_append, splitFirstSpace_append _ hns,
        hmkn, hmkt, hguard, hnsuf, if_true, h3, hn, Bool.not_true]
  | false =>
      have hdata : (colLineOf c).data
          = "    ".data ++ (c.name.data ++ ' ' :: (c.type.data ++ " NOT NULL".data)) := by
        simp [colLineOf, hn, String.data_append]
      simp only [parseColLine, hdata, dropPre_append, splitFirstSpace_append _ hns,
        hmkn, hmkt, hguard, dropSuf_append, if_true, h3, hn, Bool.not_false]

theorem dropPre_append_left (p q s : List Char) :
    dropPre (p ++ q) (p ++ s) = dropPre q s := by
  induction p with
  | nil => rfl
  | cons a t ih => simp [dropPre, ih]

theorem dropPre_wordSpace_none {w n : List Char} (hw : ' ' ∉ w) (hn : ' ' ∉ n)
    (hne : n ≠ w) (r : List Char) : dropPre (w ++ [' ']) (n ++ ' ' :: r) = none := by
  induction w generalizing n with
  | nil =>
      cases n with
      | nil => exact absurd rfl hne
      | cons a t =>
          have ha : (' ' == a) = false := by
            have : a ≠ ' ' := fun he => hn (he ▸ List.mem_cons_self a t)
            simpa using this.symm
          simp [dropPre, ha]
  | cons b w' ih =>
      cases n with
      | nil =>
          have hb : (b == ' ') = false := by
            have : b ≠ ' ' := fun he => hw (he ▸ List.mem_cons_self b w')
            simpa using this
          simp [dropPre, hb]
      | cons a t =>
          by_cases hab : b = a
          · subst hab
            have hw' : ' ' ∉ w' := fun hm => hw (List.mem_cons_of_mem b hm)
            have ht : ' ' ∉ t := fun hm => hn (List.mem_cons_of_mem b hm)
            have hne' : t ≠ w' := fun he => hne (by rw [he])
            simp only [List.cons_append, dropPre]
            rw [if_pos (by simp)]
            exact ih hw' ht hne'
          · have hf : (b == a) = false := by simpa using hab
            simp [dropPre, hf]

theorem dropWhile_space_of_no_space {l : List Char} (h : ' ' ∉ l) :
    l.dropWhile (· == ' ') = l := by
  cases l with
  | nil => rfl
  | cons x xs =>
      have : x ≠ ' ' := fun he => h (he ▸ List.mem_cons_self x xs)
      rw [List.dropWhile_cons_of_neg (by simpa using this)]

theorem splitJoin_comma (p : String) (ps : List String)
    (hall : ∀ q ∈ p :: ps, safeIdent q = true) :
    splitOnChar ',' (pyJoin ", " (p :: ps)).data
      = p.data :: ps.map (fun q => ' ' :: q.data) := by
  induction ps generalizing p with
  | nil =>
      simp only [pyJoin, List.map_nil]
      exact splitOnChar_not_mem
        (safeIdent_not_mem (hall p (List.mem_cons_self p [])) (by decide))
  | cons y t ih =>
      have hp : safeIdent p = true := hall p (List.mem_cons_self p _)
      have hpc : ',' ∉ p.data := safeIdent_not_mem hp (by decide)
      have hdata : (pyJoin ", " (p :: y :: t)).data
          = p.data ++ ',' :: (' ' :: (pyJoin ", " (y :: t)).data) := by
        rw [show pyJoin ", " (p :: y :: t) = p ++ ", " ++ pyJoin ", " (y :: t) from rfl]
        simp [String.data_append]
      rw [hdata, splitOnChar_append_cons _ hpc]
      have ihy := ih y (fun q hq => hall q (List.mem_cons_of_mem p hq))
      rw [splitOnChar_cons_ne _ (by decide), ihy]
      simp

theorem parsePkLine_inv (tn : String) (p : String) (ps : List String)
    (htn : safeIdent tn = true)
    (hall : ∀ q ∈ p :: ps, safeIdent q = true) :
    parsePkLine ((tn ++ "_pkey").data ++
      ' ' :: ("PRIMARY KEY (".data ++ ((pyJoin ", " (p :: ps)).data ++ [')'])))
      = .ok (p :: ps) := by
  have hcn : ' ' ∉ (tn ++ "_pkey").data := by
    rw [String.data_append]
    intro hm
    rcases List.mem_append.mp hm with hm' | hm'
    · exact safeIdent_not_mem htn (by decide) hm'
    · simp at hm'
  have hsp : ∀ q ∈ p :: ps, ' ' ∉ q.data :=
    fun q hq => safeIdent_not_mem (hall q hq) (by decide)
  simp only [parsePkLine, splitFirstSpace_append _ hcn, dropPre_append, dropSuf_append,
    splitJoin_comma p ps hall]
  have hmap : (p.data :: List.map (fun q => ' ' :: q.data) ps).map
      (fun l => (⟨l.dropWhile (· == ' ')⟩ : String)) = p :: ps := by
    rw [List.map_cons]
    congr 1
    · rw [dropWhile_space_of_no_space (hsp p (List.mem_cons_self p _))]
    · rw [List.map_map]
      have : ∀ q ∈ ps, ((fun l => (⟨List.dropWhile (fun x => x == ' ') l⟩ : String)) ∘
          fun q => ' ' :: q.data) q = id q := by
        intro q hq
        simp only [Function.comp, id]
        rw [List.dropWhile_cons_of_pos (by simp),
          dropWhile_space_of_no_space (hsp q (List.mem_cons_of_mem p hq))]
      rw [List.map_congr_left this, List.map_id]
  rw [hmap]
  have hallb : (p :: ps).all (fun n => safeIdent n) = true := by
    rw [List.all_eq_true]
    exact fun q hq => hall q hq
  simp [hallb]

/-- The body lines with the separating commas re-attached, as the newline
split sees them. -/
def withCommas : List (List Char) → List (List Char)
  | [] => []
  | [x] => [x]
  | x :: xs => (x ++ [',']) :: withCommas xs

theorem splitBody (ls : List String) (hne : ls ≠ [])
    (hnl : ∀ l ∈ ls, '\x0a' ∉ l.data) :
    splitOnChar '\x0a' (pyJoin ",\x0a" ls).data = withCommas (ls.map String.data) := by
  induction ls with
  | nil => exact absurd rfl hne
  | cons s rest ih =>
      cases rest with
      | nil =>
          simp only [List.map_cons, List.map_nil, withCommas, pyJoin]
          exact splitOnChar_not_mem (hnl s (List.mem_cons_self s _))
      | cons y t =>
          have hs : '\x0a' ∉ s.data ++ [','] := by
            intro hm
            rcases List.mem_append.mp hm with hm' | hm'
            · exact hnl s (List.mem_cons_self s _) hm'
            · simp at hm'
          have hdata : (pyJoin ",\x0a" (s :: y :: t)).data
              = (s.data ++ [',']) ++ '\x0a' :: (pyJoin ",\x0a" (y :: t)).data := by
            rw [show pyJoin ",\x0a" (s :: y :: t) = s ++ ",\x0a" ++ pyJoin ",\x0a" (y :: t)
              from rfl]
            simp [String.data_append]
          rw [hdata, splitOnChar_append_cons _ hs,
            ih (by simp) (fun l hl => hnl l (List.mem_cons_of_mem s hl))]
          rfl

theorem commaTerminate_withCommas (ds : List (List Char)) (hne : ds ≠ []) :
    commaTerminate (withCommas ds) = .ok ds := by
  induction ds with
  | nil => exact absurd rfl hne
  | cons x xs ih =>
      cases xs with
      | nil => rfl
      | cons y t =>
          have : withCommas (x :: y :: t) = (x ++ [',']) :: withCommas (y :: t) := rfl
          rw [this]
          have hwc : withCommas (y :: t) ≠ [] := by
            cases t <;> simp [withCommas]
          rcases hw : withCommas (y :: t) with _ | ⟨z, zs⟩
          · exact absurd hw hwc
          · simp only [commaTerminate]
            rw [dropSuf_append, ← hw, ih (by simp)]

theorem colLine_not_constraint {c : Column} (h : WFColumn c) (r : List Char) :
    dropPre "    CONSTRAINT ".data ("    ".data ++ (c.name.data ++ ' ' :: r)) = none := by
  obtain ⟨h1, h2, _⟩ := h
  rw [show "    CONSTRAINT ".data = "    ".data ++ ("CONSTRAINT".data ++ [' ']) from rfl,
    dropPre_append_left]
  exact dropPre_wordSpace_none (by decide) (safeIdent_not_mem h1 (by decide))
    (fun he => h2 (show c.name = "CONSTRAINT" from congrArg String.mk he)) r

theorem parseBodyItems_cols (cols : List Column) (hwf : ∀ c ∈ cols, WFColumn c)
    (tailItems : List (List Char)) (pks : List String)
    (htail : parseBodyItems tailItems = .ok ([], pks)) :
    parseBodyItems (cols.map (fun c => (colLineOf c).data) ++ tailItems)
      = .ok (cols.map (fun c => ⟨c.name, c.type, !c.nullable⟩), pks) := by
  induction cols with
  | nil => simpa using htail
  | cons c cs ih =>
      have hc := hwf c (List.mem_cons_self c _)
      have hdata : (colLineOf c).data
          = "    ".data ++ (c.name.data ++ ' ' ::
            (c.type.data ++ (if !c.nullable then " NOT NULL" else "").data)) := by
        simp [colLineOf, String.data_append]
      have hdisp := colLine_not_constraint hc
        (c.type.data ++ (if !c.nullable then " NOT NULL" else "").data)
      rw [← hdata] at hdisp
      simp only [List.map_cons, List.cons_append, parseBodyItems, List.append_eq,
        ih (fun c' hc' => hwf c' (List.mem_cons_of_mem c hc')), hdisp,
        parseColLine_colLine hc]

theorem parseBodyItems_pkTail (tn p : String) (ps : List String)
    (htn : safeIdent tn = true) (hall : ∀ q ∈ p :: ps, safeIdent q = true) :
    parseBodyItems [(pkLineOf tn (p :: ps)).data] = .ok ([], p :: ps) := by
  have hdata : (pkLineOf tn (p :: ps)).data
      = "    CONSTRAINT ".data ++ ((tn ++ "_pkey").data ++
        ' ' :: ("PRIMARY KEY (".data ++ ((pyJoin ", " (p :: ps)).data ++ [')']))) := by
    simp [pkLineOf, String.data_append]
  simp only [parseBodyItems, hdata, dropPre_append,
    parsePkLine_inv tn p ps htn hall, List.append_nil]

/-- The column/constraint lines of a CREATE TABLE statement. -/
def bodyLinesOf (t : Table) : List String :=
  let pk_columns := (t.columns.filter (fun col => col.is_pk)).map Column.name
  t.columns.map colLineOf ++ (if pk_columns ≠ [] then [pkLineOf t.name pk_columns] else [])

/-- The CREATE TABLE statement text before the terminating semicolon. -/
def createChunkOf (t : Table) : List Char :=
  "CREATE TABLE ".data ++ ((t.schema ++ "." ++ t.name).data ++
    ' ' :: ('(' :: '\x0a' :: ((pyJoin ",\x0a" (bodyLinesOf t)).data ++ '\x0a' :: [')'])))

theorem create_stmt_data (t : Table) :
    (_generate_create_table_statement t).data = createChunkOf t ++ [';'] := by
  simp [_generate_create_table_statement, createChunkOf, bodyLinesOf, String.data_append]

theorem colLine_chars {c : Column} (h : WFColumn c) :
    ';' ∉ (colLineOf c).data ∧ '\x0a' ∉ (colLineOf c).data := by
  obtain ⟨h1, _, h3⟩ := h
  have hty := safeType_not_mem h3
  constructor <;>
  · intro hm
    simp only [colLineOf, String.data_append] at hm
    rcases List.mem_append.mp hm with hm' | hm'
    · rcases List.mem_append.mp hm' with hm'' | hm''
      · rcases List.mem_append.mp hm'' with h4 | h4
        · rcases List.mem_append.mp h4 with h5 | h5
          · simp at h5
          · first
            | exact safeIdent_not_mem h1 (by decide) h5
        · simp at h4
      · first
        | exact hty.2 hm''
        | exact hty.1 hm''
    · split at hm' <;> simp at hm'

theorem pkLine_chars {tn : String} {pks : List String} (htn : safeIdent tn = true)
    (hall : ∀ q ∈ pks, safeIdent q = true) :
    ';' ∉ (pkLineOf tn pks).data ∧ '\x0a' ∉ (pkLineOf tn pks).data := by
  constructor <;>
  · intro hm
    simp only [pkLineOf, String.data_append] at hm
    rcases List.mem_append.mp hm with hm1 | hm1
    · rcases List.mem_append.mp hm1 with hm2 | hm2
      · rcases List.mem_append.mp hm2 with hm3 | hm3
        · rcases List.mem_append.mp hm3 with h4 | h4
          · simp at h4
          · exact absurd (safeIdent_all htn _ h4) (by decide)
        · simp at hm3
      · rcases pyJoin_mem hm2 with hs | ⟨l, hl, hxl⟩
        · simp at hs
        · exact absurd (safeIdent_all (hall l hl) _ hxl) (by decide)
    · simp at hm1

theorem bodyLines_chars {k : String} {t : Table} (h : WFTable k t) :
    ∀ l ∈ bodyLinesOf t, ';' ∉ l.data ∧ '\x0a' ∉ l.data := by
  obtain ⟨_, _, hname, _, hcols⟩ := h
  intro l hl
  unfold bodyLinesOf at hl
  rcases List.mem_append.mp hl with hm | hm
  · obtain ⟨c, hc, hce⟩ := List.mem_map.mp hm
    exact hce ▸ colLine_chars (hcols c hc)
  · split at hm
    · have : l = pkLineOf t.name ((t.columns.filter (fun col => col.is_pk)).map Column.name) := by
        simpa using hm
      subst this
      refine pkLine_chars hname ?_
      intro q hq
      obtain ⟨c, hc, hce⟩ := List.mem_map.mp hq
      exact hce ▸ (hcols c (List.mem_of_mem_filter hc)).1
    · simp at hm

theorem createChunk_shape (t : Table) :
    createChunkOf t = 'C' :: (("REATE TABLE ".data ++
      ((t.schema ++ "." ++ t.name).data ++
        ' ' :: ('(' :: '\x0a' :: ((pyJoin ",\x0a" (bodyLinesOf t)).data ++ ['\x0a'])))) ++ [')']) := by
  simp [createChunkOf, List.append_assoc]

theorem createChunk_trim (t : Table) : trimWs (createChunkOf t) = createChunkOf t := by
  rw [createChunk_shape]
  exact trimWs_sandwich _ (by decide) (by decide)

theorem createChunk_no_semi {k : String} {t : Table} (h : WFTable k t) :
    ';' ∉ createChunkOf t := by
  have hschema := h.2.1
  have hname := h.2.2.1
  intro hm
  unfold createChunkOf at hm
  rcases List.mem_append.mp hm with hm1 | hm1
  · simp at hm1
  · rcases List.mem_append.mp hm1 with hm2 | hm2
    · simp only [String.data_append] at hm2
      rcases List.mem_append.mp hm2 with hm3 | hm3
      · rcases List.mem_append.mp hm3 with h4 | h4
        · exact absurd (safeIdent_all hschema _ h4) (by decide)
        · simp at h4
      · exact absurd (safeIdent_all hname _ hm3) (by decide)
    · simp only [List.mem_cons] at hm2
      rcases hm2 with h | h | h | hm3
      · simp at h
      · simp at h
      · simp at h
      · rcases List.mem_append.mp hm3 with h4 | h4
        · rcases pyJoin_mem h4 with hs | ⟨l, hl, hxl⟩
          · simp at hs
          · exact (bodyLines_chars h l hl).1 hxl
        · simp at h4

theorem parseBodyItems_full {k : String} {t : Table} (h : WFTable k t) :
    parseBodyItems ((bodyLinesOf t).map String.data)
      = .ok (t.columns.map (fun c => ⟨c.name, c.type, !c.nullable⟩),
        (t.columns.filter (fun col => col.is_pk)).map Column.name) := by
  have hcols := h.2.2.2.2
  have hname := h.2.2.1
  unfold bodyLinesOf
  rw [List.map_append, List.map_map]
  rcases hpk : (t.columns.filter (fun col => col.is_pk)).map Column.name with _ | ⟨p, ps⟩
  · simp only [hpk, ne_eq, not_true_eq_false, if_false, List.map_nil]
    have := parseBodyItems_cols t.columns hcols [] [] rfl
    simpa [Function.comp] using this
  · have hsafe : ∀ q ∈ p :: ps, safeIdent q = true := by
      rw [← hpk]
      intro q hq
      obtain ⟨c, hcf, hce⟩ := List.mem_map.mp hq
      exact hce ▸ (hcols c (List.mem_of_mem_filter hcf)).1
    have htail := parseBodyItems_pkTail t.name p ps hname hsafe
    simp only [hpk, ne_eq, reduceCtorEq, not_false_eq_true, if_true, List.map_cons,
      List.map_nil]
    have := parseBodyItems_cols t.columns hcols [(pkLineOf t.name (p :: ps)).data]
      (p :: ps) htail
    simpa [Function.comp] using this

theorem colLine_data_ne_nil (c : Column) : (colLineOf c).data ≠ [] := by
  simp [colLineOf, String.data_append]

theorem parseCreateChunk_inv {k : String} {t : Table} (h : WFTable k t) :
    parseCreateChunk ((t.schema ++ "." ++ t.name).data ++
      ' ' :: ('(' :: '\x0a' :: ((pyJoin ",\x0a" (bodyLinesOf t)).data ++ '\x0a' :: [')'])))
      = .ok (stmtOfTable t) := by
  have hschema := h.2.1
  have hname := h.2.2.1
  have hnodup := h.2.2.2.1
  have hfq : (t.schema ++ "." ++ t.name).data = t.schema.data ++ '.' :: t.name.data := by
    simp [String.data_append]
  have hsp : ' ' ∉ (t.schema ++ "." ++ t.name).data := by
    rw [hfq]
    intro hm
    rcases List.mem_append.mp hm with h1 | h1
    · exact absurd (safeIdent_all hschema _ h1) (by decide)
    · rcases List.mem_cons.mp h1 with h2 | h2
      · simp at h2
      · exact absurd (safeIdent_all hname _ h2) (by decide)
  have hsplitfq : splitOnChar '.' (t.schema ++ "." ++ t.name).data
      = [t.schema.data, t.name.data] := by
    rw [hfq,
      splitOnChar_append_cons _ (fun hm => absurd (safeIdent_all hschema _ hm) (by decide)),
      splitOnChar_not_mem (fun hm => absurd (safeIdent_all hname _ hm) (by decide))]
  have hmks : (⟨t.schema.data⟩ : String) = t.schema := rfl
  have hmkn : (⟨t.name.data⟩ : String) = t.name := rfl
  have hguard : (safeIdent t.schema && safeIdent t.name) = true := by
    simp [hschema, hname]
  have hpar : ∀ X : List Char, dropPre "(\x0a".data ('(' :: '\x0a' :: X) = some X :=
    fun X => rfl
  have hsuf : dropSuf "\x0a)".data
      ((pyJoin ",\x0a" (bodyLinesOf t)).data ++ '\x0a' :: [')'])
      = some (pyJoin ",\x0a" (bodyLinesOf t)).data := dropSuf_append _ _
  rcases hc0 : t.columns with _ | ⟨c0, cs⟩
  · have hbl : bodyLinesOf t = [] := by simp [bodyLinesOf, hc0]
    simp only [parseCreateChunk, splitFirstSpace_append _ hsp, hsplitfq, hmks, hmkn,
      hguard, if_true, hpar, hsuf, hbl]
    rw [dropSuf_append]
    simp [pyJoin, stmtOfTable, hc0]
  · have hblc : bodyLinesOf t = colLineOf c0 :: (cs.map colLineOf ++
        (if ((t.columns.filter (fun col => col.is_pk)).map Column.name) ≠ [] then
          [pkLineOf t.name ((t.columns.filter (fun col => col.is_pk)).map Column.name)]
         else [])) := by
      rw [bodyLinesOf, hc0]
      simp [hc0]
    have hblne : bodyLinesOf t ≠ [] := by rw [hblc]; simp
    have hbody_ne : (pyJoin ",\x0a" (bodyLinesOf t)).data ≠ [] := by
      rw [hblc]
      rcases (cs.map colLineOf ++ _) with _ | ⟨y, ys⟩
      · simpa [pyJoin] using colLine_data_ne_nil c0
      · rw [show pyJoin ",\x0a" (colLineOf c0 :: y :: ys)
            = colLineOf c0 ++ ",\x0a" ++ pyJoin ",\x0a" (y :: ys) from rfl]
        simp only [String.data_append]
        intro he
        rcases List.append_eq_nil.mp he with ⟨he1, _⟩
        rcases List.append_eq_nil.mp he1 with ⟨he2, _⟩
        exact colLine_data_ne_nil c0 he2
    have hbodysplit := splitBody (bodyLinesOf t) hblne
      (fun l hl => (bodyLines_chars h l hl).2)
    have hct := commaTerminate_withCommas ((bodyLinesOf t).map String.data)
      (by simpa using hblne)
    have hitems := parseBodyItems_full h
    have hpn : ((t.columns.map
        (fun c => (⟨c.name, c.type, !c.nullable⟩ : ParsedColumn))).map
          ParsedColumn.name).Nodup := by
      rw [List.map_map]
      exact hnodup
    simp only [parseCreateChunk, splitFirstSpace_append _ hsp, hsplitfq, hmks, hmkn,
      hguard, if_true, hpar, hsuf, if_neg hbody_ne, hbodysplit, hct, hitems,
      if_pos hpn]
    rfl

theorem getLast?_mem {α : Type} {l : List α} {a : α} (h : l.getLast? = some a) : a ∈ l := by
  induction l with
  | nil => simp at h
  | cons x xs ih =>
      cases xs with
      | nil => simp at h; simp [h]
      | cons y ys =>
          rw [List.getLast?_cons_cons] at h
          exact List.mem_cons_of_mem x (ih h)

theorem mem_of_mem_splitOnChar {c x : Char} {l : List Char} {l' : List Char}
    (hl' : l' ∈ splitOnChar c l) (hx : x ∈ l') : x ∈ l := by
  induction l generalizing l' with
  | nil =>
      simp [splitOnChar] at hl'
      subst hl'
      simp at hx
  | cons y ys ih =>
      simp only [splitOnChar] at hl'
      by_cases hy : (y == c) = true
      · rw [if_pos hy] at hl'
        rcases List.mem_cons.mp hl' with he | he
        · subst he; simp at hx
        · exact List.mem_cons_of_mem y (ih he hx)
      · rw [if_neg hy] at hl'
        rcases hs : splitOnChar c ys with _ | ⟨z, zs⟩
        · exact absurd hs (splitOnChar_ne_nil c ys)
        · rw [hs] at hl'
          rcases List.mem_cons.mp hl' with he | he
          · subst he
            rcases List.mem_cons.mp hx with hxy | hxz
            · exact hxy ▸ List.mem_cons_self y ys
            · exact List.mem_cons_of_mem y (ih (hs ▸ List.mem_cons_self z zs) hxz)
          · exact List.mem_cons_of_mem y (ih (hs ▸ List.mem_cons_of_mem z he) hx)

theorem fkName_chars {r : Relationship} (h : WFRel r) :
    ∀ x ∈ (fkNameOf r).data, (safeIdentChar x || x == '.') = true := by
  intro x hx
  unfold fkNameOf at hx
  simp only [String.data_append] at hx
  rcases List.mem_append.mp hx with h1 | h1
  · rcases List.mem_append.mp h1 with h2 | h2
    · rcases List.mem_append.mp h2 with h3 | h3
      · rcases hL : ((splitOnChar '.' r.from_table.data).map
            (fun l => (⟨l⟩ : String))).getLast? with _ | s
        · rw [hL] at h3; simp at h3
        · rw [hL] at h3
          obtain ⟨l, hlmem, hle⟩ := List.mem_map.mp (getLast?_mem hL)
          have : x ∈ l := by
            rw [← hle] at h3
            exact h3
          exact safeFq_all h.1 x (mem_of_mem_splitOnChar hlmem this)
      · simp only [List.mem_singleton] at h3
        subst h3; decide
    · have := safeIdent_all h.2.1 x h2
      simp [this]
  · have hd : x = '_' ∨ x = 'f' ∨ x = 'k' ∨ x = 'e' ∨ x = 'y' := by simpa using h1
    rcases hd with h5 | h5 | h5 | h5 | h5 <;> subst h5 <;> decide

/-- The ALTER TABLE statement text before the terminating semicolon, with its
four lines exposed. -/
def alterChunkOf (r : Relationship) : List Char :=
  "ALTER TABLE ".data ++ (r.from_table.data ++ '\x0a' ::
    (("    ADD CONSTRAINT ".data ++ (fkNameOf r).data) ++ '\x0a' ::
      (("    FOREIGN KEY (".data ++ (r.from_column.data ++ [')'])) ++ '\x0a' ::
        ("    REFERENCES ".data ++ (r.to_table.data ++
          ' ' :: '(' :: (r.to_column.data ++ [')']))))))

theorem alter_stmt_data (r : Relationship) :
    (_generate_single_fk_statement r).data = alterChunkOf r ++ [';'] := by
  simp [_generate_single_fk_statement, alterChunkOf, String.data_append]

theorem alterChunk_shape (r : Relationship) :
    alterChunkOf r = 'A' :: (("LTER TABLE ".data ++
      (r.from_table.data ++ '\x0a' ::
        (("    ADD CONSTRAINT ".data ++ (fkNameOf r).data) ++ '\x0a' ::
          (("    FOREIGN KEY (".data ++ (r.from_column.data ++ [')'])) ++ '\x0a' ::
            ("    REFERENCES ".data ++ (r.to_table.data ++
              ' ' :: '(' :: r.to_column.data)))))) ++ [')']) := by
  simp [alterChunkOf, List.append_assoc]

theorem alterChunk_trim (r : Relationship) : trimWs (alterChunkOf r) = alterChunkOf r := by
  rw [alterChunk_shape]
  exact trimWs_sandwich _ (by decide) (by decide)

theorem alterChunk_no_semi {r : Relationship} (h : WFRel r) : ';' ∉ alterChunkOf r := by
  intro hm
  unfold alterChunkOf at hm
  have hfk := fkName_chars h
  rcases List.mem_append.mp hm with h1 | h1
  · simp at h1
  rcases List.mem_append.mp h1 with h1 | h1
  · exact absurd (safeFq_all h.1 _ h1) (by decide)
  rcases List.mem_cons.mp h1 with h1 | h1
  · simp at h1
  rcases List.mem_append.mp h1 with h1 | h1
  · rcases List.mem_append.mp h1 with h2 | h2
    · simp at h2
    · exact absurd (hfk _ h2) (by decide)
  rcases List.mem_cons.mp h1 with h1 | h1
  · simp at h1
  rcases List.mem_append.mp h1 with h1 | h1
  · rcases List.mem_append.mp h1 with h2 | h2
    · simp at h2
    rcases List.mem_append.mp h2 with h3 | h3
    · exact absurd (safeIdent_all h.2.1 _ h3) (by decide)
    · simp at h3
  rcases List.mem_cons.mp h1 with h1 | h1
  · simp at h1
  rcases List.mem_append.mp h1 with h1 | h1
  · simp at h1
  rcases List.mem_append.mp h1 with h1 | h1
  · exact absurd (safeFq_all h.2.2.1 _ h1) (by decide)
  rcases List.mem_cons.mp h1 with h1 | h1
  · simp at h1
  rcases List.mem_cons.mp h1 with h1 | h1
  · simp at h1
  rcases List.mem_append.mp h1 with h1 | h1
  · exact absurd (safeIdent_all h.2.2.2 _ h1) (by decide)
  · simp at h1

theorem parseChunk_alter {r : Relationship} (h : WFRel r) :
    parseChunk (alterChunkOf r) = .ok (stmtOfRel r) := by
  have hfk := fkName_chars h
  have hnc : ∀ X : List Char,
      dropPre "CREATE TABLE ".data ("ALTER TABLE ".data ++ X) = none := fun X => rfl
  have hl1nl : '\x0a' ∉ "    ADD CONSTRAINT ".data ++ (fkNameOf r).data := by
    intro hm
    rcases List.mem_append.mp hm with h1 | h1
    · simp at h1
    · exact absurd (hfk _ h1) (by decide)
  have hl2nl : '\x0a' ∉ "    FOREIGN KEY (".data ++ (r.from_column.data ++ [')']) := by
    intro hm
    rcases List.mem_append.mp hm with h1 | h1
    · simp at h1
    rcases List.mem_append.mp h1 with h1 | h1
    · exact absurd (safeIdent_all h.2.1 _ h1) (by decide)
    · simp at h1
  have hl3nl : '\x0a' ∉ "    REFERENCES ".data ++ (r.to_table.data ++
      ' ' :: '(' :: (r.to_column.data ++ [')'])) := by
    intro hm
    rcases List.mem_append.mp hm with h1 | h1
    · simp at h1
    rcases List.mem_append.mp h1 with h1 | h1
    · exact absurd (safeFq_all h.2.2.1 _ h1) (by decide)
    rcases List.mem_cons.mp h1 with h1 | h1
    · simp at h1
    rcases List.mem_cons.mp h1 with h1 | h1
    · simp at h1
    rcases List.mem_append.mp h1 with h1 | h1
    · exact absurd (safeIdent_all h.2.2.2 _ h1) (by decide)
    · simp at h1
  have hftnl : '\x0a' ∉ r.from_table.data :=
    fun hm => absurd (safeFq_all h.1 _ hm) (by decide)
  have hsplit : splitOnChar '\x0a' (r.from_table.data ++ '\x0a' ::
      (("    ADD CONSTRAINT ".data ++ (fkNameOf r).data) ++ '\x0a' ::
        (("    FOREIGN KEY (".data ++ (r.from_column.data ++ [')'])) ++ '\x0a' ::
          ("    REFERENCES ".data ++ (r.to_table.data ++
            ' ' :: '(' :: (r.to_column.data ++ [')']))))))
      = [r.from_table.data,
         "    ADD CONSTRAINT ".data ++ (fkNameOf r).data,
         "    FOREIGN KEY (".data ++ (r.from_column.data ++ [')']),
         "    REFERENCES ".data ++ (r.to_table.data ++
           ' ' :: '(' :: (r.to_column.data ++ [')']))] := by
    rw [splitOnChar_append_cons _ hftnl, splitOnChar_append_cons _ hl1nl,
      splitOnChar_append_cons _ hl2nl, splitOnChar_not_mem hl3nl]
  have hmkft : (⟨r.from_table.data⟩ : String) = r.from_table := rfl
  have hmkfc : (⟨r.from_column.data⟩ : String) = r.from_column := rfl
  have hmktt : (⟨r.to_table.data⟩ : String) = r.to_table := rfl
  have hmktc : (⟨r.to_column.data⟩ : String) = r.to_column := rfl
  have hspt : ' ' ∉ r.to_table.data :=
    fun hm => absurd (safeFq_all h.2.2.1 _ hm) (by decide)
  have hparen : ∀ X : List Char, dropPre "(".data ('(' :: X) = some X := fun X => rfl
  have hsuffc : dropSuf ")".data (r.from_column.data ++ [')'])
      = some r.from_column.data := dropSuf_append _ _
  have hsuftc : dropSuf ")".data (r.to_column.data ++ [')'])
      = some r.to_column.data := dropSuf_append _ _
  have hguard : (safeFq r.to_table && safeIdent r.to_column) = true := by
    simp [h.2.2.1, h.2.2.2]
  simp only [parseChunk, alterChunkOf, hnc, dropPre_append, parseAlterChunk, hsplit,
    hmkft, h.1, if_true, hsuffc, hmkfc, h.2.1,
    splitFirstSpace_append _ hspt, hparen, hsuftc, hmktt, hmktc, hguard, stmtOfRel]

theorem parseChunk_create {k : String} {t : Table} (h : WFTable k t) :
    parseChunk (createChunkOf t) = .ok (stmtOfTable t) := by
  simp only [parseChunk, createChunkOf, dropPre_append]
  exact parseCreateChunk_inv h

/-- A statement string: a parseable chunk followed by the semicolon. -/
def GoodStmtStr (st : DDLStmt) (s : String) : Prop :=
  ∃ c, s.data = c ++ [';'] ∧ ';' ∉ c ∧ trimWs c = c ∧ parseChunk c = .ok st

theorem parseChunks_join (stmts : List DDLStmt) (strs : List String)
    (hf : List.Forall₂ GoodStmtStr stmts strs) :
    ∀ w : List Char, (∀ z ∈ w, z.isWhitespace = true) →
    parseChunks (splitOnChar ';' (w ++ (pyJoin "\x0a\x0a" strs).data)) = .ok stmts := by
  induction hf with
  | nil =>
      intro w hw
      have hns : ';' ∉ w := fun hm => by have := hw _ hm; simp at this
      rw [show (pyJoin "\x0a\x0a" ([] : List String)).data = [] from rfl, List.append_nil,
        splitOnChar_not_mem hns]
      have htw : trimWs w = [] := by
        unfold trimWs
        have h1 : List.dropWhile Char.isWhitespace w = [] :=
          List.dropWhile_eq_nil_iff.mpr (fun x hx => by simp [hw x hx])
        rw [h1]
        rfl
      simp [parseChunks, htw]
  | @cons a b l₁ l₂ hrel hrest ih =>
      intro w hw
      obtain ⟨c, hdata, hnsemi, htrim, hparse⟩ := hrel
      have hwsc : ';' ∉ w ++ c := by
        intro hm
        rcases List.mem_append.mp hm with h1 | h1
        · have := hw _ h1; simp at this
        · exact hnsemi h1
      have htrimwc : trimWs (w ++ c) = c := by
        rw [trimWs_ws_append c hw, htrim]
      cases hrest with
      | nil =>
          have hone : pyJoin "\x0a\x0a" [b] = b := rfl
          rw [hone, hdata, show w ++ (c ++ [';']) = (w ++ c) ++ ';' :: [] by simp,
            splitOnChar_append_cons _ hwsc]
          rw [show splitOnChar ';' [] = [[]] from rfl]
          simp only [parseChunks, htrimwc, hparse]
          rfl
      | @cons a' b' l₁' l₂' hrel2 hrest2 =>
          have hjoin : pyJoin "\x0a\x0a" (b :: b' :: l₂')
              = b ++ "\x0a\x0a" ++ pyJoin "\x0a\x0a" (b' :: l₂') := rfl
          rw [hjoin]
          have hdata2 : (b ++ "\x0a\x0a" ++ pyJoin "\x0a\x0a" (b' :: l₂')).data
              = (c ++ [';']) ++ ('\x0a' :: '\x0a' ::
                (pyJoin "\x0a\x0a" (b' :: l₂')).data) := by
            simp [String.data_append, hdata]
          rw [hdata2,
            show w ++ ((c ++ [';']) ++ ('\x0a' :: '\x0a' ::
              (pyJoin "\x0a\x0a" (b' :: l₂')).data))
              = (w ++ c) ++ ';' :: (['\x0a', '\x0a'] ++
                (pyJoin "\x0a\x0a" (b' :: l₂')).data) by simp,
            splitOnChar_append_cons _ hwsc]
          have ihres := ih (['\x0a', '\x0a']) (by decide)
          rcases hcs : splitOnChar ';' (['\x0a', '\x0a'] ++
              (pyJoin "\x0a\x0a" (b' :: l₂')).data) with _ | ⟨y, ys⟩
          · exact absurd hcs (splitOnChar_ne_nil _ _)
          · rw [hcs] at ihres
            simp only [parseChunks, htrimwc, hparse, ihres]

theorem forall2_maps {α β γ : Type} {R : β → γ → Prop} {l : List α} {f : α → β}
    {g : α → γ} (h : ∀ x ∈ l, R (f x) (g x)) : List.Forall₂ R (l.map f) (l.map g) := by
  induction l with
  | nil => exact List.Forall₂.nil
  | cons x xs ih =>
      exact List.Forall₂.cons (h x (List.mem_cons_self x xs))
        (ih (fun y hy => h y (List.mem_cons_of_mem x hy)))

theorem good_create {k : String} {t : Table} (h : WFTable k t) :
    GoodStmtStr (stmtOfTable t) (_generate_create_table_statement t) :=
  ⟨createChunkOf t, create_stmt_data t, createChunk_no_semi h, createChunk_trim t,
    parseChunk_create h⟩

theorem good_alter {r : Relationship} (h : WFRel r) :
    GoodStmtStr (stmtOfRel r) (_generate_single_fk_statement r) :=
  ⟨alterChunkOf r, alter_stmt_data r, alterChunk_no_semi h, alterChunk_trim r,
    parseChunk_alter h⟩

/-- A column with the foreign-key flag cleared (what `from_ddl` reconstructs
before the ALTER pass). -/
def scrubCol (c : Column) : Column := { c with is_fk := false }

/-- A table as the CREATE pass of `from_ddl` reconstructs it. -/
def scrubT (t : Table) : Table :=
  { name := t.name, schema := t.schema, columns := t.columns.map scrubCol,
    row_count := none }

/-- A catalog with every value scrubbed. -/
def scrubDict (d : PyDict Table) : PyDict Table := d.map (fun e => (e.1, scrubT e.2))

theorem pk_recompute {cols : List Column} (hnd : (cols.map Column.name).Nodup)
    {c : Column} (hc : c ∈ cols) :
    ((cols.filter (fun col => col.is_pk)).map Column.name).contains c.name = c.is_pk := by
  cases hpk : c.is_pk with
  | true =>
      have : c.name ∈ (cols.filter (fun col => col.is_pk)).map Column.name :=
        List.mem_map.mpr ⟨c, List.mem_filter.mpr ⟨hc, hpk⟩, rfl⟩
      simpa [List.elem_iff] using this
  | false =>
      rw [Bool.eq_false_iff]
      intro hcon
      have : c.name ∈ (cols.filter (fun col => col.is_pk)).map Column.name := by
        simpa [List.elem_iff] using hcon
      obtain ⟨c', hc', hce⟩ := List.mem_map.mp this
      have hc'mem := List.mem_of_mem_filter hc'
      have hc'pk := (List.mem_filter.mp hc').2
      have : c' = c := List.inj_on_of_nodup_map hnd hc'mem hc hce
      subst this
      rw [hpk] at hc'pk
      cases hc'pk

theorem create_table_built {k : String} {t : Table} (h : WFTable k t)
    (pks : List String) (hpks : pks = (t.columns.filter (fun col => col.is_pk)).map
      Column.name) :
    (t.columns.map (fun c => (⟨c.name, c.type, !c.nullable⟩ : ParsedColumn))).map
      (fun c => (⟨c.name, c.type, pks.contains c.name, false, !c.notNull⟩ : Column))
      = t.columns.map scrubCol := by
  have hnd := h.2.2.2.1
  rw [List.map_map]
  apply List.map_congr_left
  intro c hc
  simp only [Function.comp]
  subst hpks
  rw [pk_recompute hnd hc]
  simp [scrubCol, Bool.not_not]

theorem dictGet?_eq_none_iff {α : Type} (d : PyDict α) (k : String) :
    dictGet? d k = none ↔ k ∉ d.map Prod.fst := by
  induction d with
  | nil => simp [dictGet?]
  | cons e es ih =>
      obtain ⟨k', v'⟩ := e
      by_cases he : k' = k
      · subst he
        simp [dictGet?]
      · simp only [dictGet?, if_neg he, List.map_cons, List.mem_cons]
        rw [ih]
        constructor
        · intro hn
          intro hc
          rcases hc with hc | hc
          · exact he hc.symm
          · exact hn hc
        · intro hn
          exact fun hc => hn (Or.inr hc)

theorem dictSet_fresh {α : Type} (d : PyDict α) (k : String) (v : α)
    (h : k ∉ d.map Prod.fst) : dictSet d k v = d ++ [(k, v)] := by
  induction d with
  | nil => rfl
  | cons e es ih =>
      obtain ⟨k', v'⟩ := e
      have hne : k' ≠ k := by
        intro he
        exact h (by simp [he])
      simp only [dictSet, if_neg hne, List.cons_append]
      rw [ih (fun hm => h (by simp [hm]))]

theorem createPass_alters (rels : List Relationship) (td : PyDict Table) :
    (rels.map stmtOfRel).foldl createPassStep td = td := by
  induction rels generalizing td with
  | nil => rfl
  | cons r rs ih => simpa [stmtOfRel, createPassStep] using ih td

theorem createPass_creates (l : List (String × Table)) (acc : PyDict Table)
    (hwf : ∀ e ∈ l, WFTable e.1 e.2)
    (hfresh : ∀ e ∈ l, e.1 ∉ acc.map Prod.fst)
    (hnd : (l.map Prod.fst).Nodup) :
    (l.map (fun e => stmtOfTable e.2)).foldl createPassStep acc
      = acc ++ l.map (fun e => (e.1, scrubT e.2)) := by
  induction l generalizing acc with
  | nil => simp
  | cons e es ih =>
      have he := hwf e (List.mem_cons_self e es)
      have hkey := he.1
      have hstep : createPassStep acc (stmtOfTable e.2) = acc ++ [(e.1, scrubT e.2)] := by
        simp only [createPassStep, stmtOfTable, _process_create_stmt]
        rw [create_table_built he _ rfl, ← hkey,
          dictSet_fresh acc e.1 _ (hfresh e (List.mem_cons_self e es))]
        rfl
      have ihres := ih (acc ++ [(e.1, scrubT e.2)])
        (fun e' he' => hwf e' (List.mem_cons_of_mem e he'))
        (fun e' he' => by
          intro hm
          rw [List.map_append] at hm
          rcases List.mem_append.mp hm with hm' | hm'
          · exact hfresh e' (List.mem_cons_of_mem e he') hm'
          · simp only [List.map_cons, List.map_nil, List.mem_singleton] at hm'
            have : e'.1 ∈ es.map Prod.fst := List.mem_map.mpr ⟨e', he', rfl⟩
            rw [List.map_cons] at hnd
            exact (List.nodup_cons.mp hnd).1 (hm' ▸ this))
        (by rw [List.map_cons] at hnd; exact (List.nodup_cons.mp hnd).2)
      rw [List.map_cons, List.foldl_cons, hstep, ihres]
      simp

theorem scrub_updateFirstColumn (cols : List Column) (n : String) :
    (CanonicalSchemaModel.updateFirstColumn cols n
      (fun c => { c with is_fk := true })).map scrubCol = cols.map scrubCol := by
  induction cols with
  | nil => rfl
  | cons c cs ih =>
      simp only [CanonicalSchemaModel.updateFirstColumn]
      by_cases hn : (c.name == n) = true
      · rw [if_pos hn]
        simp [scrubCol]
      · rw [if_neg hn]
        simp only [List.map_cons]
        rw [ih]

theorem dictGet?_scrubDict (d : PyDict Table) (k : String) :
    dictGet? (scrubDict d) k = (dictGet? d k).map scrubT := by
  induction d with
  | nil => rfl
  | cons e es ih =>
      obtain ⟨k', v'⟩ := e
      by_cases he : k' = k
      · subst he
        simp [scrubDict, dictGet?]
      · simp only [scrubDict, List.map_cons, dictGet?, if_neg he]
        exact ih

theorem scrubDict_dictSet (d : PyDict Table) (k : String) (v : Table) :
    scrubDict (dictSet d k v) = dictSet (scrubDict d) k (scrubT v) := by
  induction d with
  | nil => rfl
  | cons e es ih =>
      obtain ⟨k', v'⟩ := e
      by_cases he : k' = k
      · subst he
        simp [scrubDict, dictSet]
      · have hl : scrubDict (dictSet ((k', v') :: es) k v)
            = (k', scrubT v') :: scrubDict (dictSet es k v) := by
          simp [scrubDict, dictSet, if_neg he]
        have hr : dictSet (scrubDict ((k', v') :: es)) k (scrubT v)
            = (k', scrubT v') :: dictSet (scrubDict es) k (scrubT v) := by
          simp [scrubDict, dictSet, if_neg he]
        rw [hl, hr, ih]

theorem dictSet_same {α : Type} (d : PyDict α) (k : String) (v : α)
    (h : dictGet? d k = some v) : dictSet d k v = d := by
  induction d with
  | nil => simp [dictGet?] at h
  | cons e es ih =>
      obtain ⟨k', v'⟩ := e
      by_cases he : k' = k
      · subst he
        rw [show dictGet? ((k', v') :: es) k' = some v' from by simp [dictGet?]] at h
        rw [show dictSet ((k', v') :: es) k' v = (k', v) :: es from by simp [dictSet]]
        rw [← Option.some.inj h]
      · simp only [dictGet?, if_neg he] at h
        simp only [dictSet, if_neg he]
        rw [ih h]

theorem alterPass_scrub (stmts : List DDLStmt)
    (st : PyDict Table × List Relationship) :
    scrubDict ((stmts.foldl alterPassStep st).1) = scrubDict st.1 := by
  induction stmts generalizing st with
  | nil => rfl
  | cons s ss ih =>
      rw [List.foldl_cons, ih]
      cases s with
      | createT sn tn cols pks => rfl
      | addFk ft fc tt tc =>
          simp only [alterPassStep, _process_alter_stmt]
          cases hg : dictGet? st.1 ft with
          | none => rfl
          | some table =>
              simp only
              rw [scrubDict_dictSet]
              apply dictSet_same
              rw [dictGet?_scrubDict, hg]
              simp only [Option.map_some']
              congr 1
              simp [scrubT, scrub_updateFirstColumn]

theorem alterPass_rels (rels : List Relationship)
    (st : PyDict Table × List Relationship) :
    ((rels.map stmtOfRel).foldl alterPassStep st).2 = st.2 ++ rels := by
  induction rels generalizing st with
  | nil => simp
  | cons r rs ih =>
      rw [List.map_cons, List.foldl_cons]
      rw [ih]
      simp [alterPassStep, stmtOfRel, _process_alter_stmt]

theorem alterPass_creates (l : List DDLStmt)
    (hcreate : ∀ s ∈ l, ∃ sn tn cols pks, s = DDLStmt.createT sn tn cols pks)
    (st : PyDict Table × List Relationship) :
    l.foldl alterPassStep st = st := by
  induction l generalizing st with
  | nil => rfl
  | cons s ss ih =>
      obtain ⟨sn, tn, cols, pks, hs⟩ := hcreate s (List.mem_cons_self s ss)
      subst hs
      rw [List.foldl_cons]
      exact ih (fun s' hs' => hcreate s' (List.mem_cons_of_mem _ hs')) st

theorem dictGet?_append_single {α : Type} (d : PyDict α) (k0 k : String) (v0 : α) :
    dictGet? (d ++ [(k0, v0)]) k
      = match dictGet? d k with
        | some v => some v
        | none => if k0 = k then some v0 else none := by
  induction d with
  | nil => simp [dictGet?]
  | cons e es ih =>
      obtain ⟨k', v'⟩ := e
      by_cases he : k' = k
      · subst he
        simp [dictGet?]
      · simp only [List.cons_append, dictGet?, if_neg he]
        exact ih

theorem dictSet_keys_mem {α : Type} (d : PyDict α) (k : String) (v : α)
    (h : k ∈ d.map Prod.fst) : (dictSet d k v).map Prod.fst = d.map Prod.fst := by
  induction d with
  | nil => simp at h
  | cons e es ih =>
      obtain ⟨k', v'⟩ := e
      by_cases he : k' = k
      · subst he
        simp [dictSet]
      · simp only [dictSet, if_neg he, List.map_cons]
        rw [ih (by simpa [Ne.symm he] using h)]

/-- One step of Python dict-key first-occurrence order. -/
def occStep (acc : List String) (x : String) : List String :=
  if acc.contains x then acc else acc ++ [x]

/-- Python dict keys in insertion order: first occurrences. -/
def firstOcc (l : List String) : List String := l.foldl occStep []

theorem relGroupDict_keys_go (rels : List Relationship) :
    ∀ d : PyDict (List Relationship),
    (rels.foldl relGroupStep d).map Prod.fst
      = (rels.map Relationship.from_table).foldl occStep (d.map Prod.fst) := by
  induction rels with
  | nil => intro d; rfl
  | cons r rs ih =>
      intro d
      rw [List.foldl_cons, List.map_cons, List.foldl_cons, ih]
      congr 1
      unfold relGroupStep occStep
      cases hg : dictGet? d r.from_table with
      | none =>
          have : ¬ r.from_table ∈ d.map Prod.fst := (dictGet?_eq_none_iff d _).mp hg
          rw [if_neg (by simpa [List.elem_iff] using this)]
          simp
      | some lst =>
          have hmem : r.from_table ∈ d.map Prod.fst := by
            by_contra hc
            rw [(dictGet?_eq_none_iff d _).mpr hc] at hg
            cases hg
          rw [if_pos (by simpa [List.elem_iff] using hmem)]
          exact dictSet_keys_mem d _ _ hmem

theorem relGroupDict_keys (rels : List Relationship) :
    (relGroupDict rels).map Prod.fst = firstOcc (rels.map Relationship.from_table) :=
  relGroupDict_keys_go rels []

theorem mem_foldl_occStep (l : List String) :
    ∀ (acc : List String) (x : String),
    x ∈ l.foldl occStep acc ↔ x ∈ acc ∨ x ∈ l := by
  induction l with
  | nil => intro acc x; simp
  | cons y ys ih =>
      intro acc x
      rw [List.foldl_cons, ih]
      unfold occStep
      by_cases hy : acc.contains y
      · rw [if_pos hy]
        constructor
        · rintro (h | h)
          · exact Or.inl h
          · exact Or.inr (List.mem_cons_of_mem y h)
        · rintro (h | h)
          · exact Or.inl h
          · rcases List.mem_cons.mp h with he | h'
            · exact Or.inl (he ▸ List.elem_iff.mp hy)
            · exact Or.inr h'
      · rw [if_neg hy]
        simp only [List.mem_append, List.mem_singleton, List.mem_cons]
        tauto

theorem foldl_occStep_nodup (l : List String) :
    ∀ acc : List String, acc.Nodup → (l.foldl occStep acc).Nodup := by
  induction l with
  | nil => intro acc h; exact h
  | cons y ys ih =>
      intro acc h
      rw [List.foldl_cons]
      apply ih
      unfold occStep
      by_cases hy : acc.contains y
      · rw [if_pos hy]; exact h
      · rw [if_neg hy]
        rw [List.nodup_append]
        exact ⟨h, List.nodup_singleton y,
          fun a ha hb => by
            simp only [List.mem_singleton] at hb
            subst hb
            exact hy (List.elem_iff.mpr ha)⟩

theorem firstOcc_nodup (l : List String) : (firstOcc l).Nodup :=
  foldl_occStep_nodup l [] List.nodup_nil

theorem mem_firstOcc {l : List String} {x : String} : x ∈ firstOcc l ↔ x ∈ l := by
  unfold firstOcc
  rw [mem_foldl_occStep]
  simp

theorem relGroupDict_go (rels : List Relationship) :
    ∀ (d : PyDict (List Relationship)) (k : String),
    dictGet? (rels.foldl relGroupStep d) k
      = match dictGet? d k with
        | some lst => some (lst ++ rels.filter (fun r => r.from_table == k))
        | none =>
            if (rels.map Relationship.from_table).contains k
            then some (rels.filter (fun r => r.from_table == k)) else none := by
  induction rels with
  | nil =>
      intro d k
      cases hg : dictGet? d k <;> simp [hg]
  | cons r rs ih =>
      intro d k
      rw [List.foldl_cons, ih]
      by_cases hk : r.from_table = k
      · subst hk
        cases hg : dictGet? d r.from_table with
        | none =>
            unfold relGroupStep
            rw [hg, dictGet?_append_single, hg]
            have hcont : ((r :: rs).map Relationship.from_table).contains r.from_table := by
              simp [List.elem_iff]
            rw [if_pos hcont]
            simp [List.filter_cons]
        | some lst =>
            unfold relGroupStep
            rw [hg, dictGet?_dictSet_self]
            simp [List.filter_cons, List.append_assoc]
      · have hfil : (r :: rs).filter (fun r' => r'.from_table == k)
            = rs.filter (fun r' => r'.from_table == k) := by
          rw [List.filter_cons]
          rw [if_neg (by simpa using hk)]
        have hcont : ((r :: rs).map Relationship.from_table).contains k
            = (rs.map Relationship.from_table).contains k := by
          simp only [List.map_cons, List.contains_cons]
          rw [show (k == r.from_table) = false by simpa using fun h => hk h.symm]
          simp
        cases hg : dictGet? d r.from_table with
        | none =>
            unfold relGroupStep
            rw [hg, dictGet?_append_single, hfil, hcont]
            cases hgk : dictGet? d k with
            | none => rw [if_neg hk]
            | some lst => rfl
        | some lst =>
            unfold relGroupStep
            rw [hg, dictGet?_dictSet_ne _ _ _ _ hk, hfil, hcont]

theorem relGroupDict_get (rels : List Relationship) (k : String) :
    dictGet? (relGroupDict rels) k
      = if (rels.map Relationship.from_table).contains k
        then some (rels.filter (fun r => r.from_table == k)) else none := by
  unfold relGroupDict
  rw [relGroupDict_go rels [] k]
  rfl

theorem flatMap_congr_mem {α β : Type} {l : List α} {f g : α → List β}
    (h : ∀ x ∈ l, f x = g x) : l.flatMap f = l.flatMap g := by
  induction l with
  | nil => rfl
  | cons x xs ih =>
      simp only [List.flatMap_cons]
      rw [h x (List.mem_cons_self x xs), ih (fun y hy => h y (List.mem_cons_of_mem x hy))]

open List in
theorem perm_flatMap_filter (keys : List String) :
    ∀ rels : List Relationship, keys.Nodup →
    (∀ r ∈ rels, r.from_table ∈ keys) →
    keys.flatMap (fun k => rels.filter (fun r => r.from_table == k)) ~ rels := by
  induction keys with
  | nil =>
      intro rels _ hcov
      cases rels with
      | nil => exact List.Perm.refl []
      | cons r rs => exact absurd (hcov r (List.mem_cons_self r rs)) (by simp)
  | cons k ks ih =>
      intro rels hnd hcov
      rw [List.flatMap_cons]
      have hknotin : k ∉ ks := (List.nodup_cons.mp hnd).1
      have hsub : ∀ k' ∈ ks,
          rels.filter (fun r => r.from_table == k')
            = (rels.filter (fun r => !(r.from_table == k))).filter
                (fun r => r.from_table == k') := by
        intro k' hk'
        rw [List.filter_filter]
        apply List.filter_congr
        intro r _
        by_cases hr : (r.from_table == k') = true
        · rw [hr]
          have : (r.from_table == k) = false := by
            have hrk' : r.from_table = k' := by simpa using hr
            have : k' ≠ k := fun he => hknotin (he ▸ hk')
            simpa [hrk'] using this
          simp [this]
        · rw [Bool.eq_false_iff.mpr hr]
          simp
      have hflat : ks.flatMap (fun k' => rels.filter (fun r => r.from_table == k'))
          = ks.flatMap (fun k' => (rels.filter (fun r => !(r.from_table == k))).filter
              (fun r => r.from_table == k')) := flatMap_congr_mem hsub
      rw [hflat]
      have ihres := ih (rels.filter (fun r => !(r.from_table == k)))
        (List.nodup_cons.mp hnd).2
        (fun r hr => by
          have hmem := List.mem_of_mem_filter hr
          have hne : (r.from_table == k) = false := by
            have := (List.mem_filter.mp hr).2
            simpa using this
          have := hcov r hmem
          rcases List.mem_cons.mp this with he | hin
          · exact absurd (by simpa using he) (Bool.eq_false_iff.mp hne)
          · exact hin)
      calc rels.filter (fun r => r.from_table == k) ++
            ks.flatMap (fun k' => (rels.filter (fun r => !(r.from_table == k))).filter
              (fun r => r.from_table == k'))
          ~ rels.filter (fun r => r.from_table == k) ++
            rels.filter (fun r => !(r.from_table == k)) := ihres.append_left _
        _ ~ rels := List.filter_append_perm _ rels

theorem fkOrdered_canonical (rels : List Relationship) :
    (List.insertionSort (fun a b => strLe a b = true)
        ((relGroupDict rels).map Prod.fst)).flatMap
      (fun k => (dictGet? (relGroupDict rels) k).getD [])
      = (List.insertionSort (fun a b => strLe a b = true)
          (firstOcc (rels.map Relationship.from_table))).flatMap
        (fun k => rels.filter (fun r => r.from_table == k)) := by
  rw [relGroupDict_keys]
  apply flatMap_congr_mem
  intro k hk
  have hkmem : k ∈ rels.map Relationship.from_table := by
    have := (List.perm_insertionSort (fun a b => strLe a b = true)
      (firstOcc (rels.map Relationship.from_table))).mem_iff.mp hk
    exact mem_firstOcc.mp this
  rw [relGroupDict_get, if_pos (by simpa [List.elem_iff] using hkmem)]
  rfl

theorem fkOrderedRels_eq (m : CanonicalSchemaModel) :
    fkOrderedRels m
      = (List.insertionSort (fun a b => strLe a b = true)
          (firstOcc (m.relationships.map Relationship.from_table))).flatMap
        (fun k => m.relationships.filter (fun r => r.from_table == k)) :=
  fkOrdered_canonical m.relationships

open List in
theorem fkOrderedRels_perm (m : CanonicalSchemaModel) :
    fkOrderedRels m ~ m.relationships := by
  rw [fkOrderedRels_eq]
  apply perm_flatMap_filter
  · exact (List.perm_insertionSort _ _).symm.nodup
      (firstOcc_nodup (m.relationships.map Relationship.from_table))
  · intro r hr
    rw [(List.perm_insertionSort _ _).mem_iff, mem_firstOcc]
    exact List.mem_map.mpr ⟨r, hr, rfl⟩

theorem foldl_occStep_absorbed (l : List String) :
    ∀ acc : List String, (∀ x ∈ l, x ∈ acc) → l.foldl occStep acc = acc := by
  induction l with
  | nil => intro acc _; rfl
  | cons y ys ih =>
      intro acc h
      rw [List.foldl_cons]
      unfold occStep
      rw [if_pos (List.elem_iff.mpr (h y (List.mem_cons_self y ys)))]
      exact ih acc (fun x hx => h x (List.mem_cons_of_mem y hx))

theorem foldl_occStep_const (blk : List String) (k : String) (acc : List String)
    (hne : blk ≠ []) (hval : ∀ x ∈ blk, x = k) (hk : k ∉ acc) :
    blk.foldl occStep acc = acc ++ [k] := by
  cases blk with
  | nil => exact absurd rfl hne
  | cons x rest =>
      have hx : x = k := hval x (List.mem_cons_self x rest)
      subst hx
      rw [List.foldl_cons]
      unfold occStep
      rw [if_neg (fun hc => hk (List.elem_iff.mp hc))]
      exact foldl_occStep_absorbed rest _ (fun y hy => by
        rw [hval y (List.mem_cons_of_mem x hy)]
        simp)

theorem firstOcc_blocks (ks : List String) (f : String → List String) :
    ∀ acc : List String, (∀ k ∈ ks, k ∉ acc) → ks.Nodup →
    (∀ k ∈ ks, f k ≠ []) → (∀ k ∈ ks, ∀ x ∈ f k, x = k) →
    (ks.flatMap f).foldl occStep acc = acc ++ ks := by
  induction ks with
  | nil => intro acc _ _ _ _; simp
  | cons k ks' ih =>
      intro acc hfresh hnd hne hval
      rw [List.flatMap_cons, List.foldl_append]
      rw [foldl_occStep_const (f k) k acc (hne k (List.mem_cons_self k ks'))
        (hval k (List.mem_cons_self k ks')) (hfresh k (List.mem_cons_self k ks'))]
      rw [ih (acc ++ [k])
        (fun k' hk' => by
          intro hm
          rcases List.mem_append.mp hm with hm' | hm'
          · exact hfresh k' (List.mem_cons_of_mem k hk') hm'
          · simp only [List.mem_singleton] at hm'
            exact (List.nodup_cons.mp hnd).1 (hm' ▸ hk'))
        (List.nodup_cons.mp hnd).2
        (fun k' hk' => hne k' (List.mem_cons_of_mem k hk'))
        (fun k' hk' => hval k' (List.mem_cons_of_mem k hk'))]
      simp

theorem flatMap_eq_single (keys : List String) (f : String → List Relationship)
    (k : String) (hnd : keys.Nodup) (hk : k ∈ keys)
    (hf : ∀ k' ∈ keys, k' ≠ k → f k' = []) : keys.flatMap f = f k := by
  induction keys with
  | nil => simp at hk
  | cons k0 ks ih =>
      rw [List.flatMap_cons]
      by_cases he : k0 = k
      · subst he
        have hrest : ks.flatMap f = [] := by
          have : ∀ k' ∈ ks, f k' = [] := fun k' hk' =>
            hf k' (List.mem_cons_of_mem k0 hk')
              (fun hek => (List.nodup_cons.mp hnd).1 (hek ▸ hk'))
          rw [flatMap_congr_mem this]
          simp
        rw [hrest]
        simp
      · rw [hf k0 (List.mem_cons_self k0 ks) he]
        simp only [List.nil_append]
        exact ih (List.nodup_cons.mp hnd).2
          (by rcases List.mem_cons.mp hk with h1 | h1
              · exact absurd h1.symm he
              · exact h1)
          (fun k' hk' => hf k' (List.mem_cons_of_mem k0 hk'))

theorem fkOrderedRels_idem (m2 m : CanonicalSchemaModel)
    (h : m2.relationships = fkOrderedRels m) : fkOrderedRels m2 = m2.relationships := by
  rw [fkOrderedRels_eq m2, h, fkOrderedRels_eq m]
  have hknodup : (List.insertionSort (fun a b => strLe a b = true)
      (firstOcc (m.relationships.map Relationship.from_table))).Nodup :=
    (List.perm_insertionSort _ _).symm.nodup (firstOcc_nodup _)
  have hksorted := sorted_insertionSort_strLe
    (firstOcc (m.relationships.map Relationship.from_table))
  have hmemk : ∀ k ∈ List.insertionSort (fun a b => strLe a b = true)
      (firstOcc (m.relationships.map Relationship.from_table)),
      k ∈ m.relationships.map Relationship.from_table := fun k hk =>
    mem_firstOcc.mp ((List.perm_insertionSort _ _).mem_iff.mp hk)
  have hLmap : ((List.insertionSort (fun a b => strLe a b = true)
      (firstOcc (m.relationships.map Relationship.from_table))).flatMap
        (fun k => m.relationships.filter (fun r => r.from_table == k))).map
          Relationship.from_table
      = (List.insertionSort (fun a b => strLe a b = true)
          (firstOcc (m.relationships.map Relationship.from_table))).flatMap
        (fun k => (m.relationships.filter (fun r => r.from_table == k)).map
          Relationship.from_table) := List.map_flatMap _ _ _
  have hfo : firstOcc (((List.insertionSort (fun a b => strLe a b = true)
      (firstOcc (m.relationships.map Relationship.from_table))).flatMap
        (fun k => m.relationships.filter (fun r => r.from_table == k))).map
          Relationship.from_table)
      = List.insertionSort (fun a b => strLe a b = true)
          (firstOcc (m.relationships.map Relationship.from_table)) := by
    rw [hLmap]
    unfold firstOcc
    apply firstOcc_blocks _ _ [] (by simp) hknodup
    · intro k hk
      obtain ⟨r, hr, hre⟩ := List.mem_map.mp (hmemk k hk)
      intro hnil
      have : r.from_table ∈ (m.relationships.filter
          (fun r' => r'.from_table == k)).map Relationship.from_table :=
        List.mem_map.mpr ⟨r, List.mem_filter.mpr ⟨hr, by simp [hre]⟩, rfl⟩
      rw [hnil] at this
      simp at this
    · intro k _ x hx
      obtain ⟨r, hr, hre⟩ := List.mem_map.mp hx
      have := (List.mem_filter.mp hr).2
      rw [← hre]
      simpa using this
  rw [hfo, List.Sorted.insertionSort_eq hksorted]
  apply flatMap_congr_mem
  intro k hk
  rw [List.filter_flatMap]
  rw [flatMap_eq_single _ _ k hknodup hk
    (fun k' _ hk' => List.filter_eq_nil_iff.mpr (fun r hr => by
      have := (List.mem_filter.mp hr).2
      have hrk' : r.from_table = k' := by simpa using this
      simp [hrk', hk']))]
  rw [List.filter_filter]
  apply List.filter_congr
  intro r _
  exact Bool.and_self _

theorem forall2_append {α β : Type} {R : α → β → Prop} {l₁ u₁ : List α} {l₂ u₂ : List β}
    (h1 : List.Forall₂ R l₁ l₂) (h2 : List.Forall₂ R u₁ u₂) :
    List.Forall₂ R (l₁ ++ u₁) (l₂ ++ u₂) := by
  induction h1 with
  | nil => exact h2
  | cons hr _ ih => exact List.Forall₂.cons hr ih

theorem colLineOf_scrub (c : Column) : colLineOf (scrubCol c) = colLineOf c := rfl

theorem render_scrub (t : Table) :
    _generate_create_table_statement (scrubT t) = _generate_create_table_statement t := by
  have h1 : (scrubT t).name = t.name := rfl
  have h2 : (scrubT t).schema = t.schema := rfl
  have hcl : (scrubT t).columns.map colLineOf = t.columns.map colLineOf := by
    show (t.columns.map scrubCol).map colLineOf = t.columns.map colLineOf
    rw [List.map_map]
    exact List.map_congr_left (fun c _ => rfl)
  have hpk : ((scrubT t).columns.filter (fun col => col.is_pk)).map Column.name
      = (t.columns.filter (fun col => col.is_pk)).map Column.name := by
    show ((t.columns.map scrubCol).filter (fun col => col.is_pk)).map Column.name
      = (t.columns.filter (fun col => col.is_pk)).map Column.name
    rw [List.filter_map, List.map_map]
    have hc : ((fun col => col.is_pk) ∘ scrubCol) = (fun col : Column => col.is_pk) := rfl
    rw [hc]
    exact List.map_congr_left (fun c _ => rfl)
  unfold _generate_create_table_statement
  rw [h1, h2, hcl, hpk]

theorem scrubDict_keys (d : PyDict Table) : (scrubDict d).map Prod.fst = d.map Prod.fst := by
  unfold scrubDict
  rw [List.map_map]
  rfl

theorem scrubDict_length (d : PyDict Table) : (scrubDict d).length = d.length := by
  unfold scrubDict
  rw [List.length_map]

/-- The tables in the order `to_ddl` serializes them. -/
def sortedTablesOf (m : CanonicalSchemaModel) : PyDict Table :=
  List.insertionSort (fun a b => strLe a.1 b.1 = true) m.tables

/-- The statements `to_ddl` output parses back to. -/
def stmtsOfModel (m : CanonicalSchemaModel) : List DDLStmt :=
  (sortedTablesOf m).map (fun e => stmtOfTable e.2) ++ (fkOrderedRels m).map stmtOfRel

/-- The statement strings `to_ddl` emits. -/
def strsOfModel (m : CanonicalSchemaModel) : List String :=
  (sortedTablesOf m).map (fun e => _generate_create_table_statement e.2) ++
    (fkOrderedRels m).map _generate_single_fk_statement

theorem to_ddl_strs (m : CanonicalSchemaModel) :
    m.to_ddl = pyJoin "\x0a\x0a" (strsOfModel m) := rfl

theorem good_model_strs {m : CanonicalSchemaModel} (h : WFModel m) :
    List.Forall₂ GoodStmtStr (stmtsOfModel m) (strsOfModel m) := by
  apply forall2_append
  · apply forall2_maps
    intro e he
    exact good_create (h.2.1 e ((List.perm_insertionSort _ _).mem_iff.mp he))
  · apply forall2_maps
    intro r hr
    exact good_alter (h.2.2 r ((fkOrderedRels_perm m).mem_iff.mp hr))

theorem from_ddl_wf {m : CanonicalSchemaModel} (h : WFModel m) :
    CanonicalSchemaModel.from_ddl m.to_ddl = .ok (buildModel (stmtsOfModel m)) := by
  have hparse : parse_ddl m.to_ddl = .ok (stmtsOfModel m) := by
    unfold parse_ddl
    rw [to_ddl_strs]
    have := parseChunks_join (stmtsOfModel m) (strsOfModel m) (good_model_strs h)
      [] (by simp)
    simpa using this
  unfold CanonicalSchemaModel.from_ddl
  rw [hparse]

theorem sortedTables_keys_nodup {m : CanonicalSchemaModel} (h : WFModel m) :
    ((sortedTablesOf m).map Prod.fst).Nodup := by
  have hperm : List.Perm ((sortedTablesOf m).map Prod.fst) (m.tables.map Prod.fst) :=
    (List.perm_insertionSort _ _).map Prod.fst
  exact hperm.symm.nodup h.1

theorem buildModel_tables0 {m : CanonicalSchemaModel} (h : WFModel m) :
    (stmtsOfModel m).foldl createPassStep []
      = (sortedTablesOf m).map (fun e => (e.1, scrubT e.2)) := by
  unfold stmtsOfModel
  rw [List.foldl_append, createPass_creates (sortedTablesOf m) []
    (fun e he => h.2.1 e ((List.perm_insertionSort _ _).mem_iff.mp he))
    (fun e _ => by simp)
    (sortedTables_keys_nodup h)]
  rw [createPass_alters]
  simp

theorem scrubT_idem (t : Table) : scrubT (scrubT t) = scrubT t := by
  unfold scrubT
  simp only
  rw [List.map_map]
  rfl

theorem scrubDict_tables0 (l : PyDict Table) :
    scrubDict (l.map (fun e => (e.1, scrubT e.2))) = l.map (fun e => (e.1, scrubT e.2)) := by
  unfold scrubDict
  rw [List.map_map]
  apply List.map_congr_left
  intro e _
  simp [Function.comp, scrubT_idem]

theorem buildModel_spec {m : CanonicalSchemaModel} (h : WFModel m) :
    (buildModel (stmtsOfModel m)).relationships = fkOrderedRels m ∧
    scrubDict (buildModel (stmtsOfModel m)).tables
      = (sortedTablesOf m).map (fun e => (e.1, scrubT e.2)) := by
  unfold buildModel
  simp only
  rw [buildModel_tables0 h]
  constructor
  · show ((stmtsOfModel m).foldl alterPassStep
      ((sortedTablesOf m).map (fun e => (e.1, scrubT e.2)), [])).2 = fkOrderedRels m
    unfold stmtsOfModel
    rw [List.foldl_append,
      alterPass_creates ((sortedTablesOf m).map (fun e => stmtOfTable e.2))
        (fun s hs => by
          obtain ⟨e, hemem, hse⟩ := List.mem_map.mp hs
          exact ⟨e.2.schema, e.2.name, _, _, hse.symm⟩) _,
      alterPass_rels]
    simp
  · rw [alterPass_scrub]
    exact scrubDict_tables0 _

theorem map_render_scrubDict (d : PyDict Table) :
    (scrubDict d).map (fun e => _generate_create_table_statement e.2)
      = d.map (fun e => _generate_create_table_statement e.2) := by
  unfold scrubDict
  rw [List.map_map]
  exact List.map_congr_left (fun e _ => render_scrub e.2)

theorem round_trip_wf {m : CanonicalSchemaModel} (h : WFModel m) :
    ∃ m2, CanonicalSchemaModel.from_ddl m.to_ddl = .ok m2 ∧
      m2.to_ddl = m.to_ddl ∧ m2.tables.length = m.tables.length ∧
      m2.relationships.length = m.relationships.length := by
  refine ⟨buildModel (stmtsOfModel m), from_ddl_wf h, ?_, ?_, ?_⟩
  case refine_2 =>
    have hscrub := (buildModel_spec h).2
    rw [← scrubDict_length (buildModel (stmtsOfModel m)).tables, hscrub,
      List.length_map]
    exact (List.perm_insertionSort _ _).length_eq
  case refine_3 =>
    rw [(buildModel_spec h).1]
    exact (fkOrderedRels_perm m).length_eq
  case refine_1 =>
    have hrels := (buildModel_spec h).1
    have hscrub := (buildModel_spec h).2
    have hkeys : (buildModel (stmtsOfModel m)).tables.map Prod.fst
        = (sortedTablesOf m).map Prod.fst := by
      rw [← scrubDict_keys (buildModel (stmtsOfModel m)).tables, hscrub,
        List.map_map]
      exact List.map_congr_left (fun e _ => rfl)
    have hsortedST : List.Pairwise (fun a b : String × Table => strLe a.1 b.1 = true)
        (sortedTablesOf m) := sorted_insertionSort_entry m.tables
    have hsorted2 : List.Pairwise (fun a b : String × Table => strLe a.1 b.1 = true)
        (buildModel (stmtsOfModel m)).tables := by
      have h1 : List.Pairwise (fun a b : String => strLe a b = true)
          ((sortedTablesOf m).map Prod.fst) := List.pairwise_map.mpr hsortedST
      rw [← hkeys] at h1
      exact List.pairwise_map.mp h1
    have hsortEq : List.insertionSort (fun a b : String × Table => strLe a.1 b.1 = true)
        (buildModel (stmtsOfModel m)).tables = (buildModel (stmtsOfModel m)).tables :=
      List.Sorted.insertionSort_eq hsorted2
    have hrender : (buildModel (stmtsOfModel m)).tables.map
        (fun e => _generate_create_table_statement e.2)
        = (sortedTablesOf m).map (fun e => _generate_create_table_statement e.2) := by
      rw [← map_render_scrubDict (buildModel (stmtsOfModel m)).tables, hscrub,
        List.map_map]
      exact List.map_congr_left (fun e _ => render_scrub e.2)
    have hfk2 : fkOrderedRels (buildModel (stmtsOfModel m))
        = fkOrderedRels m := by
      rw [fkOrderedRels_idem (buildModel (stmtsOfModel m)) m hrels, hrels]
    show pyJoin "\x0a\x0a" _ = _
    rw [to_ddl_strs m]
    unfold _generate_foreign_key_statements
    rw [hsortEq, hrender, hfk2]
    rfl

/-- Well-formedness of a parsed statement, as the parser guarantees it. -/
def WFStmt : DDLStmt → Prop
  | .createT sn tn cols _pks =>
      safeIdent sn = true ∧ safeIdent tn = true ∧
        (∀ c ∈ cols, safeIdent c.name = true ∧ c.name ≠ "CONSTRAINT" ∧
          safeType c.type = true) ∧
        (cols.map ParsedColumn.name).Nodup
  | .addFk ft fc tt tc =>
      safeFq ft = true ∧ safeIdent fc = true ∧ safeFq tt = true ∧ safeIdent tc = true

theorem parseColLine_sound {l : List Char} {pc : ParsedColumn}
    (h : parseColLine l = .ok pc) :
    safeIdent pc.name = true ∧ pc.name ≠ "CONSTRAINT" ∧ safeType pc.type = true := by
  unfold parseColLine at h
  simp only [] at h
  repeat' split at h
  all_goals first
  | (cases h
     done)
  | (cases h
     simp_all [Bool.and_eq_true])

theorem parseBodyItems_sound {items : List (List Char)}
    {cp : List ParsedColumn × List String} (h : parseBodyItems items = .ok cp) :
    ∀ pc ∈ cp.1, safeIdent pc.name = true ∧ pc.name ≠ "CONSTRAINT" ∧
      safeType pc.type = true := by
  induction items generalizing cp with
  | nil =>
      unfold parseBodyItems at h
      injection h with h
      subst h
      intro pc hpc
      simp at hpc
  | cons item rest ih =>
      unfold parseBodyItems at h
      repeat' split at h
      all_goals first
      | (cases h
         done)
      | (cases h
         intro pc hpc
         rename_i x1 acc hrest x2 ty hpre x3 pks hpk
         exact ih hrest pc hpc)
      | (cases h
         intro pc hpc
         rename_i x1 acc hrest x2 hnone x3 col hcol
         simp only [List.mem_cons] at hpc
         rcases hpc with hpc | hpc
         · subst hpc
           exact parseColLine_sound hcol
         · exact ih hrest pc hpc)

theorem bool_and_left {a b : Bool} (h : (a && b) = true) : a = true := by
  rw [Bool.and_eq_true] at h
  exact h.1

theorem bool_and_right {a b : Bool} (h : (a && b) = true) : b = true := by
  rw [Bool.and_eq_true] at h
  exact h.2

theorem parseCreateChunk_sound {rest : List Char} {st : DDLStmt}
    (h : parseCreateChunk rest = .ok st) : WFStmt st := by
  unfold parseCreateChunk at h
  simp only [] at h
  repeat' split at h
  all_goals first
  | (cases h
     done)
  | (cases h
     refine ⟨bool_and_left (by assumption), bool_and_right (by assumption), ?_, ?_⟩
     · intro c hc
       first
       | (exact parseBodyItems_sound (by assumption) c hc)
       | (simp at hc)
     · first
       | assumption
       | simp)

theorem parseAlterChunk_sound {rest : List Char} {st : DDLStmt}
    (h : parseAlterChunk rest = .ok st) : WFStmt st := by
  unfold parseAlterChunk at h
  simp only [] at h
  repeat' split at h
  all_goals first
  | (cases h
     done)
  | (cases h
     exact ⟨by assumption, by assumption, bool_and_left (by assumption),
       bool_and_right (by assumption)⟩)

theorem parseChunk_sound {c : List Char} {st : DDLStmt}
    (h : parseChunk c = .ok st) : WFStmt st := by
  unfold parseChunk at h
  repeat' split at h
  · exact parseCreateChunk_sound h
  · exact parseAlterChunk_sound h
  · cases h

theorem parseChunks_sound {cs : List (List Char)} {stmts : List DDLStmt}
    (h : parseChunks cs = .ok stmts) : ∀ s ∈ stmts, WFStmt s := by
  induction cs generalizing stmts with
  | nil =>
      unfold parseChunks at h
      injection h with h
      subst h
      intro s hs
      simp at hs
  | cons c rest ih =>
      cases rest with
      | nil =>
          have h' : (if trimWs c = [] then (Except.ok [] : Except String (List DDLStmt))
              else .error "expected a terminating semicolon") = .ok stmts := h
          by_cases ht : trimWs c = []
          · rw [if_pos ht] at h'
            injection h' with h'
            subst h'
            intro s hs
            simp at hs
          · rw [if_neg ht] at h'
            cases h'
      | cons c2 rest2 =>
          have h' : (match parseChunk (trimWs c) with
            | .error e => .error e
            | .ok stmt =>
                match parseChunks (c2 :: rest2) with
                | .error e => .error e
                | .ok stmts => .ok (stmt :: stmts)) = Except.ok stmts := h
          cases hpc : parseChunk (trimWs c) with
          | error e =>
              simp only [hpc] at h'
              cases h'
          | ok stmt =>
              simp only [hpc] at h'
              cases hrest : parseChunks (c2 :: rest2) with
              | error e =>
                  simp only [hrest] at h'
                  cases h'
              | ok stmts2 =>
                  simp only [hrest] at h'
                  injection h' with h'
                  subst h'
                  intro s hs
                  rcases List.mem_cons.mp hs with hs | hs
                  · subst hs
                    exact parseChunk_sound hpc
                  · exact ih hrest s hs

theorem mem_dictSet_elim {α : Type} {d : PyDict α} {k : String} {v : α}
    {e : String × α} (h : e ∈ dictSet d k v) : e ∈ d ∨ e = (k, v) := by
  induction d with
  | nil => simpa [dictSet] using h
  | cons e' es ih =>
      obtain ⟨k', v'⟩ := e'
      by_cases he : k' = k
      · subst he
        rw [show dictSet ((k', v') :: es) k' v = (k', v) :: es from by simp [dictSet]] at h
        rcases List.mem_cons.mp h with h | h
        · exact Or.inr h
        · exact Or.inl (List.mem_cons_of_mem _ h)
      · simp only [dictSet, if_neg he, List.mem_cons] at h
        rcases h with h | h
        · exact Or.inl (h ▸ List.mem_cons_self _ _)
        · rcases ih h with h' | h'
          · exact Or.inl (List.mem_cons_of_mem _ h')
          · exact Or.inr h'

theorem dictSet_nodup_keys {α : Type} {d : PyDict α} (hnd : (d.map Prod.fst).Nodup)
    (k : String) (v : α) : ((dictSet d k v).map Prod.fst).Nodup := by
  by_cases hk : k ∈ d.map Prod.fst
  · rw [dictSet_keys_mem d k v hk]
    exact hnd
  · rw [dictSet_fresh d k v hk, List.map_append]
    simp only [List.map_cons, List.map_nil]
    rw [List.nodup_append]
    exact ⟨hnd, List.nodup_singleton k,
      fun a ha hb => by
        simp only [List.mem_singleton] at hb
        subst hb
        exact hk ha⟩

theorem dictGet?_mem {α : Type} {d : PyDict α} {k : String} {v : α}
    (h : dictGet? d k = some v) : (k, v) ∈ d := by
  induction d with
  | nil => simp [dictGet?] at h
  | cons e es ih =>
      obtain ⟨k', v'⟩ := e
      by_cases he : k' = k
      · subst he
        simp only [dictGet?, if_pos rfl] at h
        exact (Option.some.inj h) ▸ List.mem_cons_self _ _
      · simp only [dictGet?, if_neg he] at h
        exact List.mem_cons_of_mem _ (ih h)

theorem mem_updateFirstColumn {cols : List Column} {n : String} {f : Column → Column}
    {c' : Column} (h : c' ∈ CanonicalSchemaModel.updateFirstColumn cols n f) :
    c' ∈ cols ∨ ∃ c ∈ cols, c' = f c := by
  induction cols with
  | nil => simp [CanonicalSchemaModel.updateFirstColumn] at h
  | cons c cs ih =>
      simp only [CanonicalSchemaModel.updateFirstColumn] at h
      by_cases hn : (c.name == n) = true
      · rw [if_pos hn] at h
        rcases List.mem_cons.mp h with h | h
        · exact Or.inr ⟨c, List.mem_cons_self c cs, h⟩
        · exact Or.inl (List.mem_cons_of_mem c h)
      · rw [if_neg hn] at h
        rcases List.mem_cons.mp h with h | h
        · exact Or.inl (h ▸ List.mem_cons_self c cs)
        · rcases ih h with h' | ⟨c0, hc0, he⟩
          · exact Or.inl (List.mem_cons_of_mem c h')
          · exact Or.inr ⟨c0, List.mem_cons_of_mem c hc0, he⟩

theorem updateFirstColumn_names (cols : List Column) (n : String) :
    (CanonicalSchemaModel.updateFirstColumn cols n
      (fun c => { c with is_fk := true })).map Column.name = cols.map Column.name := by
  induction cols with
  | nil => rfl
  | cons c cs ih =>
      simp only [CanonicalSchemaModel.updateFirstColumn]
      by_cases hn : (c.name == n) = true
      · rw [if_pos hn]
        simp
      · rw [if_neg hn]
        simp only [List.map_cons]
        rw [ih]

theorem createPass_wf (stmts : List DDLStmt) :
    ∀ d : PyDict Table, (∀ s ∈ stmts, WFStmt s) →
    (d.map Prod.fst).Nodup → (∀ e ∈ d, WFTable e.1 e.2) →
    ((stmts.foldl createPassStep d).map Prod.fst).Nodup ∧
      ∀ e ∈ stmts.foldl createPassStep d, WFTable e.1 e.2 := by
  induction stmts with
  | nil => intro d _ h1 h2; exact ⟨h1, h2⟩
  | cons s ss ih =>
      intro d hwf h1 h2
      rw [List.foldl_cons]
      cases s with
      | addFk ft fc tt tc => exact ih d (fun s' hs' => hwf s' (List.mem_cons_of_mem _ hs')) h1 h2
      | createT sn tn cols pks =>
          have hst := hwf _ (List.mem_cons_self _ _)
          obtain ⟨hsn, htn, hcols, hnodup⟩ := hst
          apply ih _ (fun s' hs' => hwf s' (List.mem_cons_of_mem _ hs'))
          · exact dictSet_nodup_keys h1 _ _
          · intro e he
            rcases mem_dictSet_elim he with he' | he'
            · exact h2 e he'
            · subst he'
              refine ⟨rfl, hsn, htn, ?_, ?_⟩
              · show ((cols.map _).map Column.name).Nodup
                rw [List.map_map]
                exact hnodup
              · intro c hc
                obtain ⟨pc, hpc, hce⟩ := List.mem_map.mp hc
                have := hcols pc hpc
                exact hce ▸ ⟨this.1, this.2.1, this.2.2⟩

theorem alterPass_tables_wf (stmts : List DDLStmt) :
    ∀ st : PyDict Table × List Relationship,
    (st.1.map Prod.fst).Nodup → (∀ e ∈ st.1, WFTable e.1 e.2) →
    (((stmts.foldl alterPassStep st).1.map Prod.fst).Nodup ∧
      ∀ e ∈ (stmts.foldl alterPassStep st).1, WFTable e.1 e.2) := by
  induction stmts with
  | nil => intro st h1 h2; exact ⟨h1, h2⟩
  | cons s ss ih =>
      intro st h1 h2
      rw [List.foldl_cons]
      cases s with
      | createT sn tn cols pks => exact ih st h1 h2
      | addFk ft fc tt tc =>
          apply ih
          all_goals
            simp only [alterPassStep, _process_alter_stmt]
            cases hg : dictGet? st.1 ft
          · exact h1
          · exact dictSet_nodup_keys h1 _ _
          · exact h2
          · rename_i table
            intro e he
            rcases mem_dictSet_elim he with he' | he'
            · exact h2 e he'
            · subst he'
              have hold := h2 _ (dictGet?_mem hg)
              obtain ⟨hkey, hsch, hnam, hnd, hcols⟩ := hold
              refine ⟨hkey, hsch, hnam, ?_, ?_⟩
              · show ((CanonicalSchemaModel.updateFirstColumn _ _ _).map Column.name).Nodup
                rw [updateFirstColumn_names]
                exact hnd
              · intro c hc
                rcases mem_updateFirstColumn hc with hc' | ⟨c0, hc0, hce⟩
                · exact hcols c hc'
                · subst hce
                  have := hcols c0 hc0
                  exact ⟨this.1, this.2.1, this.2.2⟩

theorem alterPass_rels_wf (stmts : List DDLStmt) :
    ∀ st : PyDict Table × List Relationship,
    (∀ s ∈ stmts, WFStmt s) → (∀ r ∈ st.2, WFRel r) →
    ∀ r ∈ (stmts.foldl alterPassStep st).2, WFRel r := by
  induction stmts with
  | nil => intro st _ h2; exact h2
  | cons s ss ih =>
      intro st hwf h2
      rw [List.foldl_cons]
      cases s with
      | createT sn tn cols pks =>
          exact ih st (fun s' hs' => hwf s' (List.mem_cons_of_mem _ hs')) h2
      | addFk ft fc tt tc =>
          apply ih _ (fun s' hs' => hwf s' (List.mem_cons_of_mem _ hs'))
          intro r hr
          have hstep : (alterPassStep st (DDLStmt.addFk ft fc tt tc)).2
              = st.2 ++ [(⟨ft, fc, tt, tc⟩ : Relationship)] := by
            simp [alterPassStep, _process_alter_stmt]
          rw [hstep] at hr
          rcases List.mem_append.mp hr with hr' | hr'
          · exact h2 r hr'
          · simp only [List.mem_singleton] at hr'
            subst hr'
            exact hwf _ (List.mem_cons_self _ _)

theorem buildModel_wf {stmts : List DDLStmt} (h : ∀ s ∈ stmts, WFStmt s) :
    WFModel (buildModel stmts) := by
  unfold buildModel WFModel
  simp only
  have h1 := createPass_wf stmts [] h (by simp) (by simp)
  have h2 := alterPass_tables_wf stmts (stmts.foldl createPassStep [], []) h1.1 h1.2
  have h3 := alterPass_rels_wf stmts (stmts.foldl createPassStep [], []) h
    (by intro r hr; simp at hr)
  exact ⟨h2.1, h2.2, h3⟩

theorem from_ddl_sound {d : String} {m1 : CanonicalSchemaModel}
    (h : CanonicalSchemaModel.from_ddl d = .ok m1) : WFModel m1 := by
  unfold CanonicalSchemaModel.from_ddl at h
  cases hp : parse_ddl d with
  | error e => rw [hp] at h; cases h
  | ok stmts =>
      rw [hp] at h
      injection h with h
      subst h
      exact buildModel_wf (parseChunks_sound
        (show parseChunks (splitOnChar ';' d.data) = .ok stmts from hp))

def c1BadTableA : Table :=
  { name := "t1"
    schema := "public"
    columns := [{ name := "a", type := "int", is_pk := false, is_fk := false, nullable := true }]
    row_count := none }

def c1BadTableB : Table :=
  { name := "t2"
    schema := "public"
    columns := [{ name := "a", type := "int", is_pk := false, is_fk := false, nullable := true }]
    row_count := none }

def c1BadModel : CanonicalSchemaModel :=
  { tables := [("zz", c1BadTableA), ("aa", c1BadTableB)], relationships := [] }

set_option maxRecDepth 8000 in
/-- Counterexample to C1 as stated: a model whose catalog keys disagree with the
fully-qualified names of their tables (keys "zz" and "aa" for public.t1 and
public.t2) parses back successfully, but the reconstructed model is keyed by the
real fully-qualified names, so the second serialization orders the tables
differently and is not byte-identical to the first. -/
theorem c1_round_trip_counterexample :
    ∃ m2, CanonicalSchemaModel.from_ddl c1BadModel.to_ddl = .ok m2 ∧
      m2.to_ddl ≠ c1BadModel.to_ddl :=
  ⟨_, rfl, by decide⟩

/-- C1 (amended): for every well-formed model (every catalog key is the
fully-qualified name of its table and keys are unique, identifiers are plain SQL identifiers,
column names are unique per table and column type texts fit on one line of the
grammar), from_ddl (to_ddl m) succeeds and serializing the result is
byte-identical to to_ddl m, with table and relationship counts preserved; and
for every DDL text d the parser accepts, round-tripping from_ddl d through
to_ddl again succeeds with byte-identical serialization and preserved counts. -/
theorem c1_round_trip_amended :
    (∀ m : CanonicalSchemaModel, WFModel m →
      ∃ m2, CanonicalSchemaModel.from_ddl m.to_ddl = .ok m2 ∧
        m2.to_ddl = m.to_ddl ∧ m2.tables.length = m.tables.length ∧
        m2.relationships.length = m.relationships.length) ∧
    (∀ (d : String) (m1 : CanonicalSchemaModel),
      CanonicalSchemaModel.from_ddl d = .ok m1 →
      ∃ m2, CanonicalSchemaModel.from_ddl m1.to_ddl = .ok m2 ∧
        m2.to_ddl = m1.to_ddl ∧ m2.tables.length = m1.tables.length ∧
        m2.relationships.length = m1.relationships.length) :=
  ⟨fun _ hm => round_trip_wf hm, fun _ _ h => round_trip_wf (from_ddl_sound h)⟩

instance wfColumnDec (c : Column) : Decidable (WFColumn c) :=
  inferInstanceAs (Decidable (safeIdent c.name = true ∧ c.name ≠ "CONSTRAINT" ∧
    safeType c.type = true))

instance wfTableDec (k : String) (t : Table) : Decidable (WFTable k t) :=
  inferInstanceAs (Decidable (k = t.schema ++ "." ++ t.name ∧ safeIdent t.schema = true ∧
    safeIdent t.name = true ∧ (t.columns.map Column.name).Nodup ∧ ∀ c ∈ t.columns, WFColumn c))

instance wfRelDec (r : Relationship) : Decidable (WFRel r) :=
  inferInstanceAs (Decidable (safeFq r.from_table = true ∧ safeIdent r.from_column = true ∧
    safeFq r.to_table = true ∧ safeIdent r.to_column = true))

instance wfModelDec (m : CanonicalSchemaModel) : Decidable (WFModel m) :=
  inferInstanceAs (Decidable ((m.tables.map Prod.fst).Nodup ∧
    (∀ e ∈ m.tables, WFTable e.1 e.2) ∧ ∀ r ∈ m.relationships, WFRel r))

def c1GoodTableOrders : Table :=
  { name := "t2"
    schema := "public"
    columns := [{ name := "c", type := "int", is_pk := false, is_fk := true, nullable := true }]
    row_count := none }

def c1GoodTableCustomers : Table :=
  { name := "t1"
    schema := "public"
    columns := [{ name := "a", type := "int", is_pk := true, is_fk := false, nullable := false },
      { name := "b", type := "character varying(10)", is_pk := false, is_fk := false, nullable := true }]
    row_count := some 5 }

def c1GoodModel : CanonicalSchemaModel :=
  { tables := [("public.t2", c1GoodTableOrders), ("public.t1", c1GoodTableCustomers)]
    relationships := [{ from_table := "public.t2", from_column := "c", to_table := "public.t1", to_column := "a" }] }

set_option maxRecDepth 8000 in
/-- Witness for C1: a concrete two-table, one-relationship well-formed model on
which the amended round-trip theorem applies. -/
theorem c1_round_trip_amended_witness :
    WFModel c1GoodModel ∧
    ∃ m2, CanonicalSchemaModel.from_ddl c1GoodModel.to_ddl = .ok m2 ∧
      m2.to_ddl = c1GoodModel.to_ddl ∧
      m2.tables.length = c1GoodModel.tables.length ∧
      m2.relationships.length = c1GoodModel.relationships.length :=
  ⟨by decide, c1_round_trip_amended.1 c1GoodModel (by decide)⟩
